import Mathlib

/-!
# Design-tree analysis engine (`figmaParser.js`, `componentDetector.js`)

A shallow embedding of the two analyzers of `src/server/utils`:

* `FigmaParser.parseFigmaNode`  : the token extractor,
* `ComponentDetector.detectComponents` : the component classifier.

Conventions of the embedding.

* A JavaScript number is a rational (`ℚ`): every finite double is one and comparisons
  agree.  The one product the code takes (`c * 255`) is the exact product rounded to
  the nearest double, a tie going to the even significand (`Js.mul`); a magnitude from
  `2 ^ 1024` on stands for an infinity.
* A field that is absent (`undefined`) is `none`; truthiness of a value follows the
  language (`0` and `""` are falsy, every array is truthy).
* Reading a property of `undefined` raises `TypeError`; functions that can do so
  return `Except JsError _`.
* A `Set` is the list of its elements in insertion order, without repetition.
-/

namespace Js

/-- The only exception the analyzed code can raise: a property read on `undefined`. -/
inductive JsError where
  | typeError
  deriving DecidableEq, Repr

deriving instance DecidableEq for Except

/-- The builtin `Math.round`: the nearest integer, a tie going towards plus infinity. -/
def mathRound (x : ℚ) : ℤ := Rat.floor (x + 1 / 2)

/-- The power `2 ^ k` for an integer exponent. -/
def pow2 (k : ℤ) : ℚ :=
  if 0 ≤ k then ((2 ^ k.toNat : ℕ) : ℚ) else 1 / ((2 ^ (-k).toNat : ℕ) : ℚ)

/-- Rounding to the nearest integer, a tie going to the even one. -/
def roundHalfEven (x : ℚ) : ℤ :=
  let f := Rat.floor x
  if x - f < 1 / 2 then f
  else if 1 / 2 < x - f then f + 1
  else if f % 2 = 0 then f else f + 1

/-- The number of halvings that take `n` below 2, at most `fuel` of them. -/
def log2Fuel : Nat → Nat → Nat
  | 0, _ => 0
  | fuel + 1, n => if 2 ≤ n then log2Fuel fuel (n / 2) + 1 else 0

/-- The position of the leading bit of a natural number: `⌊log₂ n⌋` for `n ≥ 1`. -/
def log2 (n : Nat) : Nat := log2Fuel n n

/-- The binary exponent of a non-zero number: the `e` with `2 ^ e ≤ |x| < 2 ^ (e + 1)`. -/
def binade (x : ℚ) : ℤ :=
  let e : ℤ := (log2 x.num.natAbs : ℤ) - (log2 x.den : ℤ)
  if pow2 e ≤ |x| then e else e - 1

/-- Rounding of a real number to the IEEE 754 double nearest to it, a tie going to the
even significand: 53 significant bits, hence a spacing of `2 ^ (e - 52)` in the binade
`e`, and of `2 ^ (-1074)` below `2 ^ (-1022)`.  A result of magnitude `2 ^ 1024` or
more stands for an infinity. -/
def toDouble (x : ℚ) : ℚ :=
  if x = 0 then 0
  else
    let q := pow2 (max (binade x) (-1022) - 52)
    (roundHalfEven (x / q) : ℚ) * q

/-- The operator `a * b` on two numbers: the exact product, rounded to a double. -/
def mul (a b : ℚ) : ℚ := toDouble (a * b)

/-- The builtin `Number.prototype.toString(16)` on an integer: lower-case digits, a leading
minus sign for a negative value. -/
def toString16 (n : ℤ) : String :=
  if n < 0 then "-" ++ String.mk (Nat.toDigits 16 n.natAbs)
  else String.mk (Nat.toDigits 16 n.natAbs)

/-- The expression `Math.round(x).toString(16)`: `Math.round` leaves an infinity
alone, and `toString` renders it as `Infinity` with its sign. -/
def roundToString16 (x : ℚ) : String :=
  if pow2 1024 ≤ |x| then (if x < 0 then "-Infinity" else "Infinity")
  else toString16 (mathRound x)

/-- The builtin `String.prototype.toUpperCase`, on the ASCII letters. -/
def toUpperCase (s : String) : String := String.mk (s.data.map Char.toUpper)

/-- The builtin `String.prototype.toLowerCase`, on the ASCII letters. -/
def toLowerCase (s : String) : String := String.mk (s.data.map Char.toLower)

/-- The builtin `String.prototype.includes`: `pat` occurs in `s` as a contiguous run. -/
def includes (s pat : String) : Bool := decide (pat.data <:+: s.data)

/-- Digits of the fractional part `r / d` (with `r < d`), at most `fuel` of them. -/
def fracDigits : Nat → Nat → Nat → List Char
  | 0, _, _ => []
  | fuel + 1, r, d =>
    if r = 0 then [] else Nat.digitChar (r * 10 / d) :: fracDigits fuel (r * 10 % d) d

/-- Number to string, as a template literal renders it: an integer is its decimal
digits (with a minus sign when negative); a fraction is its decimal expansion.  Exact
for integers below `10 ^ 21` in magnitude and for short terminating decimals. -/
def numberToString (x : ℚ) : String :=
  if x.den = 1 then toString x.num
  else (if x < 0 then "-" else "") ++ toString (x.num.natAbs / x.den) ++ "." ++
    String.mk (fracDigits 17 (x.num.natAbs % x.den) x.den)

/-- The builtin `Number.prototype.toFixed(2)`: the sign, then the integer `n` with
`n / 100` nearest to the magnitude (a tie going to the larger `n`), written with two
decimals. -/
def toFixed2 (x : ℚ) : String :=
  let n := (mathRound (|x| * 100)).toNat
  (if x < 0 then "-" else "") ++ toString (n / 100) ++ "." ++
    String.mk [Nat.digitChar (n / 10 % 10), Nat.digitChar (n % 10)]

/-- A template-literal slot holding a possibly absent number. -/
def templateNum : Option ℚ → String
  | some v => numberToString v
  | none => "undefined"

/-- The expression `x || d` on a possibly absent number: `0` and `undefined` are falsy. -/
def orNum (x : Option ℚ) (d : ℚ) : ℚ :=
  match x with
  | some v => if v = 0 then d else v
  | none => d

/-- The expression `x || d` on a possibly absent string: `""` and `undefined` are falsy. -/
def orStr (x : Option String) (d : String) : String :=
  match x with
  | some v => if v = "" then d else v
  | none => d

/-- Truthiness of a possibly absent number. -/
def truthyNum : Option ℚ → Bool
  | some v => decide (v ≠ 0)
  | none => false

/-- Truthiness of a possibly absent boolean (`undefined` is falsy). -/
def truthy : Option Bool → Bool
  | some b => b
  | none => false

/-- The method `Set.prototype.add`, on a set kept as its insertion-ordered list. -/
def setAdd {α : Type} [DecidableEq α] (s : List α) (x : α) : List α :=
  if x ∈ s then s else s ++ [x]

/-- The call `arr.sort((a, b) => a - b)`: stable ascending numeric sort. -/
def sortNumeric (l : List ℚ) : List ℚ := l.insertionSort (· ≤ ·)

/-- The call `arr.map(f)` for a callback that may raise. -/
def mapE {α β : Type} (f : α → Except JsError β) : List α → Except JsError (List β)
  | [] => pure []
  | a :: as => do
    let b ← f a
    let bs ← mapE f as
    pure (b :: bs)

end Js

/-! ## The design node (input) -/

namespace Figma

/-- An RGB triple of a paint. -/
structure Color where
  r : ℚ
  g : ℚ
  b : ℚ
  deriving DecidableEq

/-- A gradient stop; only its `color` is read. -/
structure GradientStop where
  color : Option Color := none
  deriving DecidableEq

/-- A paint descriptor (an element of `fills` or `strokes`). -/
structure Paint where
  type : Option String := none
  visible : Option Bool := none
  color : Option Color := none
  gradientStops : Option (List GradientStop) := none
  deriving DecidableEq

/-- The `offset` of an effect. -/
structure Offset where
  x : Option ℚ := none
  y : Option ℚ := none
  deriving DecidableEq

/-- An effect descriptor (an element of `effects`). -/
structure Effect where
  type : Option String := none
  visible : Option Bool := none
  offset : Option Offset := none
  radius : Option ℚ := none
  color : Option Color := none
  deriving DecidableEq

/-- The `style` block of a text node. -/
structure TextStyle where
  fontFamily : Option String := none
  fontWeight : Option ℚ := none
  fontSize : Option ℚ := none
  lineHeightPx : Option ℚ := none
  letterSpacing : Option ℚ := none
  textAlign : Option String := none
  deriving DecidableEq

/-- The `absoluteBoundingBox` of a node. -/
structure BoundingBox where
  width : Option ℚ := none
  height : Option ℚ := none
  deriving DecidableEq

/-- The own (non-recursive) fields of a design node; every one may be absent. -/
structure NodeProps where
  id : Option String := none
  name : Option String := none
  type : Option String := none
  absoluteBoundingBox : Option BoundingBox := none
  fills : Option (List Paint) := none
  strokes : Option (List Paint) := none
  strokeWeight : Option ℚ := none
  layoutMode : Option String := none
  itemSpacing : Option ℚ := none
  paddingLeft : Option ℚ := none
  paddingRight : Option ℚ := none
  paddingTop : Option ℚ := none
  paddingBottom : Option ℚ := none
  cornerRadius : Option ℚ := none
  rectangleCornerRadii : Option (List ℚ) := none
  style : Option TextStyle := none
  characters : Option String := none
  effects : Option (List Effect) := none
  localSrc : Option String := none
  AI_INSTRUCTION : Option String := none
  deriving DecidableEq

/-- A design node: its own fields and its possibly absent list of children. -/
inductive Node where
  | mk (props : NodeProps) (children : Option (List Node)) : Node

/-- The own fields of a node. -/
def Node.props : Node → NodeProps
  | .mk p _ => p

/-- The field `children` of a node. -/
def Node.children : Node → Option (List Node)
  | .mk _ c => c

mutual
/-- The nodes of a tree in pre-order: a node, then its children left to right. -/
def Node.preorder : Node → List Node
  | .mk p kids => Node.mk p kids :: Node.preorderKids kids
/-- Pre-order listing below a possibly absent list of children. -/
def Node.preorderKids : Option (List Node) → List Node
  | none => []
  | some l => Node.preorderList l
/-- Pre-order listing of a forest. -/
def Node.preorderList : List Node → List Node
  | [] => []
  | c :: cs => Node.preorder c ++ Node.preorderList cs
end

end Figma

namespace FigmaParser
open Js

/-- Inner helper `toHex` of `rgbToHex` (figmaParser.js, lines 2-5). -/
def toHex (c : ℚ) : String :=
  let hex := roundToString16 (Js.mul c 255)
  if hex.length = 1 then "0" ++ hex else hex

/-- The function `rgbToHex` of figmaParser.js (lines 1-7). -/
def rgbToHex (r g b : ℚ) : String :=
  toUpperCase ("#" ++ toHex r ++ toHex g ++ toHex b)

/-- The `typography` accumulator of `designSystem`. -/
structure Typography where
  headings : List String := []
  body : List String := []
  captions : List String := []
  deriving DecidableEq

/-- The `layout` accumulator of `designSystem`. -/
structure Layout where
  gaps : List String := []
  paddings : List String := []
  deriving DecidableEq

/-- The `effects` accumulator of `designSystem`. -/
structure Effects where
  shadows : List String := []
  blurs : List String := []
  deriving DecidableEq

/-- The `borders` accumulator of `designSystem`. -/
structure Borders where
  radius : List String := []
  widths : List String := []
  deriving DecidableEq

/-- The accumulator `designSystem` of `parseFigmaNode` (lines 10-32): every `Set` as
its insertion-ordered list; initially all empty. -/
structure DesignSystem where
  colors : List String := []
  gradients : List String := []
  fonts : List String := []
  typography : Typography := {}
  layout : Layout := {}
  effects : Effects := {}
  borders : Borders := {}
  spacing : List ℚ := []
  deriving DecidableEq

/-- The value returned by `parseFigmaNode` (lines 146-168). -/
structure TokenSet where
  colors : List String
  gradients : List String
  fonts : List String
  typography : Typography
  layout : Layout
  effects : Effects
  borders : Borders
  spacingScale : List String
  deriving DecidableEq

/-- The separator literal of `gradientColors.join(...)` (line 49), as the source file
spells it. -/
def gradientSeparator : String := " â†’ "

/-- The callback of `gradientStops.map` (lines 46-48): reading `stop.color.r` raises
when the stop has no `color`. -/
def stopToHex (stop : Figma.GradientStop) : Except JsError String :=
  match stop.color with
  | some c => pure (rgbToHex c.r c.g c.b)
  | none => throw JsError.typeError

/-- The callback of `currentNode.fills.forEach` (lines 39-53). -/
def visitFill (ds : DesignSystem) (fill : Figma.Paint) : Except JsError DesignSystem :=
  if fill.visible ≠ some false then
    if fill.type = some "SOLID" ∧ fill.color.isSome then
      match fill.color with
      | some c => pure { ds with colors := setAdd ds.colors (rgbToHex c.r c.g c.b) }
      | none => pure ds
    else if fill.type = some "GRADIENT_LINEAR" ∨ fill.type = some "GRADIENT_RADIAL" then
      match fill.gradientStops with
      | some stops => do
        let gradientColors ← mapE stopToHex stops
        pure { ds with
          gradients := setAdd ds.gradients (String.intercalate gradientSeparator gradientColors) }
      | none => pure ds
    else pure ds
  else pure ds

/-- Step 1 of `traverse` (lines 38-54): the fills. -/
def visitFills (node : Figma.NodeProps) (ds : DesignSystem) : Except JsError DesignSystem :=
  match node.fills with
  | some fills => fills.foldlM visitFill ds
  | none => pure ds

/-- The callback of `currentNode.strokes.forEach` (lines 58-62). -/
def visitStroke (ds : DesignSystem) (stroke : Figma.Paint) : DesignSystem :=
  if stroke.type = some "SOLID" ∧ stroke.color.isSome ∧ stroke.visible ≠ some false then
    match stroke.color with
    | some c => { ds with colors := setAdd ds.colors (rgbToHex c.r c.g c.b) }
    | none => ds
  else ds

/-- Step 2 of `traverse` (lines 57-67): the strokes and, inside the same guard, the
stroke weight. -/
def visitStrokes (node : Figma.NodeProps) (ds : DesignSystem) : DesignSystem :=
  match node.strokes with
  | some strokes =>
    let ds := strokes.foldl visitStroke ds
    match node.strokeWeight with
    | some w =>
      if w ≠ 0 then
        { ds with borders := { ds.borders with
            widths := setAdd ds.borders.widths (numberToString w ++ "px") } }
      else ds
    | none => ds
  | none => ds

/-- The descriptor string `fontInfo` (lines 73-75). -/
def fontInfo (fontFamily : String) (style : Figma.TextStyle) : String :=
  let lh := match style.lineHeightPx with
    | some l => if l ≠ 0 then toString (mathRound l) ++ "px" else "Auto"
    | none => "Auto"
  let ls := match style.letterSpacing with
    | some l => if l ≠ 0 then toFixed2 l ++ "px" else "0px"
    | none => "0px"
  "Family: " ++ fontFamily ++ ", Weight: " ++ numberToString (orNum style.fontWeight 400) ++
    ", Size: " ++ templateNum style.fontSize ++ "px, LineHeight: " ++ lh ++
    ", LetterSpacing: " ++ ls ++ ", Align: " ++ orStr style.textAlign "left"

/-- The comparison `fontSize >= k` on a possibly absent size (`undefined >= k` is false). -/
def sizeGe (fontSize : Option ℚ) (k : ℚ) : Bool :=
  match fontSize with
  | some s => decide (s ≥ k)
  | none => false

/-- Step 3 of `traverse` (lines 70-88): the typography. -/
def visitStyle (node : Figma.NodeProps) (ds : DesignSystem) : DesignSystem :=
  match node.style with
  | some style =>
    match style.fontFamily with
    | some fontFamily =>
      if fontFamily ≠ "" then
        let info := fontInfo fontFamily style
        let ds := { ds with fonts := setAdd ds.fonts info }
        if sizeGe style.fontSize 32 then
          { ds with typography := { ds.typography with
              headings := setAdd ds.typography.headings info } }
        else if sizeGe style.fontSize 14 then
          { ds with typography := { ds.typography with
              body := setAdd ds.typography.body info } }
        else
          { ds with typography := { ds.typography with
              captions := setAdd ds.typography.captions info } }
      else ds
    | none => ds
  | none => ds

/-- The padding values that pass `.filter(val => val && val > 0)` (lines 101-102). -/
def positivePaddings (node : Figma.NodeProps) : List ℚ :=
  [node.paddingTop, node.paddingRight, node.paddingBottom, node.paddingLeft].filterMap
    fun val => match val with
      | some v => if v ≠ 0 ∧ v > 0 then some v else none
      | none => none

/-- Step 4 of `traverse` (lines 91-105): the auto-layout data.  The guard is the
truthiness of the string `layoutMode` (any non-empty string, `"NONE"` included). -/
def visitLayout (node : Figma.NodeProps) (ds : DesignSystem) : DesignSystem :=
  match node.layoutMode with
  | some mode =>
    if mode ≠ "" then
      let ds := match node.itemSpacing with
        | some g =>
          if g ≠ 0 then
            { ds with
              layout := { ds.layout with gaps := setAdd ds.layout.gaps (numberToString g ++ "px") }
              spacing := setAdd ds.spacing g }
          else ds
        | none => ds
      if truthyNum node.paddingLeft || truthyNum node.paddingTop then
        let p := numberToString (orNum node.paddingTop 0) ++ "px " ++
          numberToString (orNum node.paddingRight 0) ++ "px " ++
          numberToString (orNum node.paddingBottom 0) ++ "px " ++
          numberToString (orNum node.paddingLeft 0) ++ "px"
        let ds := { ds with layout := { ds.layout with paddings := setAdd ds.layout.paddings p } }
        { ds with spacing := (positivePaddings node).foldl setAdd ds.spacing }
      else ds
    else ds
  | none => ds

/-- Step 5 of `traverse` (lines 108-115): the corner radii. -/
def visitRadius (node : Figma.NodeProps) (ds : DesignSystem) : DesignSystem :=
  match node.cornerRadius with
  | some r =>
    { ds with borders := { ds.borders with
        radius := setAdd ds.borders.radius (numberToString r ++ "px") } }
  | none =>
    match node.rectangleCornerRadii with
    | some radii =>
      radii.foldl (fun ds r =>
        if r > 0 then
          { ds with borders := { ds.borders with
              radius := setAdd ds.borders.radius (numberToString r ++ "px") } }
        else ds) ds
    | none => ds

/-- The callback of `currentNode.effects.forEach` (lines 119-130). -/
def visitEffect (ds : DesignSystem) (effect : Figma.Effect) : DesignSystem :=
  if effect.visible ≠ some false then
    if effect.type = some "DROP_SHADOW" ∨ effect.type = some "INNER_SHADOW" then
      let shadowColor := match effect.color with
        | some c => rgbToHex c.r c.g c.b
        | none => "#000000"
      let shadowStr := numberToString (orNum (effect.offset.bind (·.x)) 0) ++ "px " ++
        numberToString (orNum (effect.offset.bind (·.y)) 0) ++ "px " ++
        numberToString (orNum effect.radius 0) ++ "px " ++ shadowColor
      { ds with effects := { ds.effects with shadows := setAdd ds.effects.shadows shadowStr } }
    else if effect.type = some "LAYER_BLUR" ∨ effect.type = some "BACKGROUND_BLUR" then
      { ds with effects := { ds.effects with
          blurs := setAdd ds.effects.blurs (numberToString (orNum effect.radius 0) ++ "px") } }
    else ds
  else ds

/-- Step 6 of `traverse` (lines 118-131): the effects. -/
def visitEffects (node : Figma.NodeProps) (ds : DesignSystem) : DesignSystem :=
  match node.effects with
  | some effects => effects.foldl visitEffect ds
  | none => ds

/-- Steps 1 to 6 of `traverse` on one node (lines 37-131), before the recursion. -/
def visit (node : Figma.NodeProps) (ds : DesignSystem) : Except JsError DesignSystem := do
  let ds ← visitFills node ds
  pure (visitEffects node (visitRadius node (visitLayout node (visitStyle node
    (visitStrokes node ds)))))

mutual
/-- The closure `traverse` of `parseFigmaNode` (lines 34-137), the accumulator passed
explicitly. -/
def traverse : Figma.Node → DesignSystem → Except JsError DesignSystem
  | .mk props children, ds => do
    let ds ← visit props ds
    traverseChildren children ds
/-- The guard `if (currentNode.children)` (line 134). -/
def traverseChildren : Option (List Figma.Node) → DesignSystem → Except JsError DesignSystem
  | none, ds => pure ds
  | some l, ds => traverseEach l ds
/-- The loop `children.forEach(child => traverse(child))` (line 135). -/
def traverseEach : List Figma.Node → DesignSystem → Except JsError DesignSystem
  | [], ds => pure ds
  | c :: cs, ds => do
    let ds ← traverse c ds
    traverseEach cs ds
end

/-- The function `parseFigmaNode` of figmaParser.js (lines 9-169). -/
def parseFigmaNode (node : Figma.Node) : Except JsError TokenSet := do
  let designSystem ← traverse node {}
  let spacingScale := (sortNumeric designSystem.spacing).map fun val => numberToString val ++ "px"
  pure {
    colors := designSystem.colors
    gradients := designSystem.gradients
    fonts := designSystem.fonts
    typography := designSystem.typography
    layout := designSystem.layout
    effects := designSystem.effects
    borders := designSystem.borders
    spacingScale := spacingScale }

end FigmaParser

namespace ComponentDetector
open Js

/-- Inner helper `toHex` of `rgbToHex` (componentDetector.js, lines 257-260). -/
def toHex (c : ℚ) : String :=
  let hex := roundToString16 (Js.mul c 255)
  if hex.length = 1 then "0" ++ hex else hex

/-- The function `rgbToHex` of componentDetector.js (lines 256-262). -/
def rgbToHex (r g b : ℚ) : String :=
  toUpperCase ("#" ++ toHex r ++ toHex g ++ toHex b)

/-- The four sides returned by `extractPadding`. -/
structure Padding where
  top : ℚ
  right : ℚ
  bottom : ℚ
  left : ℚ
  deriving DecidableEq

/-- The `properties` bag of a card or form record. -/
structure BoxProperties where
  bgColor : Option String
  borderRadius : ℚ
  padding : Option Padding
  width : ℚ
  height : ℚ
  deriving DecidableEq

/-- The `properties` bag of a button record. -/
structure ButtonProperties where
  bgColor : Option String
  textColor : Option String
  borderRadius : ℚ
  padding : Option Padding
  width : ℚ
  height : ℚ
  deriving DecidableEq

/-- The record built by `analyzeButton`. -/
structure ButtonRecord where
  type : String
  variant : String
  text : String
  properties : ButtonProperties
  deriving DecidableEq

/-- The record built by `analyzeCard`; a flag is `none` when `children` is absent. -/
structure CardRecord where
  type : String
  variant : String
  hasImage : Option Bool
  hasText : Option Bool
  hasButton : Option Bool
  properties : BoxProperties
  deriving DecidableEq

/-- The `properties` bag of a navigation record. -/
structure NavigationProperties where
  bgColor : Option String
  gap : ℚ
  padding : Option Padding
  deriving DecidableEq

/-- The record built by `analyzeNavigation`. -/
structure NavigationRecord where
  type : String
  variant : String
  linkCount : Nat
  properties : NavigationProperties
  deriving DecidableEq

/-- The record built by `analyzeFormElement`. -/
structure FormRecord where
  type : String
  elementType : String
  properties : BoxProperties
  deriving DecidableEq

/-- The record built by `analyzeIcon`. -/
structure IconRecord where
  type : String
  name : Option String
  size : ℚ
  color : Option String
  deriving DecidableEq

/-- The accumulator `components` of `detectComponents` (lines 6-12). -/
structure Components where
  buttons : List ButtonRecord := []
  cards : List CardRecord := []
  navigation : List NavigationRecord := []
  forms : List FormRecord := []
  icons : List IconRecord := []
  deriving DecidableEq

/-- The `summary` of the catalog (lines 52-58). -/
structure Summary where
  buttonCount : Nat
  cardCount : Nat
  navigationCount : Nat
  formCount : Nat
  iconCount : Nat
  deriving DecidableEq

/-- The value returned by `detectComponents` (lines 50-59). -/
structure Catalog where
  components : Components
  summary : Summary
  deriving DecidableEq

/-- The expression `node.name?.toLowerCase().includes(kw)`: absent when `name` is. -/
def nameIncludes (node : Figma.Node) (kw : String) : Option Bool :=
  node.props.name.map fun n => includes (toLowerCase n) kw

/-- The expression `node.name?.toLowerCase() || ''`. -/
def lowerName (node : Figma.Node) : String :=
  orStr (node.props.name.map toLowerCase) ""

/-- The callback `fill => fill.type === 'SOLID' && fill.visible !== false`. -/
def isVisibleSolid (fill : Figma.Paint) : Bool :=
  decide (fill.type = some "SOLID") && decide (fill.visible ≠ some false)

/-- The callback `child => child.type === 'TEXT'`. -/
def isText (child : Figma.Node) : Bool :=
  decide (child.props.type = some "TEXT")

/-- The function `isButton` (lines 63-79), as the truthiness of its result. -/
def isButton (node : Figma.Node) : Bool :=
  let hasText := node.children.map fun cs => cs.any isText
  let hasFill := node.props.fills.map fun fs => fs.any isVisibleSolid
  let hasRadius := node.props.cornerRadius.isSome || node.props.rectangleCornerRadii.isSome
  let hasName := truthy (nameIncludes node "button") || truthy (nameIncludes node "btn") ||
    truthy (nameIncludes node "cta")
  (truthy hasText && truthy hasFill && hasRadius) || hasName

/-- The function `extractPadding` (lines 269-277). -/
def extractPadding (node : Figma.Node) : Option Padding :=
  if !truthyNum node.props.paddingLeft && !truthyNum node.props.paddingTop then none
  else some {
    top := orNum node.props.paddingTop 0
    right := orNum node.props.paddingRight 0
    bottom := orNum node.props.paddingBottom 0
    left := orNum node.props.paddingLeft 0 }

/-- The function `extractBgColor` (lines 264-267): reading `bgFill.color.r` raises when
the fill found has no `color`. -/
def extractBgColor (node : Figma.Node) : Except JsError (Option String) :=
  let bgFill := node.props.fills.bind fun fs => fs.find? isVisibleSolid
  match bgFill with
  | some fill =>
    match fill.color with
    | some c => pure (some (rgbToHex c.r c.g c.b))
    | none => throw JsError.typeError
  | none => pure none

/-- The function `classifyButtonVariant` (lines 101-117). -/
def classifyButtonVariant (node : Figma.Node) : String :=
  let name := lowerName node
  if includes name "primary" then "primary"
  else if includes name "secondary" then "secondary"
  else if includes name "outline" then "outline"
  else if includes name "text" || includes name "link" then "text"
  else
    let hasFill := truthy (node.props.fills.map fun fs => fs.any isVisibleSolid)
    let hasStroke := match node.props.strokes with
      | some ss => decide (ss.length > 0)
      | none => false
    if hasFill && !hasStroke then "primary"
    else if !hasFill && hasStroke then "outline"
    else if !hasFill && !hasStroke then "text"
    else "default"

/-- The function `analyzeButton` (lines 81-99): reading `bgFill.color.r` raises when the
fill found has no `color`. -/
def analyzeButton (node : Figma.Node) : Except JsError ButtonRecord := do
  let textNode := node.children.bind fun cs => cs.find? isText
  let bgFill := node.props.fills.bind fun fs => fs.find? isVisibleSolid
  let bgColor ← match bgFill with
    | some fill =>
      match fill.color with
      | some c => pure (some (rgbToHex c.r c.g c.b))
      | none => throw JsError.typeError
    | none => pure none
  let textColor :=
    match ((textNode.bind fun t => t.props.fills).bind fun fs => fs.head?).bind fun f => f.color with
    | some c => some (rgbToHex c.r c.g c.b)
    | none => none
  pure {
    type := "button"
    variant := classifyButtonVariant node
    text := orStr (textNode.bind fun t => t.props.characters) "Button"
    properties := {
      bgColor := bgColor
      textColor := textColor
      borderRadius := orNum node.props.cornerRadius 0
      padding := extractPadding node
      width := orNum (node.props.absoluteBoundingBox.bind fun b => b.width) 0
      height := orNum (node.props.absoluteBoundingBox.bind fun b => b.height) 0 } }

/-- The function `isCard` (lines 120-135), as the truthiness of its result. -/
def isCard (node : Figma.Node) : Bool :=
  let hasMultipleChildren := match node.children with
    | some cs => decide (cs.length ≥ 2)
    | none => false
  let hasFill := node.props.fills.map fun fs => fs.any fun fill => decide (fill.visible ≠ some false)
  let hasRadius := node.props.cornerRadius.isSome || node.props.rectangleCornerRadii.isSome
  let hasName := nameIncludes node "card"
  let isVertical := decide (node.props.layoutMode = some "VERTICAL")
  (hasMultipleChildren && truthy hasFill && hasRadius && isVertical) || truthy hasName

/-- The function `classifyCardVariant` (lines 160-167). -/
def classifyCardVariant (node : Figma.Node) : String :=
  let name := lowerName node
  if includes name "product" then "product"
  else if includes name "blog" || includes name "article" then "blog"
  else if includes name "feature" then "feature"
  else if includes name "testimonial" then "testimonial"
  else "default"

/-- The callback of `hasImage` (lines 138-140), as the truthiness of its result. -/
def isImageRectangle (child : Figma.Node) : Bool :=
  decide (child.props.type = some "RECTANGLE") &&
    truthy (child.props.fills.map fun fs => fs.any fun fill => decide (fill.type = some "IMAGE"))

/-- The function `analyzeCard` (lines 137-158). -/
def analyzeCard (node : Figma.Node) : Except JsError CardRecord := do
  let hasImage := node.children.map fun cs => cs.any isImageRectangle
  let hasText := node.children.map fun cs => cs.any isText
  let hasButton := node.children.map fun cs => cs.any isButton
  let bgColor ← extractBgColor node
  pure {
    type := "card"
    variant := classifyCardVariant node
    hasImage := hasImage
    hasText := hasText
    hasButton := hasButton
    properties := {
      bgColor := bgColor
      borderRadius := orNum node.props.cornerRadius 0
      padding := extractPadding node
      width := orNum (node.props.absoluteBoundingBox.bind fun b => b.width) 0
      height := orNum (node.props.absoluteBoundingBox.bind fun b => b.height) 0 } }

/-- The callback shared by `isNavigation` and `analyzeNavigation` (lines 178-180,
189-191): the child is TEXT or has a direct TEXT child. -/
def isTextOrHasTextChild (child : Figma.Node) : Bool :=
  isText child || truthy (child.children.map fun cs => cs.any isText)

/-- The function `isNavigation` (lines 170-186), as the truthiness of its result. -/
def isNavigation (node : Figma.Node) : Bool :=
  let isHorizontal := decide (node.props.layoutMode = some "HORIZONTAL")
  let hasMultipleChildren := match node.children with
    | some cs => decide (cs.length ≥ 3)
    | none => false
  let hasTextChildren := match node.children with
    | some cs => decide ((cs.filter isTextOrHasTextChild).length ≥ 3)
    | none => false
  let hasName := truthy (nameIncludes node "nav") || truthy (nameIncludes node "header") ||
    truthy (nameIncludes node "menu")
  (isHorizontal && hasMultipleChildren && hasTextChildren) || hasName

/-- The function `analyzeNavigation` (lines 188-203). -/
def analyzeNavigation (node : Figma.Node) : Except JsError NavigationRecord := do
  let links := match node.children with
    | some cs => cs.filter isTextOrHasTextChild
    | none => []
  let bgColor ← extractBgColor node
  pure {
    type := "navigation"
    variant := if truthy (nameIncludes node "footer") then "footer" else "header"
    linkCount := links.length
    properties := {
      bgColor := bgColor
      gap := orNum node.props.itemSpacing 0
      padding := extractPadding node } }

/-- The function `isFormElement` (lines 206-213). -/
def isFormElement (node : Figma.Node) : Bool :=
  let name := lowerName node
  includes name "input" || includes name "form" || includes name "field" ||
    includes name "textarea" || includes name "select"

/-- The function `analyzeFormElement` (lines 215-234). -/
def analyzeFormElement (node : Figma.Node) : Except JsError FormRecord := do
  let name := lowerName node
  let elementType := "input"
  let elementType := if includes name "textarea" then "textarea" else elementType
  let elementType := if includes name "select" then "select" else elementType
  let elementType := if includes name "checkbox" then "checkbox" else elementType
  let elementType := if includes name "radio" then "radio" else elementType
  let bgColor ← extractBgColor node
  pure {
    type := "form"
    elementType := elementType
    properties := {
      bgColor := bgColor
      borderRadius := orNum node.props.cornerRadius 0
      padding := extractPadding node
      width := orNum (node.props.absoluteBoundingBox.bind fun b => b.width) 0
      height := orNum (node.props.absoluteBoundingBox.bind fun b => b.height) 0 } }

/-- The function `isIcon` (lines 237-244), as the truthiness of its result. -/
def isIcon (node : Figma.Node) : Bool :=
  let size := orNum (node.props.absoluteBoundingBox.bind fun b => b.width) 0
  let isSmall := decide (size ≤ 48)
  let isVector := decide (node.props.type = some "VECTOR") ||
    decide (node.props.type = some "BOOLEAN_OPERATION")
  let hasName := nameIncludes node "icon"
  (isSmall && isVector) || truthy hasName

/-- The function `analyzeIcon` (lines 246-253). -/
def analyzeIcon (node : Figma.Node) : Except JsError IconRecord := do
  let color ← extractBgColor node
  pure {
    type := "icon"
    name := node.props.name
    size := orNum (node.props.absoluteBoundingBox.bind fun b => b.width) 0
    color := color }

/-- The five detection steps of `traverse` on one node (lines 17-40). -/
def visit (node : Figma.Node) (components : Components) : Except JsError Components := do
  let components ←
    if isButton node then do
      let r ← analyzeButton node
      pure { components with buttons := components.buttons ++ [r] }
    else pure components
  let components ←
    if isCard node then do
      let r ← analyzeCard node
      pure { components with cards := components.cards ++ [r] }
    else pure components
  let components ←
    if isNavigation node then do
      let r ← analyzeNavigation node
      pure { components with navigation := components.navigation ++ [r] }
    else pure components
  let components ←
    if isFormElement node then do
      let r ← analyzeFormElement node
      pure { components with forms := components.forms ++ [r] }
    else pure components
  if isIcon node then do
    let r ← analyzeIcon node
    pure { components with icons := components.icons ++ [r] }
  else pure components

mutual
/-- The closure `traverse` of `detectComponents` (lines 14-46), the accumulator passed
explicitly; the unused `depth` counter is left out. -/
def traverse : Figma.Node → Components → Except JsError Components
  | .mk props children, components => do
    let components ← visit (.mk props children) components
    traverseChildren children components
/-- The guard `if (currentNode.children)` (line 43). -/
def traverseChildren : Option (List Figma.Node) → Components → Except JsError Components
  | none, components => pure components
  | some l, components => traverseEach l components
/-- The loop `children.forEach(child => traverse(child, depth + 1))` (line 44). -/
def traverseEach : List Figma.Node → Components → Except JsError Components
  | [], components => pure components
  | c :: cs, components => do
    let components ← traverse c components
    traverseEach cs components
end

/-- The function `detectComponents` of componentDetector.js (lines 5-60). -/
def detectComponents (node : Figma.Node) : Except JsError Catalog := do
  let components ← traverse node {}
  pure {
    components := components
    summary := {
      buttonCount := components.buttons.length
      cardCount := components.cards.length
      navigationCount := components.navigation.length
      formCount := components.forms.length
      iconCount := components.icons.length } }

end ComponentDetector

namespace Spec

/-- Spec side: the upper-case hexadecimal digit of a value below 16. -/
def upperHexDigit (d : Nat) : Char :=
  if d < 10 then Char.ofNat (48 + d) else Char.ofNat (55 + d)

/-- Spec side: the two-digit, zero-padded, upper-case hexadecimal rendering. -/
def twoDigitUpperHex (v : Nat) : String :=
  String.mk [upperHexDigit (v / 16), upperHexDigit (v % 16)]

/-- Spec side: `v` is `x` rounded to the nearest integer, a tie going up. -/
def IsRoundHalfUp (x : ℚ) (v : Nat) : Prop :=
  (v : ℚ) - 1 / 2 ≤ x ∧ x < (v : ℚ) + 1 / 2

/-- Spec side: the records appended to an accumulator by a list of nodes taken in
order: per kind, the nodes that satisfy the predicate, each run through the analyzer. -/
def collect (nodes : List Figma.Node) (acc : ComponentDetector.Components) :
    Except Js.JsError ComponentDetector.Components := do
  let buttons ← Js.mapE ComponentDetector.analyzeButton (nodes.filter ComponentDetector.isButton)
  let cards ← Js.mapE ComponentDetector.analyzeCard (nodes.filter ComponentDetector.isCard)
  let navigation ←
    Js.mapE ComponentDetector.analyzeNavigation (nodes.filter ComponentDetector.isNavigation)
  let forms ←
    Js.mapE ComponentDetector.analyzeFormElement (nodes.filter ComponentDetector.isFormElement)
  let icons ← Js.mapE ComponentDetector.analyzeIcon (nodes.filter ComponentDetector.isIcon)
  pure {
    buttons := acc.buttons ++ buttons
    cards := acc.cards ++ cards
    navigation := acc.navigation ++ navigation
    forms := acc.forms ++ forms
    icons := acc.icons ++ icons }

/-- Spec side: the catalog read off the pre-order listing of the tree: each list is
the pre-order nodes that satisfy the kind's predicate, each run through the kind's
analyzer; each count is the length of its list. -/
def classifyPreorder (t : Figma.Node) : Except Js.JsError ComponentDetector.Catalog := do
  let nodes := Figma.Node.preorder t
  let buttons ← Js.mapE ComponentDetector.analyzeButton (nodes.filter ComponentDetector.isButton)
  let cards ← Js.mapE ComponentDetector.analyzeCard (nodes.filter ComponentDetector.isCard)
  let navigation ←
    Js.mapE ComponentDetector.analyzeNavigation (nodes.filter ComponentDetector.isNavigation)
  let forms ←
    Js.mapE ComponentDetector.analyzeFormElement (nodes.filter ComponentDetector.isFormElement)
  let icons ← Js.mapE ComponentDetector.analyzeIcon (nodes.filter ComponentDetector.isIcon)
  pure {
    components := {
      buttons := buttons
      cards := cards
      navigation := navigation
      forms := forms
      icons := icons }
    summary := {
      buttonCount := buttons.length
      cardCount := cards.length
      navigationCount := navigation.length
      formCount := forms.length
      iconCount := icons.length } }

/-- Spec side: the paint is of type SOLID, is visible (its flag is not `false`) and has
a colour whose conversion is the string `h`. -/
def PaintYields (p : Figma.Paint) (h : String) : Prop :=
  p.type = some "SOLID" ∧ p.visible ≠ some false ∧
    ∃ c, p.color = some c ∧ FigmaParser.rgbToHex c.r c.g c.b = h

/-- Spec side: the node has a fill or a stroke that yields the string `h`. -/
def NodeYieldsColor (n : Figma.NodeProps) (h : String) : Prop :=
  (∃ fills, n.fills = some fills ∧ ∃ p ∈ fills, PaintYields p h) ∨
  (∃ strokes, n.strokes = some strokes ∧ ∃ p ∈ strokes, PaintYields p h)

/-- Spec side: `kw` occurs in `s` as a contiguous run, letter case ignored. -/
def ContainsCI (s kw : String) : Prop :=
  ∃ pre mid post : List Char,
    s.data = pre ++ mid ++ post ∧ mid.map Char.toLower = kw.data.map Char.toLower

/-- Spec side: the node has a name, and the name contains `kw` case-insensitively. -/
def NameContains (n : Figma.Node) (kw : String) : Prop :=
  ∃ nm, n.props.name = some nm ∧ ContainsCI nm kw

/-- Spec side: the node has a direct child of type TEXT. -/
def HasTextChild (n : Figma.Node) : Prop :=
  ∃ kids, n.children = some kids ∧ ∃ c ∈ kids, c.props.type = some "TEXT"

/-- Spec side: the node has a fill of type SOLID whose `visible` flag is not `false`. -/
def HasVisibleSolidFill (n : Figma.Node) : Prop :=
  ∃ fills, n.props.fills = some fills ∧
    ∃ f ∈ fills, f.type = some "SOLID" ∧ f.visible ≠ some false

/-- Spec side: the node has a fill, of any kind, whose `visible` flag is not `false`. -/
def HasVisibleFill (n : Figma.Node) : Prop :=
  ∃ fills, n.props.fills = some fills ∧ ∃ f ∈ fills, f.visible ≠ some false

/-- Spec side: a corner radius is given, as `cornerRadius` or as `rectangleCornerRadii`. -/
def HasCornerRadius (n : Figma.Node) : Prop :=
  (∃ r, n.props.cornerRadius = some r) ∨ (∃ rs, n.props.rectangleCornerRadii = some rs)

/-- Spec side: the node has at least one stroke. -/
def HasStroke (n : Figma.Node) : Prop :=
  ∃ ss, n.props.strokes = some ss ∧ ss ≠ []

/-- Spec side: the button predicate of the classifier table. -/
def IsButton (n : Figma.Node) : Prop :=
  (HasTextChild n ∧ HasVisibleSolidFill n ∧ HasCornerRadius n) ∨
    NameContains n "button" ∨ NameContains n "btn" ∨ NameContains n "cta"

/-- Spec side: the card predicate of the classifier table. -/
def IsCard (n : Figma.Node) : Prop :=
  ((∃ kids, n.children = some kids ∧ 2 ≤ kids.length) ∧ HasVisibleFill n ∧
      HasCornerRadius n ∧ n.props.layoutMode = some "VERTICAL") ∨
    NameContains n "card"

/-- Spec side: the button-variant rules, the first matching one deciding `v`. -/
def ButtonVariantRule (n : Figma.Node) (v : String) : Prop :=
  (NameContains n "primary" → v = "primary") ∧
  (¬ NameContains n "primary" → NameContains n "secondary" → v = "secondary") ∧
  (¬ NameContains n "primary" → ¬ NameContains n "secondary" → NameContains n "outline" →
    v = "outline") ∧
  (¬ NameContains n "primary" → ¬ NameContains n "secondary" → ¬ NameContains n "outline" →
    (NameContains n "text" ∨ NameContains n "link") → v = "text") ∧
  (¬ NameContains n "primary" → ¬ NameContains n "secondary" → ¬ NameContains n "outline" →
    ¬ NameContains n "text" → ¬ NameContains n "link" →
      (HasVisibleSolidFill n → ¬ HasStroke n → v = "primary") ∧
      (¬ HasVisibleSolidFill n → HasStroke n → v = "outline") ∧
      (¬ HasVisibleSolidFill n → ¬ HasStroke n → v = "text") ∧
      (HasVisibleSolidFill n → HasStroke n → v = "default"))

/-- Spec side: the fill makes the token extractor read a colourless gradient stop: it
is visible, of a gradient type, and one of its stops has no `color`. -/
def FillRaises (f : Figma.Paint) : Prop :=
  f.visible ≠ some false ∧
    (f.type = some "GRADIENT_LINEAR" ∨ f.type = some "GRADIENT_RADIAL") ∧
    ∃ stops, f.gradientStops = some stops ∧ ∃ s ∈ stops, s.color = none

/-- Spec side: the first visible SOLID fill of the node has no `color`. -/
def BgFillColorless (n : Figma.Node) : Prop :=
  ∃ fills f, n.props.fills = some fills ∧
    fills.find? ComponentDetector.isVisibleSolid = some f ∧ f.color = none

/-- Spec side: the node is matched by at least one of the five predicates. -/
def IsMatched (n : Figma.Node) : Prop :=
  ComponentDetector.isButton n = true ∨ ComponentDetector.isCard n = true ∨
    ComponentDetector.isNavigation n = true ∨ ComponentDetector.isFormElement n = true ∨
    ComponentDetector.isIcon n = true

/-- Spec side: the child is a RECTANGLE that has a fill of type IMAGE. -/
def IsImageRectangle (c : Figma.Node) : Prop :=
  c.props.type = some "RECTANGLE" ∧
    ∃ fills, c.props.fills = some fills ∧ ∃ f ∈ fills, f.type = some "IMAGE"

mutual
/-- Spec side: some node strictly below the given one, at any depth, has type TEXT. -/
def hasTextDescendant : Figma.Node → Bool
  | .mk _ kids => hasTextBelowKids kids
/-- Spec side: a TEXT node occurs in or below a possibly absent list of children. -/
def hasTextBelowKids : Option (List Figma.Node) → Bool
  | none => false
  | some l => hasTextBelowList l
/-- Spec side: a TEXT node occurs in or below a forest. -/
def hasTextBelowList : List Figma.Node → Bool
  | [] => false
  | c :: cs =>
    decide (c.props.type = some "TEXT") || hasTextDescendant c || hasTextBelowList cs
end

/-- Spec side: at least `k` of the listed nodes satisfy `P`. -/
def AtLeast (k : Nat) (P : Figma.Node → Prop) (l : List Figma.Node) : Prop :=
  ∃ sub : List Figma.Node, sub.Sublist l ∧ k ≤ sub.length ∧ ∀ c ∈ sub, P c

/-- Spec side: the navigation predicate as the classifier table words it, a child
counting when it is TEXT or contains a TEXT descendant at any depth. -/
def IsNavigationAnyDepth (n : Figma.Node) : Prop :=
  (n.props.layoutMode = some "HORIZONTAL" ∧
    ∃ kids, n.children = some kids ∧ 3 ≤ kids.length ∧
      AtLeast 3 (fun c => c.props.type = some "TEXT" ∨ hasTextDescendant c = true) kids) ∨
    NameContains n "nav" ∨ NameContains n "header" ∨ NameContains n "menu"

/-- Spec side: the navigation predicate, a child counting when it is TEXT or has a
direct child of type TEXT. -/
def IsNavigation (n : Figma.Node) : Prop :=
  (n.props.layoutMode = some "HORIZONTAL" ∧
    ∃ kids, n.children = some kids ∧ 3 ≤ kids.length ∧
      AtLeast 3 (fun c => c.props.type = some "TEXT" ∨ HasTextChild c) kids) ∨
    NameContains n "nav" ∨ NameContains n "header" ∨ NameContains n "menu"

/-- Spec side: the type is VECTOR or BOOLEAN_OPERATION. -/
def IsVectorType (n : Figma.Node) : Prop :=
  n.props.type = some "VECTOR" ∨ n.props.type = some "BOOLEAN_OPERATION"

/-- Spec side: the form predicate of the classifier table. -/
def IsFormElement (n : Figma.Node) : Prop :=
  NameContains n "input" ∨ NameContains n "form" ∨ NameContains n "field" ∨
    NameContains n "textarea" ∨ NameContains n "select"

/-- Spec side: the element type inferred from the name: of the keywords textarea,
select, checkbox, radio the last one present wins, and `input` is the value exactly
when none is present. -/
def FormElementTypeRule (n : Figma.Node) (v : String) : Prop :=
  (NameContains n "radio" → v = "radio") ∧
  (¬ NameContains n "radio" → NameContains n "checkbox" → v = "checkbox") ∧
  (¬ NameContains n "radio" → ¬ NameContains n "checkbox" → NameContains n "select" →
    v = "select") ∧
  (¬ NameContains n "radio" → ¬ NameContains n "checkbox" → ¬ NameContains n "select" →
    NameContains n "textarea" → v = "textarea") ∧
  (v = "input" ↔ ¬ NameContains n "radio" ∧ ¬ NameContains n "checkbox" ∧
    ¬ NameContains n "select" ∧ ¬ NameContains n "textarea") ∧
  v ∈ ["input", "textarea", "select", "checkbox", "radio"]

/-- Spec side: the own fields of a node with the two annotation fields `localSrc` and
`AI_INSTRUCTION` removed. -/
def eraseAnnotationProps (p : Figma.NodeProps) : Figma.NodeProps :=
  { p with localSrc := none, AI_INSTRUCTION := none }

mutual
/-- Spec side: the tree with `localSrc` and `AI_INSTRUCTION` removed from every node.
Two trees differ only in those two fields when they have the same image under it. -/
def eraseAnnotations : Figma.Node → Figma.Node
  | .mk p kids => .mk (eraseAnnotationProps p) (eraseAnnotationsKids kids)
/-- Spec side: the erasure below a possibly absent list of children. -/
def eraseAnnotationsKids : Option (List Figma.Node) → Option (List Figma.Node)
  | none => none
  | some l => some (eraseAnnotationsList l)
/-- Spec side: the erasure of a forest. -/
def eraseAnnotationsList : List Figma.Node → List Figma.Node
  | [] => []
  | c :: cs => eraseAnnotations c :: eraseAnnotationsList cs
end

/-- Spec side: the field is present and holds a non-zero number. -/
def SetNonZero (o : Option ℚ) : Prop := ∃ v, o = some v ∧ v ≠ 0

/-- Spec side: the node has a strokes list (possibly empty) and a non-zero stroke
weight whose `<w>px` rendering is `s`. -/
def NodeYieldsWidth (p : Figma.NodeProps) (s : String) : Prop :=
  ∃ ss w, p.strokes = some ss ∧ p.strokeWeight = some w ∧ w ≠ 0 ∧
    s = Js.numberToString w ++ "px"

/-- Spec side: the string `<top>px <right>px <bottom>px <left>px` of a node, an absent
side counting as 0. -/
def paddingShorthand (p : Figma.NodeProps) : String :=
  Js.numberToString (p.paddingTop.getD 0) ++ "px " ++
    Js.numberToString (p.paddingRight.getD 0) ++ "px " ++
    Js.numberToString (p.paddingBottom.getD 0) ++ "px " ++
    Js.numberToString (p.paddingLeft.getD 0) ++ "px"

/-- Spec side: the node passes the layout guard (its `layoutMode` is a non-empty
string), its left or top padding is non-zero, and `s` is its padding shorthand. -/
def NodeYieldsPadding (p : Figma.NodeProps) (s : String) : Prop :=
  (∃ mode, p.layoutMode = some mode ∧ mode ≠ "") ∧
    (SetNonZero p.paddingLeft ∨ SetNonZero p.paddingTop) ∧ s = paddingShorthand p

/-- Spec side: the child counts as a link: it is TEXT or has a direct child of type
TEXT. -/
def IsLink (c : Figma.Node) : Prop :=
  c.props.type = some "TEXT" ∨ HasTextChild c

/-- Spec side: exactly `k` of the listed nodes satisfy `P`: at least `k` do, and not
at least `k + 1`. -/
def CountIs (k : Nat) (P : Figma.Node → Prop) (l : List Figma.Node) : Prop :=
  AtLeast k P l ∧ ¬ AtLeast (k + 1) P l

/-- Spec side: the reported border radius `b` is `cornerRadius` when that is present
and non-zero, and 0 otherwise. -/
def BorderRadiusRule (p : Figma.NodeProps) (b : ℚ) : Prop :=
  (∀ v, p.cornerRadius = some v → v ≠ 0 → b = v) ∧ (¬ SetNonZero p.cornerRadius → b = 0)

/-- Spec side: the catalog reports the colour string `c`: it is the `bgColor` of a
button, card, navigation or form record, or the `color` of an icon record. -/
def ReportsColor (cat : ComponentDetector.Catalog) (c : String) : Prop :=
  (∃ r ∈ cat.components.buttons, r.properties.bgColor = some c) ∨
  (∃ r ∈ cat.components.cards, r.properties.bgColor = some c) ∨
  (∃ r ∈ cat.components.navigation, r.properties.bgColor = some c) ∨
  (∃ r ∈ cat.components.forms, r.properties.bgColor = some c) ∨
  (∃ r ∈ cat.components.icons, r.color = some c)

/-- Spec side: the node yields the radius string `s`: `<r>px` for its `cornerRadius`
`r` when that is present; otherwise `<v>px` for a strictly positive value `v` among its
`rectangleCornerRadii`. -/
def NodeYieldsRadius (p : Figma.NodeProps) (s : String) : Prop :=
  (∃ r, p.cornerRadius = some r ∧ s = Js.numberToString r ++ "px") ∨
  (p.cornerRadius = none ∧ ∃ rs, p.rectangleCornerRadii = some rs ∧
    ∃ v ∈ rs, 0 < v ∧ s = Js.numberToString v ++ "px")

/-- Spec side: the string `<offsetX>px <offsetY>px <radius>px <hexColor>` of a shadow,
an absent offset component or radius counting as 0 and an absent colour as `#000000`. -/
def shadowString (e : Figma.Effect) : String :=
  Js.numberToString ((e.offset.bind fun o => o.x).getD 0) ++ "px " ++
    Js.numberToString ((e.offset.bind fun o => o.y).getD 0) ++ "px " ++
    Js.numberToString (e.radius.getD 0) ++ "px " ++
    (match e.color with
      | some c => FigmaParser.rgbToHex c.r c.g c.b
      | none => "#000000")

/-- Spec side: the effect is a visible DROP_SHADOW or INNER_SHADOW whose shadow string
is `s`. -/
def EffectYieldsShadow (e : Figma.Effect) (s : String) : Prop :=
  e.visible ≠ some false ∧ (e.type = some "DROP_SHADOW" ∨ e.type = some "INNER_SHADOW") ∧
    s = shadowString e

/-- Spec side: the effect is a visible LAYER_BLUR or BACKGROUND_BLUR whose `<radius>px`
string, an absent radius counting as 0, is `s`. -/
def EffectYieldsBlur (e : Figma.Effect) (s : String) : Prop :=
  e.visible ≠ some false ∧ (e.type = some "LAYER_BLUR" ∨ e.type = some "BACKGROUND_BLUR") ∧
    s = Js.numberToString (e.radius.getD 0) ++ "px"

/-- Spec side: some effect of the node yields the shadow string `s`. -/
def NodeYieldsShadow (p : Figma.NodeProps) (s : String) : Prop :=
  ∃ es, p.effects = some es ∧ ∃ e ∈ es, EffectYieldsShadow e s

/-- Spec side: some effect of the node yields the blur string `s`. -/
def NodeYieldsBlur (p : Figma.NodeProps) (s : String) : Prop :=
  ∃ es, p.effects = some es ∧ ∃ e ∈ es, EffectYieldsBlur e s

/-- Spec side: the paint has one of the two gradient types. -/
def IsGradient (f : Figma.Paint) : Prop :=
  f.type = some "GRADIENT_LINEAR" ∨ f.type = some "GRADIENT_RADIAL"

/-- Spec side: the stop list whose stops carry the listed colours, in order. -/
def stopsOf (cs : List Figma.Color) : List Figma.GradientStop :=
  cs.map fun c => { color := some c }

/-- Spec side: the descriptor of a gradient: the conversions of its stop colours, in
stop order, joined by the separator. -/
def gradientDescriptor (cs : List Figma.Color) : String :=
  String.intercalate FigmaParser.gradientSeparator
    (cs.map fun c => FigmaParser.rgbToHex c.r c.g c.b)

/-- Spec side: the three size buckets of the typography. -/
inductive SizeClass where
  | headings
  | body
  | captions
  deriving DecidableEq

/-- Spec side: the bucket of a font size: `headings` from 32 up, `body` from 14 up,
`captions` below 14 and for an absent size. -/
def sizeClass (fontSize : Option ℚ) : SizeClass :=
  match fontSize with
  | some s => if 32 ≤ s then .headings else if 14 ≤ s then .body else .captions
  | none => .captions

/-- Spec side: the list a typography holds for a bucket. -/
def bucket (ty : FigmaParser.Typography) : SizeClass → List String
  | .headings => ty.headings
  | .body => ty.body
  | .captions => ty.captions

/-- Spec side: the node has a style block with a non-empty font family, and `s` is the
descriptor of that style. -/
def NodeYieldsFont (p : Figma.NodeProps) (s : String) : Prop :=
  ∃ st f, p.style = some st ∧ st.fontFamily = some f ∧ f ≠ "" ∧
    s = FigmaParser.fontInfo f st

/-- Spec side: the node yields the descriptor `s`, and its font size falls in the
bucket `k`. -/
def NodeYieldsBucket (p : Figma.NodeProps) (k : SizeClass) (s : String) : Prop :=
  ∃ st f, p.style = some st ∧ st.fontFamily = some f ∧ f ≠ "" ∧
    s = FigmaParser.fontInfo f st ∧ sizeClass st.fontSize = k

/-- Spec side: no two nodes of the tree whose sizes fall in different buckets render
the same descriptor string. -/
def DescriptorFixesBucket (t : Figma.Node) : Prop :=
  ∀ n ∈ Figma.Node.preorder t, ∀ m ∈ Figma.Node.preorder t, ∀ s k k',
    NodeYieldsBucket n.props k s → NodeYieldsBucket m.props k' s → k = k'

/-- Spec side: no string occurs in more than one of the three buckets. -/
def BucketsDisjoint (ty : FigmaParser.Typography) : Prop :=
  ∀ s, ¬ (s ∈ ty.headings ∧ s ∈ ty.body) ∧ ¬ (s ∈ ty.headings ∧ s ∈ ty.captions) ∧
    ¬ (s ∈ ty.body ∧ s ∈ ty.captions)

/-- Spec side: the second tree is the first with the children of any of its nodes
reordered: the own fields of the root agree, both have no children list or both have
one, and the second list is a rearrangement of the first list's children, each of
which may itself be reordered inside. -/
inductive Reordered : Figma.Node → Figma.Node → Prop where
  | absent (p : Figma.NodeProps) : Reordered (.mk p none) (.mk p none)
  | present (p : Figma.NodeProps) (l l₁ l₂ : List Figma.Node) :
      List.Forall₂ Reordered l l₁ → l₁.Perm l₂ → Reordered (.mk p (some l)) (.mk p (some l₂))

/-- Spec side: the raw spacing values one node contributes, in the order the layout
step observes them. -/
def spacingValues (p : Figma.NodeProps) : List ℚ :=
  match p.layoutMode with
  | some mode =>
    if mode ≠ "" then
      (match p.itemSpacing with
        | some g => if g ≠ 0 then [g] else []
        | none => []) ++
      (if Js.truthyNum p.paddingLeft || Js.truthyNum p.paddingTop then
        FigmaParser.positivePaddings p else [])
    else []
  | none => []

end Spec

/-! ## Concrete design trees -/

namespace Example

/-- A root with a visible red SOLID fill and a hidden blue one, and a child with a
black SOLID stroke. -/
def paintedTree : Figma.Node :=
  .mk { fills := some [{ type := some "SOLID", color := some ⟨1, 0, 0⟩ },
                       { type := some "SOLID", visible := some false, color := some ⟨0, 0, 1⟩ }] }
    (some [.mk { strokes := some [{ type := some "SOLID", color := some ⟨0, 0, 0⟩ }] } none])

/-- The token set of `paintedTree`. -/
def paintedTokens : FigmaParser.TokenSet where
  colors := ["#FF0000", "#000000"]
  gradients := []
  fonts := []
  typography := {}
  layout := {}
  effects := {}
  borders := {}
  spacingScale := []

/-- A vertical root with gap 24 and a horizontal child with gap 8, top padding 16 and
left padding 8: the raw spacing values are observed in the order 24, 8, 16, 8. -/
def spacingTree : Figma.Node :=
  .mk { layoutMode := some "VERTICAL", itemSpacing := some 24 }
    (some [.mk { layoutMode := some "HORIZONTAL", itemSpacing := some 8,
                 paddingTop := some 16, paddingLeft := some 8 } none])

/-- The token set of `spacingTree`. -/
def spacingTokens : FigmaParser.TokenSet where
  colors := []
  gradients := []
  fonts := []
  typography := {}
  layout := { gaps := ["24px", "8px"], paddings := ["16px 0px 0px 8px"] }
  effects := {}
  borders := {}
  spacingScale := ["8px", "16px", "24px"]

/-- The style block of a text node set in Inter at the given size. -/
def interStyle (size : ℚ) : Figma.TextStyle :=
  { fontFamily := some "Inter", fontSize := some size }

/-- A single text node set in Inter at the given size. -/
def textNode (size : ℚ) : Figma.Node :=
  .mk { type := some "TEXT", style := some (interStyle size) } none

/-- The token set of `textNode 20`. -/
def textTokens : FigmaParser.TokenSet where
  colors := []
  gradients := []
  fonts := ["Family: Inter, Weight: 400, Size: 20px, LineHeight: Auto, " ++
    "LetterSpacing: 0px, Align: left"]
  typography := { body := ["Family: Inter, Weight: 400, Size: 20px, LineHeight: Auto, " ++
    "LetterSpacing: 0px, Align: left"] }
  layout := {}
  effects := {}
  borders := {}
  spacingScale := []

/-- A node named "CTA Primary" with no children, fills or radius. -/
def ctaNode : Figma.Node := .mk { name := some "CTA Primary" } none

/-- The button record of `ctaNode`. -/
def ctaButton : ComponentDetector.ButtonRecord where
  type := "button"
  variant := "primary"
  text := "Button"
  properties := {
    bgColor := none
    textColor := none
    borderRadius := 0
    padding := none
    width := 0
    height := 0 }

/-- The catalog of `ctaNode`. -/
def ctaCatalog : ComponentDetector.Catalog where
  components := { buttons := [ctaButton] }
  summary := {
    buttonCount := 1
    cardCount := 0
    navigationCount := 0
    formCount := 0
    iconCount := 0 }

/-- A vertical frame with an image fill, corner radius 8 and two children (a text and
a rectangle); its name carries no keyword. -/
def tileNode : Figma.Node :=
  .mk { name := some "Tile", layoutMode := some "VERTICAL", cornerRadius := some 8,
        fills := some [{ type := some "IMAGE" }] }
    (some [.mk { type := some "TEXT", characters := some "Title" } none,
           .mk { type := some "RECTANGLE" } none])

/-- The catalog of `tileNode`. -/
def tileCatalog : ComponentDetector.Catalog where
  components := {
    cards := [{
      type := "card"
      variant := "default"
      hasImage := some false
      hasText := some true
      hasButton := some false
      properties := {
        bgColor := none
        borderRadius := 8
        padding := none
        width := 0
        height := 0 } }] }
  summary := {
    buttonCount := 0
    cardCount := 1
    navigationCount := 0
    formCount := 0
    iconCount := 0 }

/-- A vertical frame with a white SOLID fill, corner radius 12 and two children: a
text and a rectangle with an IMAGE fill. -/
def galleryCard : Figma.Node :=
  .mk { name := some "Panel", layoutMode := some "VERTICAL", cornerRadius := some 12,
        fills := some [{ type := some "SOLID", color := some ⟨1, 1, 1⟩ }] }
    (some [.mk { type := some "TEXT", characters := some "Title" } none,
           .mk { type := some "RECTANGLE", fills := some [{ type := some "IMAGE" }] } none])

/-- The card record of `galleryCard`. -/
def galleryRecord : ComponentDetector.CardRecord where
  type := "card"
  variant := "default"
  hasImage := some true
  hasText := some true
  hasButton := some false
  properties := {
    bgColor := some "#FFFFFF"
    borderRadius := 12
    padding := none
    width := 0
    height := 0 }

/-- A frame that holds, two levels down, a single text. -/
def wrappedText : Figma.Node :=
  .mk { type := some "FRAME" }
    (some [.mk { type := some "FRAME" } (some [.mk { type := some "TEXT" } none])])

/-- A horizontal frame with three children, each holding a text two levels down; its
name carries no keyword. -/
def deepBar : Figma.Node :=
  .mk { name := some "Row", layoutMode := some "HORIZONTAL" }
    (some [wrappedText, wrappedText, wrappedText])

/-- A horizontal frame with three text children; its name carries no keyword. -/
def linkBar : Figma.Node :=
  .mk { name := some "Row", layoutMode := some "HORIZONTAL" }
    (some [.mk { type := some "TEXT" } none, .mk { type := some "TEXT" } none,
           .mk { type := some "TEXT" } none])

/-- The catalog of `linkBar`. -/
def linkBarCatalog : ComponentDetector.Catalog where
  components := {
    navigation := [{
      type := "navigation"
      variant := "header"
      linkCount := 3
      properties := {
        bgColor := none
        gap := 0
        padding := none } }] }
  summary := {
    buttonCount := 0
    cardCount := 0
    navigationCount := 1
    formCount := 0
    iconCount := 0 }

/-- A VECTOR node of the given bounding-box width, named "Shape". -/
def vectorNode (width : ℚ) : Figma.Node :=
  .mk { name := some "Shape", type := some "VECTOR",
        absoluteBoundingBox := some { width := some width, height := some width } } none

/-- The catalog of `vectorNode 48`. -/
def vectorCatalog : ComponentDetector.Catalog where
  components := { icons := [{ type := "icon", name := some "Shape", size := 48, color := none }] }
  summary := {
    buttonCount := 0
    cardCount := 0
    navigationCount := 0
    formCount := 0
    iconCount := 1 }

/-- A node named "Radio Select Field". -/
def radioNode : Figma.Node := .mk { name := some "Radio Select Field" } none

/-- The form record of `radioNode`. -/
def radioRecord : ComponentDetector.FormRecord where
  type := "form"
  elementType := "radio"
  properties := {
    bgColor := none
    borderRadius := 0
    padding := none
    width := 0
    height := 0 }

/-- The tree `galleryCard` as the asset step annotates it: the image rectangle carries
`localSrc` and `AI_INSTRUCTION`. -/
def annotatedGalleryCard : Figma.Node :=
  .mk { name := some "Panel", layoutMode := some "VERTICAL", cornerRadius := some 12,
        fills := some [{ type := some "SOLID", color := some ⟨1, 1, 1⟩ }] }
    (some [.mk { type := some "TEXT", characters := some "Title" } none,
           .mk { type := some "RECTANGLE", fills := some [{ type := some "IMAGE" }],
                 localSrc := some "/assets/1.png",
                 AI_INSTRUCTION := some "USE THIS IMAGE SOURCE: /assets/1.png" } none])

/-- A node with `strokeWeight` 2 and no `strokes` field. -/
def weightOnlyNode : Figma.Node := .mk { strokeWeight := some 2 } none

/-- A node with an empty `strokes` list and `strokeWeight` 2. -/
def strokedNode : Figma.Node := .mk { strokes := some [], strokeWeight := some 2 } none

/-- The token set of `strokedNode`. -/
def strokedTokens : FigmaParser.TokenSet where
  colors := []
  gradients := []
  fonts := []
  typography := {}
  layout := {}
  effects := {}
  borders := { widths := ["2px"] }
  spacingScale := []

/-- A node whose `layoutMode` is the string "NONE", with a gap of 10 and a left
padding of 4. -/
def noneLayoutNode : Figma.Node :=
  .mk { layoutMode := some "NONE", itemSpacing := some 10, paddingLeft := some 4 } none

/-- A vertical auto-layout node on which only `paddingRight` is present. -/
def rightPaddingNode : Figma.Node :=
  .mk { layoutMode := some "VERTICAL", paddingRight := some 12 } none

/-- A node on which only `paddingBottom` is present. -/
def bottomPaddingNode : Figma.Node := .mk { paddingBottom := some 12 } none

/-- A vertical auto-layout node with top padding 16 and right padding 12. -/
def paddedNode : Figma.Node :=
  .mk { layoutMode := some "VERTICAL", paddingTop := some 16, paddingRight := some 12 } none

/-- The token set of `paddedNode`. -/
def paddedTokens : FigmaParser.TokenSet where
  colors := []
  gradients := []
  fonts := []
  typography := {}
  layout := { paddings := ["16px 12px 0px 0px"] }
  effects := {}
  borders := {}
  spacingScale := ["12px", "16px"]

/-- A node named "Site Footer" with three children: a text, a frame holding a text,
and a rectangle. -/
def footerBar : Figma.Node :=
  .mk { name := some "Site Footer" }
    (some [.mk { type := some "TEXT" } none,
           .mk { type := some "FRAME" } (some [.mk { type := some "TEXT" } none]),
           .mk { type := some "RECTANGLE" } none])

/-- The navigation record of `footerBar`. -/
def footerRecord : ComponentDetector.NavigationRecord where
  type := "navigation"
  variant := "footer"
  linkCount := 2
  properties := {
    bgColor := none
    gap := 0
    padding := none }

/-- A node with a blue SOLID fill, a text child and the four corner radii 8, 8, 8, 8
given as `rectangleCornerRadii` only. -/
def radiiNode : Figma.Node :=
  .mk { name := some "Pill", rectangleCornerRadii := some [8, 8, 8, 8],
        fills := some [{ type := some "SOLID", color := some ⟨0, 0, 1⟩ }] }
    (some [.mk { type := some "TEXT", characters := some "Go" } none])

/-- The button record of `radiiNode`. -/
def radiiButton : ComponentDetector.ButtonRecord where
  type := "button"
  variant := "primary"
  text := "Go"
  properties := {
    bgColor := some "#0000FF"
    textColor := none
    borderRadius := 0
    padding := none
    width := 0
    height := 0 }

/-- A node named "Card" with a red SOLID fill. -/
def redCard : Figma.Node :=
  .mk { name := some "Card", fills := some [{ type := some "SOLID", color := some ⟨1, 0, 0⟩ }] }
    none

/-- The token set of `redCard`. -/
def redCardTokens : FigmaParser.TokenSet where
  colors := ["#FF0000"]
  gradients := []
  fonts := []
  typography := {}
  layout := {}
  effects := {}
  borders := {}
  spacingScale := []

/-- The catalog of `redCard`. -/
def redCardCatalog : ComponentDetector.Catalog where
  components := {
    cards := [{
      type := "card"
      variant := "default"
      hasImage := none
      hasText := none
      hasButton := none
      properties := {
        bgColor := some "#FF0000"
        borderRadius := 0
        padding := none
        width := 0
        height := 0 } }] }
  summary := {
    buttonCount := 0
    cardCount := 1
    navigationCount := 0
    formCount := 0
    iconCount := 0 }

/-- A node named "Product Card" whose only child is named "Buy Button". -/
def shopCard : Figma.Node :=
  .mk { name := some "Product Card" } (some [.mk { name := some "Buy Button" } none])

/-- The catalog of `shopCard`. -/
def shopCatalog : ComponentDetector.Catalog where
  components := {
    buttons := [{
      type := "button"
      variant := "text"
      text := "Button"
      properties := {
        bgColor := none
        textColor := none
        borderRadius := 0
        padding := none
        width := 0
        height := 0 } }]
    cards := [{
      type := "card"
      variant := "product"
      hasImage := some false
      hasText := some false
      hasButton := some true
      properties := {
        bgColor := none
        borderRadius := 0
        padding := none
        width := 0
        height := 0 } }] }
  summary := {
    buttonCount := 1
    cardCount := 1
    navigationCount := 0
    formCount := 0
    iconCount := 0 }

/-- A node without `cornerRadius` whose four corner radii are 8, 0, 8 and 4. -/
def cornersNode : Figma.Node := .mk { rectangleCornerRadii := some [8, 0, 8, 4] } none

/-- The token set of `cornersNode`. -/
def cornersTokens : FigmaParser.TokenSet where
  colors := []
  gradients := []
  fonts := []
  typography := {}
  layout := {}
  effects := {}
  borders := { radius := ["8px", "4px"] }
  spacingScale := []

/-- A node with a drop shadow (offset 0, 4; radius 8; no colour), a hidden inner
shadow and a layer blur of radius 10. -/
def shadowNode : Figma.Node :=
  .mk { effects := some [
    { type := some "DROP_SHADOW", offset := some { x := some 0, y := some 4 },
      radius := some 8 },
    { type := some "INNER_SHADOW", visible := some false, radius := some 2 },
    { type := some "LAYER_BLUR", radius := some 10 }] } none

/-- The token set of `shadowNode`. -/
def shadowTokens : FigmaParser.TokenSet where
  colors := []
  gradients := []
  fonts := []
  typography := {}
  layout := {}
  effects := { shadows := ["0px 4px 8px #000000"], blurs := ["10px"] }
  borders := {}
  spacingScale := []

/-- A linear gradient from red to blue. -/
def redBlueGradient : Figma.Paint :=
  { type := some "GRADIENT_LINEAR",
    gradientStops := some [{ color := some ⟨1, 0, 0⟩ }, { color := some ⟨0, 0, 1⟩ }] }

/-- A node whose fills are a white SOLID fill and two copies of `redBlueGradient`. -/
def gradientNode : Figma.Node :=
  .mk { fills := some [redBlueGradient, { type := some "SOLID", color := some ⟨1, 1, 1⟩ },
                       redBlueGradient] } none

/-- The token set in which every list is empty. -/
def emptyTokens : FigmaParser.TokenSet where
  colors := []
  gradients := []
  fonts := []
  typography := {}
  layout := {}
  effects := {}
  borders := {}
  spacingScale := []

/-- A text node whose style block gives a size of 16 and no font family. -/
def familylessNode : Figma.Node :=
  .mk { type := some "TEXT", style := some { fontSize := some 16 } } none

/-- A descriptor that two styles of different size render. -/
def clashDescriptor : String :=
  "Family: A, Weight: 400, Size: 40px, LineHeight: Auto, LetterSpacing: 0px, Align: B" ++
    ", Weight: 400, Size: 10px, LineHeight: Auto, LetterSpacing: 0px, Align: C"

/-- A text of size 40 in family "A" above a text of size 10: the alignment string of
the first and the family string of the second are chosen so that both render
`clashDescriptor`. -/
def clashTree : Figma.Node :=
  .mk { style := some {
      fontFamily := some "A", fontSize := some 40,
      textAlign := some ("B, Weight: 400, Size: 10px, LineHeight: Auto, " ++
        "LetterSpacing: 0px, Align: C") } }
    (some [.mk { style := some {
      fontFamily := some ("A, Weight: 400, Size: 40px, LineHeight: Auto, " ++
        "LetterSpacing: 0px, Align: B"),
      fontSize := some 10, textAlign := some "C" } } none])

/-- A horizontal child with gap 8 and a red fill. -/
def rowChild : Figma.Node :=
  .mk { layoutMode := some "HORIZONTAL", itemSpacing := some 8,
        fills := some [{ type := some "SOLID", color := some ⟨1, 0, 0⟩ }] } none

/-- A vertical child with top padding 16, left padding 8 and a blue fill. -/
def columnChild : Figma.Node :=
  .mk { layoutMode := some "VERTICAL", paddingTop := some 16, paddingLeft := some 8,
        fills := some [{ type := some "SOLID", color := some ⟨0, 0, 1⟩ }] } none

/-- A vertical root with gap 24 over `rowChild`, then `columnChild`. -/
def stackTree : Figma.Node :=
  .mk { layoutMode := some "VERTICAL", itemSpacing := some 24 } (some [rowChild, columnChild])

/-- The tree `stackTree` with its two children swapped. -/
def swappedStackTree : Figma.Node :=
  .mk { layoutMode := some "VERTICAL", itemSpacing := some 24 } (some [columnChild, rowChild])

/-- The token set of `stackTree`. -/
def stackTokens : FigmaParser.TokenSet where
  colors := ["#FF0000", "#0000FF"]
  gradients := []
  fonts := []
  typography := {}
  layout := { gaps := ["24px", "8px"], paddings := ["16px 0px 0px 8px"] }
  effects := {}
  borders := {}
  spacingScale := ["8px", "16px", "24px"]

/-- The token set of `swappedStackTree`: the colours come in the other order, the
spacing scale is the same. -/
def swappedStackTokens : FigmaParser.TokenSet where
  colors := ["#0000FF", "#FF0000"]
  gradients := []
  fonts := []
  typography := {}
  layout := { gaps := ["24px", "8px"], paddings := ["16px 0px 0px 8px"] }
  effects := {}
  borders := {}
  spacingScale := ["8px", "16px", "24px"]

end Example

/-! ## Colour conversion -/

theorem Js.mathRound_eq_floor (x : ℚ) : Js.mathRound x = ⌊x + 1 / 2⌋ := rfl

/-! ### The double product -/

theorem Js.log2Fuel_eq : ∀ (fuel n : Nat), n ≤ fuel → Js.log2Fuel fuel n = Nat.log2 n := by
  intro fuel
  induction fuel with
  | zero =>
    intro n hn
    have : n = 0 := by omega
    subst this
    rw [Js.log2Fuel, Nat.log2]
    rfl
  | succ fuel ih =>
    intro n hn
    rw [Js.log2Fuel, Nat.log2]
    by_cases h2 : 2 ≤ n
    · rw [if_pos h2, if_pos h2, ih (n / 2) (by omega)]
    · rw [if_neg h2, if_neg h2]

theorem Js.log2_eq (n : Nat) : Js.log2 n = Nat.log2 n := Js.log2Fuel_eq n n (le_refl n)

theorem Js.pow2_eq (k : ℤ) : Js.pow2 k = (2 : ℚ) ^ k := by
  unfold Js.pow2
  split
  · next h =>
    obtain ⟨n, rfl⟩ := Int.eq_ofNat_of_zero_le h
    rw [Int.toNat_natCast, zpow_natCast]
    push_cast
    rfl
  · next h =>
    obtain ⟨n, hn⟩ := Int.exists_eq_neg_ofNat (le_of_lt (not_le.mp h))
    rw [hn, neg_neg, Int.toNat_natCast, zpow_neg, zpow_natCast]
    push_cast
    rw [one_div]

theorem Js.pow2_pos (k : ℤ) : 0 < Js.pow2 k := by
  rw [Js.pow2_eq]
  positivity

theorem Js.roundHalfEven_le (y : ℚ) (N : ℤ) (h : y ≤ N) : Js.roundHalfEven y ≤ N := by
  have hf : ⌊y⌋ ≤ N := Int.floor_le_iff.mpr (lt_of_le_of_lt h (by linarith))
  have hfl := Int.floor_le y
  have step : ¬ y - ⌊y⌋ < 1 / 2 → ⌊y⌋ + 1 ≤ N := by
    intro hfrac
    have hlt : (⌊y⌋ : ℚ) < N := by linarith
    have : ⌊y⌋ < N := by exact_mod_cast hlt
    omega
  show (if y - ⌊y⌋ < 1 / 2 then ⌊y⌋
    else if 1 / 2 < y - ⌊y⌋ then ⌊y⌋ + 1 else if ⌊y⌋ % 2 = 0 then ⌊y⌋ else ⌊y⌋ + 1) ≤ N
  split
  · exact hf
  · next h1 =>
    split
    · exact step h1
    · split
      · exact hf
      · exact step h1

theorem Js.le_roundHalfEven (y : ℚ) (N : ℤ) (h : (N : ℚ) ≤ y) : N ≤ Js.roundHalfEven y := by
  have hf : N ≤ ⌊y⌋ := Int.le_floor.mpr h
  show N ≤ (if y - ⌊y⌋ < 1 / 2 then ⌊y⌋
    else if 1 / 2 < y - ⌊y⌋ then ⌊y⌋ + 1 else if ⌊y⌋ % 2 = 0 then ⌊y⌋ else ⌊y⌋ + 1)
  split
  · exact hf
  · split
    · omega
    · split
      · exact hf
      · omega

/-- The rounding is to a nearest integer. -/
theorem Js.roundHalfEven_near (y : ℚ) : |(Js.roundHalfEven y : ℚ) - y| ≤ 1 / 2 := by
  have hfl := Int.floor_le y
  have hlt := Int.lt_floor_add_one y
  show |((if y - ⌊y⌋ < 1 / 2 then ⌊y⌋
    else if 1 / 2 < y - ⌊y⌋ then ⌊y⌋ + 1 else if ⌊y⌋ % 2 = 0 then ⌊y⌋ else ⌊y⌋ + 1 : ℤ) : ℚ)
      - y| ≤ 1 / 2
  rw [abs_le]
  split
  · constructor <;> linarith
  · next h1 =>
    split
    · push_cast
      constructor <;> linarith
    · next h2 =>
      split
      · constructor <;> linarith
      · push_cast
        constructor <;> linarith

theorem Js.abs_eq_natAbs_div (x : ℚ) : |x| = (x.num.natAbs : ℚ) / (x.den : ℚ) := by
  conv_lhs => rw [← Rat.num_div_den x]
  rw [abs_div, Nat.cast_natAbs, Int.cast_abs, Nat.abs_cast]

/-- The binary exponent brackets the magnitude. -/
theorem Js.binade_spec (x : ℚ) (hx : x ≠ 0) :
    (2 : ℚ) ^ Js.binade x ≤ |x| ∧ |x| < (2 : ℚ) ^ (Js.binade x + 1) := by
  have hn0 : x.num.natAbs ≠ 0 := by
    rw [Ne, Int.natAbs_eq_zero, Rat.num_eq_zero]
    exact hx
  have hd0 : x.den ≠ 0 := x.den_nz
  have hdpos : (0 : ℚ) < x.den := by exact_mod_cast Nat.pos_of_ne_zero hd0
  have n1 : ((2 : ℚ) ^ (Nat.log2 x.num.natAbs)) ≤ x.num.natAbs := by
    exact_mod_cast Nat.log2_self_le hn0
  have n2 : (x.num.natAbs : ℚ) < (2 : ℚ) ^ (Nat.log2 x.num.natAbs + 1) := by
    exact_mod_cast (Nat.lt_log2_self (n := x.num.natAbs))
  have d1 : ((2 : ℚ) ^ (Nat.log2 x.den)) ≤ x.den := by
    exact_mod_cast Nat.log2_self_le hd0
  have d2 : (x.den : ℚ) < (2 : ℚ) ^ (Nat.log2 x.den + 1) := by
    exact_mod_cast (Nat.lt_log2_self (n := x.den))
  have habs := Js.abs_eq_natAbs_div x
  have two : (2 : ℚ) ≠ 0 := by norm_num
  have lower : (2 : ℚ) ^ ((Nat.log2 x.num.natAbs : ℤ) - (Nat.log2 x.den : ℤ) - 1) ≤ |x| := by
    rw [habs, sub_sub, zpow_sub₀ two, zpow_natCast, le_div_iff₀ hdpos]
    have e : ((Nat.log2 x.den : ℤ) + 1) = ((Nat.log2 x.den + 1 : ℕ) : ℤ) := by push_cast; rfl
    rw [e, zpow_natCast]
    have hpos : (0 : ℚ) < 2 ^ (Nat.log2 x.den + 1) := by positivity
    calc (2 : ℚ) ^ Nat.log2 x.num.natAbs / 2 ^ (Nat.log2 x.den + 1) * x.den
        ≤ 2 ^ Nat.log2 x.num.natAbs / 2 ^ (Nat.log2 x.den + 1) * 2 ^ (Nat.log2 x.den + 1) := by
          apply mul_le_mul_of_nonneg_left (le_of_lt d2)
          positivity
      _ = 2 ^ Nat.log2 x.num.natAbs := by field_simp
      _ ≤ x.num.natAbs := n1
  have upper : |x| < (2 : ℚ) ^ ((Nat.log2 x.num.natAbs : ℤ) - (Nat.log2 x.den : ℤ) + 1) := by
    have e : ((Nat.log2 x.num.natAbs : ℤ) - (Nat.log2 x.den : ℤ) + 1) =
        ((Nat.log2 x.num.natAbs + 1 : ℕ) : ℤ) - (Nat.log2 x.den : ℤ) := by push_cast; ring
    rw [habs, e, zpow_sub₀ two, zpow_natCast, zpow_natCast, div_lt_div_iff₀ hdpos (by positivity)]
    calc (x.num.natAbs : ℚ) * 2 ^ Nat.log2 x.den
        ≤ x.num.natAbs * x.den := by
          apply mul_le_mul_of_nonneg_left d1
          positivity
      _ < 2 ^ (Nat.log2 x.num.natAbs + 1) * x.den := by
          apply mul_lt_mul_of_pos_right n2 hdpos
  unfold Js.binade
  dsimp only
  rw [Js.log2_eq, Js.log2_eq]
  split
  · next h =>
    rw [Js.pow2_eq] at h
    exact ⟨h, upper⟩
  · next h =>
    rw [Js.pow2_eq, not_le] at h
    refine ⟨lower, ?_⟩
    rw [sub_add_cancel]
    exact h

/-- A number between 0 and a natural number below `2 ^ 53` rounds to a double in the
same range: the natural number is itself a double. -/
theorem Js.toDouble_bounds (x : ℚ) (n : ℕ) (hn : n < 2 ^ 53) (h0 : 0 ≤ x) (h1 : x ≤ n) :
    0 ≤ Js.toDouble x ∧ Js.toDouble x ≤ n := by
  unfold Js.toDouble
  by_cases hx : x = 0
  · rw [if_pos hx]
    exact ⟨le_refl _, Nat.cast_nonneg n⟩
  · rw [if_neg hx]
    dsimp only
    have hxpos : 0 < x := lt_of_le_of_ne h0 (Ne.symm hx)
    have hb : Js.binade x < 53 := by
      have h2 := (Js.binade_spec x hx).1
      rw [abs_of_pos hxpos] at h2
      have h3 : (2 : ℚ) ^ Js.binade x < (2 : ℚ) ^ (53 : ℤ) := by
        have hc : (n : ℚ) < ((2 ^ 53 : ℕ) : ℚ) := by exact_mod_cast hn
        have e53 : ((2 ^ 53 : ℕ) : ℚ) = (2 : ℚ) ^ (53 : ℤ) := by norm_num
        rw [e53] at hc
        linarith
      exact (zpow_lt_zpow_iff_right₀ (by norm_num : (1 : ℚ) < 2)).mp h3
    have hk : max (Js.binade x) (-1022) - 52 ≤ 0 := by
      have : max (Js.binade x) (-1022) ≤ 52 := max_le (by omega) (by norm_num)
      omega
    obtain ⟨m, hm⟩ := Int.exists_eq_neg_ofNat hk
    rw [hm]
    have hq : Js.pow2 (-(m : ℤ)) = ((2 : ℚ) ^ m)⁻¹ := by
      rw [Js.pow2_eq, zpow_neg, zpow_natCast]
    rw [hq]
    have hpos : (0 : ℚ) < ((2 : ℚ) ^ m)⁻¹ := by positivity
    have hdiv : x / ((2 : ℚ) ^ m)⁻¹ = x * 2 ^ m := by rw [div_inv_eq_mul]
    rw [hdiv]
    constructor
    · have : (0 : ℤ) ≤ Js.roundHalfEven (x * 2 ^ m) :=
        Js.le_roundHalfEven _ 0 (by push_cast; positivity)
      have hc : (0 : ℚ) ≤ (Js.roundHalfEven (x * 2 ^ m) : ℚ) := by exact_mod_cast this
      positivity
    · have hle : Js.roundHalfEven (x * 2 ^ m) ≤ ((n * 2 ^ m : ℕ) : ℤ) := by
        apply Js.roundHalfEven_le
        push_cast
        apply mul_le_mul_of_nonneg_right h1
        positivity
      have hc : (Js.roundHalfEven (x * 2 ^ m) : ℚ) ≤ (n : ℚ) * 2 ^ m := by
        have : (Js.roundHalfEven (x * 2 ^ m) : ℚ) ≤ (((n * 2 ^ m : ℕ) : ℤ) : ℚ) := by
          exact_mod_cast hle
        simpa using this
      calc (Js.roundHalfEven (x * 2 ^ m) : ℚ) * ((2 : ℚ) ^ m)⁻¹
          ≤ (n : ℚ) * 2 ^ m * ((2 : ℚ) ^ m)⁻¹ := by
            apply mul_le_mul_of_nonneg_right hc (le_of_lt hpos)
        _ = n := by field_simp

/-- The rounding to a double moves a number by at most half the spacing of its binade. -/
theorem Js.toDouble_near (x : ℚ) (hx : x ≠ 0) :
    |Js.toDouble x - x| ≤ Js.pow2 (max (Js.binade x) (-1022) - 52) / 2 := by
  unfold Js.toDouble
  rw [if_neg hx]
  dsimp only
  have hq := Js.pow2_pos (max (Js.binade x) (-1022) - 52)
  have hnear := Js.roundHalfEven_near (x / Js.pow2 (max (Js.binade x) (-1022) - 52))
  have e : (Js.roundHalfEven (x / Js.pow2 (max (Js.binade x) (-1022) - 52)) : ℚ) *
      Js.pow2 (max (Js.binade x) (-1022) - 52) - x =
      ((Js.roundHalfEven (x / Js.pow2 (max (Js.binade x) (-1022) - 52)) : ℚ) -
        x / Js.pow2 (max (Js.binade x) (-1022) - 52)) *
        Js.pow2 (max (Js.binade x) (-1022) - 52) := by
    field_simp
  rw [e, abs_mul, abs_of_pos hq]
  calc _ ≤ 1 / 2 * Js.pow2 (max (Js.binade x) (-1022) - 52) :=
        mul_le_mul_of_nonneg_right hnear (le_of_lt hq)
    _ = Js.pow2 (max (Js.binade x) (-1022) - 52) / 2 := by ring

/-- The double product of a channel in [0,1] with 255 lies in [0,255]. -/
theorem Js.mul_scaled_bounds (c : ℚ) (h0 : 0 ≤ c) (h1 : c ≤ 1) :
    0 ≤ Js.mul c 255 ∧ Js.mul c 255 ≤ 255 := by
  have h := Js.toDouble_bounds (c * 255) 255 (by norm_num) (by positivity)
    (by push_cast; linarith)
  exact ⟨h.1, by exact_mod_cast h.2⟩

theorem Js.mathRound_bounds_of_range (x : ℚ) (hlo : -1 / 2 ≤ x) (hhi : x < 255 + 1 / 2) :
    0 ≤ Js.mathRound x ∧ Js.mathRound x ≤ 255 := by
  rw [Js.mathRound_eq_floor]
  constructor
  · apply Int.floor_nonneg.mpr
    linarith
  · have h : x + 1 / 2 < ((256 : ℤ) : ℚ) := by
      push_cast
      linarith
    have := Int.floor_lt.mpr h
    omega

theorem Js.mathRound_scaled_bounds (c : ℚ) (h0 : 0 ≤ c) (h1 : c ≤ 1) :
    0 ≤ Js.mathRound (Js.mul c 255) ∧ Js.mathRound (Js.mul c 255) ≤ 255 := by
  obtain ⟨hlo, hhi⟩ := Js.mul_scaled_bounds c h0 h1
  exact Js.mathRound_bounds_of_range _ (by linarith) (by linarith)

theorem Js.mathRound_isRoundHalfUp (x : ℚ) (h : 0 ≤ Js.mathRound x) :
    Spec.IsRoundHalfUp x (Js.mathRound x).toNat := by
  have hfl : Js.mathRound x = ⌊x + 1 / 2⌋ := rfl
  have hc : (((Js.mathRound x).toNat : ℤ) : ℚ) = ((Js.mathRound x : ℤ) : ℚ) := by
    rw [Int.toNat_of_nonneg h]
  have hc2 : (((Js.mathRound x).toNat : ℕ) : ℚ) = ((Js.mathRound x : ℤ) : ℚ) := by
    rw [← hc]
    norm_cast
  unfold Spec.IsRoundHalfUp
  rw [hc2, hfl]
  have h1 := Int.floor_le (x + 1 / 2)
  have h2 := Int.lt_floor_add_one (x + 1 / 2)
  constructor <;> linarith

/-- A number that rounds into 0..255 is finite, so the rendering is that of the
rounded integer. -/
theorem Js.roundToString16_of_range (x : ℚ) (hlo : -1 / 2 ≤ x) (hhi : x < 255 + 1 / 2) :
    Js.roundToString16 x = Js.toString16 (Js.mathRound x) := by
  unfold Js.roundToString16
  have habs : |x| < 256 := abs_lt.mpr ⟨by linarith, by linarith⟩
  have hbig : (256 : ℚ) ≤ Js.pow2 1024 := by
    rw [Js.pow2_eq]
    have e : (256 : ℚ) = (2 : ℚ) ^ (8 : ℤ) := by norm_num
    rw [e]
    exact (zpow_le_zpow_iff_right₀ (by norm_num : (1 : ℚ) < 2)).mpr (by norm_num)
  rw [if_neg (not_le.mpr (lt_of_lt_of_le habs hbig))]

theorem Js.toUpperCase_append (s t : String) :
    Js.toUpperCase (s ++ t) = Js.toUpperCase s ++ Js.toUpperCase t := by
  simp [Js.toUpperCase, String.ext_iff]

/-- On the 256 byte values the padded, upper-cased `toString(16)` is the two-digit
upper-case rendering. -/
theorem FigmaParser.toHex_byte :
    ∀ v : Fin 256, Js.toUpperCase
        (if (Js.toString16 (v.val : ℤ)).length = 1 then "0" ++ Js.toString16 (v.val : ℤ)
         else Js.toString16 (v.val : ℤ)) = Spec.twoDigitUpperHex v.val := by
  decide!

theorem Spec.twoDigitUpperHex_length (v : Nat) : (Spec.twoDigitUpperHex v).length = 2 := rfl

/-- When the double product of the channel with 255 rounds into 0..255, the upper-cased
`toHex` is the two-digit rendering of the rounded value. -/
theorem FigmaParser.toUpperCase_toHex_of_byte (c : ℚ) (hlo : -1 / 2 ≤ Js.mul c 255)
    (hhi : Js.mul c 255 < 255 + 1 / 2) :
    Js.toUpperCase (FigmaParser.toHex c) =
      Spec.twoDigitUpperHex (Js.mathRound (Js.mul c 255)).toNat := by
  obtain ⟨h0, h1⟩ := Js.mathRound_bounds_of_range _ hlo hhi
  have hlt : (Js.mathRound (Js.mul c 255)).toNat < 256 := by omega
  have hcast : (((Js.mathRound (Js.mul c 255)).toNat : ℕ) : ℤ) = Js.mathRound (Js.mul c 255) :=
    Int.toNat_of_nonneg h0
  have hb := FigmaParser.toHex_byte ⟨(Js.mathRound (Js.mul c 255)).toNat, hlt⟩
  simp only [hcast] at hb
  unfold FigmaParser.toHex
  dsimp only
  rw [Js.roundToString16_of_range _ hlo hhi]
  exact hb

theorem FigmaParser.toUpperCase_toHex (c : ℚ) (h0 : 0 ≤ c) (h1 : c ≤ 1) :
    Js.toUpperCase (FigmaParser.toHex c) =
      Spec.twoDigitUpperHex (Js.mathRound (Js.mul c 255)).toNat := by
  obtain ⟨hlo, hhi⟩ := Js.mul_scaled_bounds c h0 h1
  exact FigmaParser.toUpperCase_toHex_of_byte c (by linarith) (by linarith)

theorem FigmaParser.rgbToHex_eq_spec (r g b : ℚ) (hr : 0 ≤ r ∧ r ≤ 1) (hg : 0 ≤ g ∧ g ≤ 1)
    (hb : 0 ≤ b ∧ b ≤ 1) :
    FigmaParser.rgbToHex r g b =
      "#" ++ Spec.twoDigitUpperHex (Js.mathRound (Js.mul r 255)).toNat ++
        Spec.twoDigitUpperHex (Js.mathRound (Js.mul g 255)).toNat ++
        Spec.twoDigitUpperHex (Js.mathRound (Js.mul b 255)).toNat := by
  unfold FigmaParser.rgbToHex
  rw [Js.toUpperCase_append, Js.toUpperCase_append, Js.toUpperCase_append,
    FigmaParser.toUpperCase_toHex r hr.1 hr.2, FigmaParser.toUpperCase_toHex g hg.1 hg.2,
    FigmaParser.toUpperCase_toHex b hb.1 hb.2]
  rfl

theorem ComponentDetector.rgbToHex_eq_figmaParser (r g b : ℚ) :
    ComponentDetector.rgbToHex r g b = FigmaParser.rgbToHex r g b := rfl

/-- C1: for channels in [0,1], both copies of `rgbToHex` return `#` followed by the
two-digit zero-padded upper-case hexadecimal rendering of each channel scaled by 255
and rounded half up (seven characters in all), the scaling being the product as the
code takes it, in double precision; (1,0,0), (0,0,0) and (0.5,0.5,0.5) give `#FF0000`,
`#000000` and `#808080`, and the double 0.00196078431372549, whose product with 255 is
the double 0.5, gives the digits `01`. -/
theorem rgbToHex_unit_interval (r g b : ℚ) (hr : 0 ≤ r ∧ r ≤ 1) (hg : 0 ≤ g ∧ g ≤ 1)
    (hb : 0 ≤ b ∧ b ≤ 1) :
    (∃ vr vg vb : Nat,
      Spec.IsRoundHalfUp (Js.mul r 255) vr ∧ Spec.IsRoundHalfUp (Js.mul g 255) vg ∧
      Spec.IsRoundHalfUp (Js.mul b 255) vb ∧
      FigmaParser.rgbToHex r g b =
        "#" ++ Spec.twoDigitUpperHex vr ++ Spec.twoDigitUpperHex vg ++ Spec.twoDigitUpperHex vb ∧
      ComponentDetector.rgbToHex r g b =
        "#" ++ Spec.twoDigitUpperHex vr ++ Spec.twoDigitUpperHex vg ++ Spec.twoDigitUpperHex vb ∧
      (FigmaParser.rgbToHex r g b).length = 7 ∧
      (ComponentDetector.rgbToHex r g b).length = 7) ∧
    FigmaParser.rgbToHex 1 0 0 = "#FF0000" ∧ FigmaParser.rgbToHex 0 0 0 = "#000000" ∧
    FigmaParser.rgbToHex (1 / 2) (1 / 2) (1 / 2) = "#808080" ∧
    ComponentDetector.rgbToHex 1 0 0 = "#FF0000" ∧
    ComponentDetector.rgbToHex 0 0 0 = "#000000" ∧
    ComponentDetector.rgbToHex (1 / 2) (1 / 2) (1 / 2) = "#808080" ∧
    Js.mul (282578800148737 / 144115188075855872) 255 = 1 / 2 ∧
    FigmaParser.rgbToHex (282578800148737 / 144115188075855872) 0 0 = "#010000" ∧
    ComponentDetector.rgbToHex (282578800148737 / 144115188075855872) 0 0 = "#010000" := by
  have key := FigmaParser.rgbToHex_eq_spec r g b hr hg hb
  have hlen : (FigmaParser.rgbToHex r g b).length = 7 := by
    rw [key, String.length_append, String.length_append, String.length_append,
      Spec.twoDigitUpperHex_length, Spec.twoDigitUpperHex_length,
      Spec.twoDigitUpperHex_length]
    rfl
  refine ⟨⟨_, _, _,
    Js.mathRound_isRoundHalfUp _ (Js.mathRound_scaled_bounds r hr.1 hr.2).1,
    Js.mathRound_isRoundHalfUp _ (Js.mathRound_scaled_bounds g hg.1 hg.2).1,
    Js.mathRound_isRoundHalfUp _ (Js.mathRound_scaled_bounds b hb.1 hb.2).1,
    key, ?_, hlen, ?_⟩, ?_, ?_, ?_, ?_, ?_, ?_, ?_, ?_, ?_⟩
  · rw [ComponentDetector.rgbToHex_eq_figmaParser]; exact key
  · rw [ComponentDetector.rgbToHex_eq_figmaParser]; exact hlen
  all_goals decide!

theorem rgbToHex_unit_interval_witness :
    FigmaParser.rgbToHex (1 / 2) 0 1 = "#8000FF" ∧
      ComponentDetector.rgbToHex (1 / 2) 0 1 = "#8000FF" := by
  obtain ⟨⟨vr, vg, vb, h1, h2, h3, h4, h5, -, -⟩, -⟩ :=
    rgbToHex_unit_interval (1 / 2) 0 1 (by norm_num) (by norm_num) (by norm_num)
  have m1 : Js.mul (1 / 2) 255 = 255 / 2 := by decide!
  have m2 : Js.mul 0 255 = 0 := by decide!
  have m3 : Js.mul 1 255 = 255 := by decide!
  rw [m1] at h1
  rw [m2] at h2
  rw [m3] at h3
  have e1 : vr = 128 := by
    unfold Spec.IsRoundHalfUp at h1
    have a := h1.1
    have b := h1.2
    have a2 : (vr : ℚ) ≤ 128 := by linarith
    have b2 : (127 : ℚ) < vr := by linarith
    have a3 : vr ≤ 128 := by exact_mod_cast a2
    have b3 : 127 < vr := by exact_mod_cast b2
    omega
  have e2 : vg = 0 := by
    unfold Spec.IsRoundHalfUp at h2
    have a := h2.1
    have a2 : (vg : ℚ) < 1 := by linarith
    have a3 : vg < 1 := by exact_mod_cast a2
    omega
  have e3 : vb = 255 := by
    unfold Spec.IsRoundHalfUp at h3
    have a := h3.1
    have b := h3.2
    have a2 : (vb : ℚ) < 256 := by linarith
    have b2 : (254 : ℚ) < vb := by linarith
    have a3 : vb < 256 := by exact_mod_cast a2
    have b3 : 254 < vb := by exact_mod_cast b2
    omega
  subst e1 e2 e3
  exact ⟨h4, h5⟩

/-! ## Missing-field safety -/

/-- C2: `parseFigmaNode` raises `TypeError` on a one-node tree whose only fill is a
visible linear gradient with a single stop that carries no `color`: the optional
field is read without a guard at `stop.color.r`. -/
theorem parseFigmaNode_raises_on_colorless_stop :
    FigmaParser.parseFigmaNode
      (Figma.Node.mk { fills := some [{ type := some "GRADIENT_LINEAR",
                                        gradientStops := some [{ color := none }] }] } none)
      = Except.error Js.JsError.typeError := by
  decide

/-- C3: `detectComponents` raises `TypeError` on a one-node tree named "card" whose
only fill is a visible SOLID paint that carries no `color`: `extractBgColor` reads
`bgFill.color.r` without a guard. -/
theorem detectComponents_raises_on_colorless_fill :
    ComponentDetector.detectComponents
      (Figma.Node.mk { name := some "card", fills := some [{ type := some "SOLID" }] } none)
      = Except.error Js.JsError.typeError := by
  decide

/-! ## Traversal order -/

theorem Js.bind_ok {α β : Type} (a : α) (f : α → Except Js.JsError β) :
    (Except.ok a >>= f) = f a := rfl

theorem Js.bind_error {α β : Type} (e : Js.JsError) (f : α → Except Js.JsError β) :
    ((Except.error e : Except Js.JsError α) >>= f) = Except.error e := rfl

theorem Js.bind_assoc {α β γ : Type} (x : Except Js.JsError α) (f : α → Except Js.JsError β)
    (g : β → Except Js.JsError γ) :
    (x >>= f >>= g) = (x >>= fun a => f a >>= g) := by
  cases x <;> rfl

theorem Js.foldlM_append {σ α : Type} (f : σ → α → Except Js.JsError σ) (l₁ l₂ : List α)
    (s : σ) :
    (l₁ ++ l₂).foldlM f s = (l₁.foldlM f s >>= fun s₁ => l₂.foldlM f s₁) := by
  induction l₁ generalizing s with
  | nil => rfl
  | cons a l ih =>
    simp only [List.cons_append, List.foldlM_cons]
    rw [Js.bind_assoc]
    congr 1
    funext s₁
    exact ih s₁

/-- Induction over a design tree: a property holds of every node as soon as it holds
of a node whenever it holds of all its children. -/
theorem Figma.Node.induct {P : Figma.Node → Prop}
    (step : ∀ props kids, (∀ l, kids = some l → ∀ c ∈ l, P c) → P (Figma.Node.mk props kids)) :
    ∀ n, P n :=
  @Figma.Node.rec P (fun kids => ∀ l, kids = some l → ∀ c ∈ l, P c) (fun l => ∀ c ∈ l, P c)
    (fun props kids ih => step props kids ih)
    (fun l h => by cases h)
    (fun l ih l2 h => by cases h; exact ih)
    (fun c hc => by cases hc)
    (fun hd tl ihd itl c hc => by
      rcases List.mem_cons.mp hc with h | h
      · exact h ▸ ihd
      · exact itl c h)

theorem FigmaParser.traverseEach_eq (l : List Figma.Node)
    (ih : ∀ c ∈ l, ∀ ds, FigmaParser.traverse c ds =
      (Figma.Node.preorder c).foldlM (fun ds n => FigmaParser.visit n.props ds) ds)
    (ds : FigmaParser.DesignSystem) :
    FigmaParser.traverseEach l ds =
      (Figma.Node.preorderList l).foldlM (fun ds n => FigmaParser.visit n.props ds) ds := by
  induction l generalizing ds with
  | nil => rfl
  | cons c cs ihl =>
    rw [FigmaParser.traverseEach, Figma.Node.preorderList, Js.foldlM_append,
      ih c (List.mem_cons_self _ _)]
    congr 1
    funext ds₁
    exact ihl (fun c hc => ih c (List.mem_cons_of_mem _ hc)) ds₁

/-- The token extractor visits the nodes in pre-order, each once. -/
theorem FigmaParser.traverse_eq_foldlM (t : Figma.Node) :
    ∀ ds, FigmaParser.traverse t ds =
      (Figma.Node.preorder t).foldlM (fun ds n => FigmaParser.visit n.props ds) ds := by
  induction t using Figma.Node.induct with
  | step props kids ih =>
    intro ds
    rw [FigmaParser.traverse, Figma.Node.preorder, List.foldlM_cons]
    congr 1
    funext ds₁
    cases kids with
    | none => rfl
    | some l =>
      rw [FigmaParser.traverseChildren, Figma.Node.preorderKids]
      exact FigmaParser.traverseEach_eq l (ih l rfl) ds₁

theorem ComponentDetector.detect_traverseEach_eq (l : List Figma.Node)
    (ih : ∀ c ∈ l, ∀ acc, ComponentDetector.traverse c acc =
      (Figma.Node.preorder c).foldlM (fun acc n => ComponentDetector.visit n acc) acc)
    (acc : ComponentDetector.Components) :
    ComponentDetector.traverseEach l acc =
      (Figma.Node.preorderList l).foldlM (fun acc n => ComponentDetector.visit n acc) acc := by
  induction l generalizing acc with
  | nil => rfl
  | cons c cs ihl =>
    rw [ComponentDetector.traverseEach, Figma.Node.preorderList, Js.foldlM_append,
      ih c (List.mem_cons_self _ _)]
    congr 1
    funext acc₁
    exact ihl (fun c hc => ih c (List.mem_cons_of_mem _ hc)) acc₁

/-- The component classifier visits the nodes in pre-order, each once. -/
theorem ComponentDetector.detect_traverse_eq_foldlM (t : Figma.Node) :
    ∀ acc, ComponentDetector.traverse t acc =
      (Figma.Node.preorder t).foldlM (fun acc n => ComponentDetector.visit n acc) acc := by
  induction t using Figma.Node.induct with
  | step props kids ih =>
    intro acc
    rw [ComponentDetector.traverse, Figma.Node.preorder, List.foldlM_cons]
    congr 1
    funext acc₁
    cases kids with
    | none => rfl
    | some l =>
      rw [ComponentDetector.traverseChildren, Figma.Node.preorderKids]
      exact ComponentDetector.detect_traverseEach_eq l (ih l rfl) acc₁

theorem Js.bind_const_error {α β : Type} (x : Except Js.JsError α) :
    (x >>= fun _ => (Except.error Js.JsError.typeError : Except Js.JsError β)) =
      Except.error Js.JsError.typeError := by
  rcases x with ⟨⟨⟩⟩ | a <;> rfl

theorem Js.mapE_append {α β : Type} (f : α → Except Js.JsError β) (l₁ l₂ : List α) :
    Js.mapE f (l₁ ++ l₂) =
      (Js.mapE f l₁ >>= fun a => Js.mapE f l₂ >>= fun b => pure (a ++ b)) := by
  induction l₁ with
  | nil =>
    simp only [List.nil_append, Js.mapE]
    cases Js.mapE f l₂ <;> rfl
  | cons x xs ih =>
    rw [List.cons_append]
    show (f x >>= fun b => Js.mapE f (xs ++ l₂) >>= fun bs => pure (b :: bs)) =
      ((f x >>= fun b => Js.mapE f xs >>= fun bs => pure (b :: bs)) >>=
        fun a => Js.mapE f l₂ >>= fun b => pure (a ++ b))
    rw [ih]
    rcases f x with e | b
    · rfl
    · rcases Js.mapE f xs with e | bs
      · rfl
      · rcases Js.mapE f l₂ with e | cs <;> rfl

theorem Spec.collect_append (l₁ l₂ : List Figma.Node) (acc : ComponentDetector.Components) :
    Spec.collect (l₁ ++ l₂) acc = (Spec.collect l₁ acc >>= fun a => Spec.collect l₂ a) := by
  simp only [Spec.collect, List.filter_append, Js.mapE_append]
  generalize Js.mapE ComponentDetector.analyzeButton (l₁.filter ComponentDetector.isButton) = b₁
  generalize Js.mapE ComponentDetector.analyzeButton (l₂.filter ComponentDetector.isButton) = b₂
  generalize Js.mapE ComponentDetector.analyzeCard (l₁.filter ComponentDetector.isCard) = c₁
  generalize Js.mapE ComponentDetector.analyzeCard (l₂.filter ComponentDetector.isCard) = c₂
  generalize
    Js.mapE ComponentDetector.analyzeNavigation (l₁.filter ComponentDetector.isNavigation) = n₁
  generalize
    Js.mapE ComponentDetector.analyzeNavigation (l₂.filter ComponentDetector.isNavigation) = n₂
  generalize
    Js.mapE ComponentDetector.analyzeFormElement (l₁.filter ComponentDetector.isFormElement) = f₁
  generalize
    Js.mapE ComponentDetector.analyzeFormElement (l₂.filter ComponentDetector.isFormElement) = f₂
  generalize Js.mapE ComponentDetector.analyzeIcon (l₁.filter ComponentDetector.isIcon) = i₁
  generalize Js.mapE ComponentDetector.analyzeIcon (l₂.filter ComponentDetector.isIcon) = i₂
  rcases b₁ with ⟨⟨⟩⟩ | b₁
  · rfl
  rcases c₁ with ⟨⟨⟩⟩ | c₁
  · rcases b₂ with ⟨⟨⟩⟩ | b₂ <;> rfl
  rcases n₁ with ⟨⟨⟩⟩ | n₁
  · rcases b₂ with ⟨⟨⟩⟩ | b₂
    · rfl
    rcases c₂ with ⟨⟨⟩⟩ | c₂ <;> rfl
  rcases f₁ with ⟨⟨⟩⟩ | f₁
  · rcases b₂ with ⟨⟨⟩⟩ | b₂
    · rfl
    rcases c₂ with ⟨⟨⟩⟩ | c₂
    · rfl
    rcases n₂ with ⟨⟨⟩⟩ | n₂ <;> rfl
  rcases i₁ with ⟨⟨⟩⟩ | i₁
  · rcases b₂ with ⟨⟨⟩⟩ | b₂
    · rfl
    rcases c₂ with ⟨⟨⟩⟩ | c₂
    · rfl
    rcases n₂ with ⟨⟨⟩⟩ | n₂
    · rfl
    rcases f₂ with ⟨⟨⟩⟩ | f₂ <;> rfl
  rcases b₂ with ⟨⟨⟩⟩ | b₂
  · rfl
  rcases c₂ with ⟨⟨⟩⟩ | c₂
  · rfl
  rcases n₂ with ⟨⟨⟩⟩ | n₂
  · rfl
  rcases f₂ with ⟨⟨⟩⟩ | f₂
  · rfl
  rcases i₂ with ⟨⟨⟩⟩ | i₂
  · rfl
  simp only [Js.bind_ok, pure, Except.pure, List.append_assoc]

theorem ComponentDetector.visit_eq_collect (n : Figma.Node)
    (acc : ComponentDetector.Components) :
    ComponentDetector.visit n acc = Spec.collect [n] acc := by
  unfold ComponentDetector.visit Spec.collect
  simp only [List.filter_cons, List.filter_nil]
  cases ComponentDetector.isButton n <;> cases ComponentDetector.isCard n <;>
    cases ComponentDetector.isNavigation n <;> cases ComponentDetector.isFormElement n <;>
    cases ComponentDetector.isIcon n <;>
    simp only [Js.mapE, if_true, if_false, Bool.false_eq_true] <;>
    (try rcases ComponentDetector.analyzeButton n with ⟨⟨⟩⟩ | b) <;>
    (try rcases ComponentDetector.analyzeCard n with ⟨⟨⟩⟩ | c) <;>
    (try rcases ComponentDetector.analyzeNavigation n with ⟨⟨⟩⟩ | v) <;>
    (try rcases ComponentDetector.analyzeFormElement n with ⟨⟨⟩⟩ | f) <;>
    (try rcases ComponentDetector.analyzeIcon n with ⟨⟨⟩⟩ | i) <;>
    first
      | rfl
      | simp only [Js.bind_ok, Js.bind_error, pure, Except.pure, List.append_nil]

theorem ComponentDetector.foldlM_visit_eq_collect (nodes : List Figma.Node) :
    ∀ acc, nodes.foldlM (fun acc n => ComponentDetector.visit n acc) acc =
      Spec.collect nodes acc := by
  induction nodes with
  | nil =>
    intro acc
    simp only [List.foldlM_nil, Spec.collect, List.filter_nil, Js.mapE, Js.bind_ok, pure,
      Except.pure, List.append_nil]
  | cons n ns ih =>
    intro acc
    have happ := Spec.collect_append [n] ns acc
    rw [List.singleton_append] at happ
    rw [List.foldlM_cons, happ, ComponentDetector.visit_eq_collect]
    congr 1
    funext a
    exact ih a

theorem ComponentDetector.detectComponents_eq_spec (t : Figma.Node) :
    ComponentDetector.detectComponents t = Spec.classifyPreorder t := by
  unfold ComponentDetector.detectComponents Spec.classifyPreorder
  rw [ComponentDetector.detect_traverse_eq_foldlM, ComponentDetector.foldlM_visit_eq_collect]
  unfold Spec.collect
  dsimp only
  generalize Js.mapE ComponentDetector.analyzeButton
    ((Figma.Node.preorder t).filter ComponentDetector.isButton) = b
  generalize Js.mapE ComponentDetector.analyzeCard
    ((Figma.Node.preorder t).filter ComponentDetector.isCard) = c
  generalize Js.mapE ComponentDetector.analyzeNavigation
    ((Figma.Node.preorder t).filter ComponentDetector.isNavigation) = v
  generalize Js.mapE ComponentDetector.analyzeFormElement
    ((Figma.Node.preorder t).filter ComponentDetector.isFormElement) = f
  generalize Js.mapE ComponentDetector.analyzeIcon
    ((Figma.Node.preorder t).filter ComponentDetector.isIcon) = i
  rcases b with ⟨⟨⟩⟩ | b
  · rfl
  rcases c with ⟨⟨⟩⟩ | c
  · rfl
  rcases v with ⟨⟨⟩⟩ | v
  · rfl
  rcases f with ⟨⟨⟩⟩ | f
  · rfl
  rcases i with ⟨⟨⟩⟩ | i
  · rfl
  rfl

/-- C4: the catalog of `detectComponents` is the one read off the pre-order listing of
the tree: each of the five lists is the pre-order nodes (a node before its children,
children left to right, each node once) that satisfy the kind's predicate, each run
through the kind's analyzer, and each summary count is the length of its list. -/
theorem detectComponents_eq_classifyPreorder (t : Figma.Node) :
    ComponentDetector.detectComponents t = Spec.classifyPreorder t :=
  ComponentDetector.detectComponents_eq_spec t

/-! ## Sets as insertion-ordered lists -/

theorem Js.mem_setAdd {α : Type} [DecidableEq α] (s : List α) (x y : α) :
    y ∈ Js.setAdd s x ↔ y ∈ s ∨ y = x := by
  unfold Js.setAdd
  by_cases h : x ∈ s
  · rw [if_pos h]
    constructor
    · exact Or.inl
    · rintro (h' | rfl)
      · exact h'
      · exact h
  · rw [if_neg h, List.mem_append, List.mem_singleton]

theorem Js.nodup_setAdd {α : Type} [DecidableEq α] (s : List α) (x : α) (hs : s.Nodup) :
    (Js.setAdd s x).Nodup := by
  unfold Js.setAdd
  by_cases h : x ∈ s
  · rw [if_pos h]
    exact hs
  · rw [if_neg h]
    refine List.Nodup.append hs (List.nodup_singleton x) ?_
    intro a ha hx
    rw [List.mem_singleton] at hx
    exact h (hx ▸ ha)

theorem Js.nodup_foldl_setAdd {α : Type} [DecidableEq α] (xs : List α) :
    ∀ s : List α, s.Nodup → (xs.foldl Js.setAdd s).Nodup := by
  induction xs with
  | nil => exact fun s hs => hs
  | cons x xs ih => exact fun s hs => ih _ (Js.nodup_setAdd s x hs)

/-! ## Folds that may raise -/

theorem Js.foldlM_ok_invariant {σ α : Type} (f : σ → α → Except Js.JsError σ)
    (Inv : σ → Prop) (hstep : ∀ s a s', f s a = Except.ok s' → Inv s → Inv s') :
    ∀ (l : List α) (s s' : σ), l.foldlM f s = Except.ok s' → Inv s → Inv s' := by
  intro l
  induction l with
  | nil =>
    intro s s' h hs
    cases h
    exact hs
  | cons a l ih =>
    intro s s' h hs
    rw [List.foldlM_cons] at h
    rcases hfa : f s a with e | s₁
    · rw [hfa] at h
      cases h
    · rw [hfa] at h
      exact ih s₁ s' h (hstep s a s₁ hfa hs)

theorem Js.foldlM_ok_mem {σ α β : Type} (f : σ → α → Except Js.JsError σ)
    (proj : σ → List β) (contrib : α → β → Prop)
    (hstep : ∀ s a s', f s a = Except.ok s' → ∀ h, h ∈ proj s' ↔ h ∈ proj s ∨ contrib a h) :
    ∀ (l : List α) (s s' : σ), l.foldlM f s = Except.ok s' →
      ∀ h, h ∈ proj s' ↔ h ∈ proj s ∨ ∃ a ∈ l, contrib a h := by
  intro l
  induction l with
  | nil =>
    intro s s' h x
    cases h
    simp
  | cons a l ih =>
    intro s s' h x
    rw [List.foldlM_cons] at h
    rcases hfa : f s a with e | s₁
    · rw [hfa] at h
      cases h
    · rw [hfa] at h
      rw [ih s₁ s' h x, hstep s a s₁ hfa x]
      simp only [List.mem_cons, exists_eq_or_imp, or_assoc]

theorem Js.foldl_invariant {σ α : Type} (f : σ → α → σ) (Inv : σ → Prop)
    (hstep : ∀ s a, Inv s → Inv (f s a)) :
    ∀ (l : List α) (s : σ), Inv s → Inv (l.foldl f s) := by
  intro l
  induction l with
  | nil => exact fun s hs => hs
  | cons a l ih => exact fun s hs => ih _ (hstep s a hs)

theorem Js.foldl_mem {σ α β : Type} (f : σ → α → σ) (proj : σ → List β)
    (contrib : α → β → Prop)
    (hstep : ∀ s a h, h ∈ proj (f s a) ↔ h ∈ proj s ∨ contrib a h) :
    ∀ (l : List α) (s : σ) (h : β),
      h ∈ proj (l.foldl f s) ↔ h ∈ proj s ∨ ∃ a ∈ l, contrib a h := by
  intro l
  induction l with
  | nil =>
    intro s x
    simp
  | cons a l ih =>
    intro s x
    rw [List.foldl_cons, ih (f s a) x, hstep s a x]
    simp only [List.mem_cons, exists_eq_or_imp, or_assoc]

/-! ## What each step of the token extractor leaves alone -/

/-- The fills step changes `colors` and `gradients` only. -/
theorem FigmaParser.visitFill_frame (ds ds' : FigmaParser.DesignSystem) (fill : Figma.Paint)
    (h : FigmaParser.visitFill ds fill = Except.ok ds') :
    ds'.fonts = ds.fonts ∧ ds'.typography = ds.typography ∧ ds'.layout = ds.layout ∧
      ds'.effects = ds.effects ∧ ds'.borders = ds.borders ∧ ds'.spacing = ds.spacing := by
  unfold FigmaParser.visitFill at h
  split at h
  · split at h
    · split at h
      · cases h
        exact ⟨rfl, rfl, rfl, rfl, rfl, rfl⟩
      · cases h
        exact ⟨rfl, rfl, rfl, rfl, rfl, rfl⟩
    · split at h
      · split at h
        · rcases hm : Js.mapE FigmaParser.stopToHex ‹_› with e | cs
          · rw [hm] at h
            cases h
          · rw [hm] at h
            cases h
            exact ⟨rfl, rfl, rfl, rfl, rfl, rfl⟩
        · cases h
          exact ⟨rfl, rfl, rfl, rfl, rfl, rfl⟩
      · cases h
        exact ⟨rfl, rfl, rfl, rfl, rfl, rfl⟩
  · cases h
    exact ⟨rfl, rfl, rfl, rfl, rfl, rfl⟩

theorem FigmaParser.visitFills_frame (node : Figma.NodeProps)
    (ds ds' : FigmaParser.DesignSystem) (h : FigmaParser.visitFills node ds = Except.ok ds') :
    ds'.fonts = ds.fonts ∧ ds'.typography = ds.typography ∧ ds'.layout = ds.layout ∧
      ds'.effects = ds.effects ∧ ds'.borders = ds.borders ∧ ds'.spacing = ds.spacing := by
  unfold FigmaParser.visitFills at h
  split at h
  · refine Js.foldlM_ok_invariant FigmaParser.visitFill
      (fun s => s.fonts = ds.fonts ∧ s.typography = ds.typography ∧ s.layout = ds.layout ∧
        s.effects = ds.effects ∧ s.borders = ds.borders ∧ s.spacing = ds.spacing)
      ?_ _ ds ds' h ⟨rfl, rfl, rfl, rfl, rfl, rfl⟩
    intro s a s' hs hinv
    obtain ⟨h1, h2, h3, h4, h5, h6⟩ := FigmaParser.visitFill_frame s s' a hs
    obtain ⟨i1, i2, i3, i4, i5, i6⟩ := hinv
    exact ⟨h1.trans i1, h2.trans i2, h3.trans i3, h4.trans i4, h5.trans i5, h6.trans i6⟩
  · cases h
    exact ⟨rfl, rfl, rfl, rfl, rfl, rfl⟩

theorem FigmaParser.visitStroke_frame (ds : FigmaParser.DesignSystem) (stroke : Figma.Paint) :
    (FigmaParser.visitStroke ds stroke).gradients = ds.gradients ∧
    (FigmaParser.visitStroke ds stroke).fonts = ds.fonts ∧
    (FigmaParser.visitStroke ds stroke).typography = ds.typography ∧
    (FigmaParser.visitStroke ds stroke).layout = ds.layout ∧
    (FigmaParser.visitStroke ds stroke).effects = ds.effects ∧
    (FigmaParser.visitStroke ds stroke).borders = ds.borders ∧
    (FigmaParser.visitStroke ds stroke).spacing = ds.spacing := by
  unfold FigmaParser.visitStroke
  split
  · split <;> exact ⟨rfl, rfl, rfl, rfl, rfl, rfl, rfl⟩
  · exact ⟨rfl, rfl, rfl, rfl, rfl, rfl, rfl⟩

/-- The strokes step changes `colors` and `borders` only. -/
theorem FigmaParser.visitStrokes_frame (node : Figma.NodeProps) (ds : FigmaParser.DesignSystem) :
    (FigmaParser.visitStrokes node ds).gradients = ds.gradients ∧
    (FigmaParser.visitStrokes node ds).fonts = ds.fonts ∧
    (FigmaParser.visitStrokes node ds).typography = ds.typography ∧
    (FigmaParser.visitStrokes node ds).layout = ds.layout ∧
    (FigmaParser.visitStrokes node ds).effects = ds.effects ∧
    (FigmaParser.visitStrokes node ds).spacing = ds.spacing := by
  have key : ∀ strokes : List Figma.Paint,
      (strokes.foldl FigmaParser.visitStroke ds).gradients = ds.gradients ∧
      (strokes.foldl FigmaParser.visitStroke ds).fonts = ds.fonts ∧
      (strokes.foldl FigmaParser.visitStroke ds).typography = ds.typography ∧
      (strokes.foldl FigmaParser.visitStroke ds).layout = ds.layout ∧
      (strokes.foldl FigmaParser.visitStroke ds).effects = ds.effects ∧
      (strokes.foldl FigmaParser.visitStroke ds).spacing = ds.spacing := by
    intro strokes
    refine Js.foldl_invariant FigmaParser.visitStroke
      (fun s => s.gradients = ds.gradients ∧ s.fonts = ds.fonts ∧
        s.typography = ds.typography ∧ s.layout = ds.layout ∧ s.effects = ds.effects ∧
        s.spacing = ds.spacing) ?_ strokes ds ⟨rfl, rfl, rfl, rfl, rfl, rfl⟩
    intro s a hinv
    obtain ⟨h1, h2, h3, h4, h5, -, h7⟩ := FigmaParser.visitStroke_frame s a
    obtain ⟨i1, i2, i3, i4, i5, i7⟩ := hinv
    exact ⟨h1.trans i1, h2.trans i2, h3.trans i3, h4.trans i4, h5.trans i5, h7.trans i7⟩
  unfold FigmaParser.visitStrokes
  split
  · split
    · split
      · exact key _
      · exact key _
    · exact key _
  · exact ⟨rfl, rfl, rfl, rfl, rfl, rfl⟩

/-- The typography step changes `fonts` and `typography` only. -/
theorem FigmaParser.visitStyle_frame (node : Figma.NodeProps) (ds : FigmaParser.DesignSystem) :
    (FigmaParser.visitStyle node ds).colors = ds.colors ∧
    (FigmaParser.visitStyle node ds).gradients = ds.gradients ∧
    (FigmaParser.visitStyle node ds).layout = ds.layout ∧
    (FigmaParser.visitStyle node ds).effects = ds.effects ∧
    (FigmaParser.visitStyle node ds).borders = ds.borders ∧
    (FigmaParser.visitStyle node ds).spacing = ds.spacing := by
  unfold FigmaParser.visitStyle
  split
  · split
    · split
      · dsimp only
        split
        · exact ⟨rfl, rfl, rfl, rfl, rfl, rfl⟩
        · split <;> exact ⟨rfl, rfl, rfl, rfl, rfl, rfl⟩
      · exact ⟨rfl, rfl, rfl, rfl, rfl, rfl⟩
    · exact ⟨rfl, rfl, rfl, rfl, rfl, rfl⟩
  · exact ⟨rfl, rfl, rfl, rfl, rfl, rfl⟩

/-- The layout step changes `layout` and `spacing` only. -/
theorem FigmaParser.visitLayout_frame (node : Figma.NodeProps) (ds : FigmaParser.DesignSystem) :
    (FigmaParser.visitLayout node ds).colors = ds.colors ∧
    (FigmaParser.visitLayout node ds).gradients = ds.gradients ∧
    (FigmaParser.visitLayout node ds).fonts = ds.fonts ∧
    (FigmaParser.visitLayout node ds).typography = ds.typography ∧
    (FigmaParser.visitLayout node ds).effects = ds.effects ∧
    (FigmaParser.visitLayout node ds).borders = ds.borders := by
  unfold FigmaParser.visitLayout
  split
  · split
    · dsimp only
      split <;> split <;> (try split) <;> exact ⟨rfl, rfl, rfl, rfl, rfl, rfl⟩
    · exact ⟨rfl, rfl, rfl, rfl, rfl, rfl⟩
  · exact ⟨rfl, rfl, rfl, rfl, rfl, rfl⟩

/-- The corner-radius step changes `borders` only. -/
theorem FigmaParser.visitRadius_frame (node : Figma.NodeProps) (ds : FigmaParser.DesignSystem) :
    (FigmaParser.visitRadius node ds).colors = ds.colors ∧
    (FigmaParser.visitRadius node ds).gradients = ds.gradients ∧
    (FigmaParser.visitRadius node ds).fonts = ds.fonts ∧
    (FigmaParser.visitRadius node ds).typography = ds.typography ∧
    (FigmaParser.visitRadius node ds).layout = ds.layout ∧
    (FigmaParser.visitRadius node ds).effects = ds.effects ∧
    (FigmaParser.visitRadius node ds).spacing = ds.spacing := by
  unfold FigmaParser.visitRadius
  split
  · exact ⟨rfl, rfl, rfl, rfl, rfl, rfl, rfl⟩
  · split
    · refine Js.foldl_invariant _
        (fun s => s.colors = ds.colors ∧ s.gradients = ds.gradients ∧ s.fonts = ds.fonts ∧
          s.typography = ds.typography ∧ s.layout = ds.layout ∧ s.effects = ds.effects ∧
          s.spacing = ds.spacing) ?_ _ ds ⟨rfl, rfl, rfl, rfl, rfl, rfl, rfl⟩
      intro s a hinv
      dsimp only
      split
      · exact hinv
      · exact hinv
    · exact ⟨rfl, rfl, rfl, rfl, rfl, rfl, rfl⟩

theorem FigmaParser.visitEffect_frame (ds : FigmaParser.DesignSystem) (effect : Figma.Effect) :
    (FigmaParser.visitEffect ds effect).colors = ds.colors ∧
    (FigmaParser.visitEffect ds effect).gradients = ds.gradients ∧
    (FigmaParser.visitEffect ds effect).fonts = ds.fonts ∧
    (FigmaParser.visitEffect ds effect).typography = ds.typography ∧
    (FigmaParser.visitEffect ds effect).layout = ds.layout ∧
    (FigmaParser.visitEffect ds effect).borders = ds.borders ∧
    (FigmaParser.visitEffect ds effect).spacing = ds.spacing := by
  unfold FigmaParser.visitEffect
  split
  · split
    · exact ⟨rfl, rfl, rfl, rfl, rfl, rfl, rfl⟩
    · split <;> exact ⟨rfl, rfl, rfl, rfl, rfl, rfl, rfl⟩
  · exact ⟨rfl, rfl, rfl, rfl, rfl, rfl, rfl⟩

/-- The effects step changes `effects` only. -/
theorem FigmaParser.visitEffects_frame (node : Figma.NodeProps) (ds : FigmaParser.DesignSystem) :
    (FigmaParser.visitEffects node ds).colors = ds.colors ∧
    (FigmaParser.visitEffects node ds).gradients = ds.gradients ∧
    (FigmaParser.visitEffects node ds).fonts = ds.fonts ∧
    (FigmaParser.visitEffects node ds).typography = ds.typography ∧
    (FigmaParser.visitEffects node ds).layout = ds.layout ∧
    (FigmaParser.visitEffects node ds).borders = ds.borders ∧
    (FigmaParser.visitEffects node ds).spacing = ds.spacing := by
  unfold FigmaParser.visitEffects
  split
  · refine Js.foldl_invariant FigmaParser.visitEffect
      (fun s => s.colors = ds.colors ∧ s.gradients = ds.gradients ∧ s.fonts = ds.fonts ∧
        s.typography = ds.typography ∧ s.layout = ds.layout ∧ s.borders = ds.borders ∧
        s.spacing = ds.spacing) ?_ _ ds ⟨rfl, rfl, rfl, rfl, rfl, rfl, rfl⟩
    intro s a hinv
    obtain ⟨h1, h2, h3, h4, h5, h6, h7⟩ := FigmaParser.visitEffect_frame s a
    obtain ⟨i1, i2, i3, i4, i5, i6, i7⟩ := hinv
    exact ⟨h1.trans i1, h2.trans i2, h3.trans i3, h4.trans i4, h5.trans i5, h6.trans i6,
      h7.trans i7⟩
  · exact ⟨rfl, rfl, rfl, rfl, rfl, rfl, rfl⟩

/-- A successful visit of one node: the fills step returned, and the other five steps
were applied to its result. -/
theorem FigmaParser.visit_ok (node : Figma.NodeProps) (ds ds' : FigmaParser.DesignSystem)
    (h : FigmaParser.visit node ds = Except.ok ds') :
    ∃ ds₁, FigmaParser.visitFills node ds = Except.ok ds₁ ∧
      ds' = FigmaParser.visitEffects node (FigmaParser.visitRadius node
        (FigmaParser.visitLayout node (FigmaParser.visitStyle node
          (FigmaParser.visitStrokes node ds₁)))) := by
  unfold FigmaParser.visit at h
  rcases hf : FigmaParser.visitFills node ds with e | ds₁
  · rw [hf] at h
    cases h
  · rw [hf] at h
    cases h
    exact ⟨ds₁, rfl, rfl⟩

/-! ## Colours -/

theorem FigmaParser.visitFill_colors (ds ds' : FigmaParser.DesignSystem) (fill : Figma.Paint)
    (h : FigmaParser.visitFill ds fill = Except.ok ds') :
    (∀ x, x ∈ ds'.colors ↔ x ∈ ds.colors ∨ Spec.PaintYields fill x) ∧
      (ds.colors.Nodup → ds'.colors.Nodup) := by
  unfold FigmaParser.visitFill at h
  by_cases hv : fill.visible ≠ some false
  · rw [if_pos hv] at h
    by_cases hs : fill.type = some "SOLID" ∧ fill.color.isSome = true
    · rw [if_pos hs] at h
      rcases hc : fill.color with _ | c
      · rw [hc] at hs
        exact absurd hs.2 (by simp)
      · rw [hc] at h
        cases h
        refine ⟨fun x => ?_, fun hn => Js.nodup_setAdd _ _ hn⟩
        show x ∈ Js.setAdd ds.colors _ ↔ _
        rw [Js.mem_setAdd]
        unfold Spec.PaintYields
        constructor
        · rintro (hx | hx)
          · exact Or.inl hx
          · exact Or.inr ⟨hs.1, hv, c, hc, hx.symm⟩
        · rintro (hx | ⟨-, -, c', hc', hx⟩)
          · exact Or.inl hx
          · rw [hc] at hc'
            cases hc'
            exact Or.inr hx.symm
    · rw [if_neg hs] at h
      have hno : ∀ x, ¬ Spec.PaintYields fill x := by
        rintro x ⟨ht, -, c, hc, -⟩
        exact hs ⟨ht, by rw [hc]; rfl⟩
      have hsame : ds'.colors = ds.colors := by
        split at h
        · split at h
          · rcases hm : Js.mapE FigmaParser.stopToHex ‹_› with e | cs
            · rw [hm] at h
              cases h
            · rw [hm] at h
              cases h
              rfl
          · cases h
            rfl
        · cases h
          rfl
      rw [hsame]
      exact ⟨fun x => ⟨Or.inl, fun hx => hx.resolve_right (hno x)⟩, id⟩
  · rw [if_neg hv] at h
    cases h
    refine ⟨fun x => ⟨Or.inl, fun hx => hx.resolve_right ?_⟩, id⟩
    rintro ⟨-, hv', -⟩
    exact hv hv'

theorem FigmaParser.visitFills_colors (node : Figma.NodeProps)
    (ds ds' : FigmaParser.DesignSystem) (h : FigmaParser.visitFills node ds = Except.ok ds') :
    (∀ x, x ∈ ds'.colors ↔
      x ∈ ds.colors ∨ ∃ fills, node.fills = some fills ∧ ∃ p ∈ fills, Spec.PaintYields p x) ∧
      (ds.colors.Nodup → ds'.colors.Nodup) := by
  unfold FigmaParser.visitFills at h
  rcases hf : node.fills with _ | fills
  · rw [hf] at h
    cases h
    exact ⟨fun x => ⟨Or.inl, fun hx => hx.elim id (fun ⟨_, hh, _⟩ => by cases hh)⟩, id⟩
  · rw [hf] at h
    refine ⟨fun x => ?_, ?_⟩
    · rw [Js.foldlM_ok_mem FigmaParser.visitFill (fun s => s.colors) Spec.PaintYields
        (fun s a s' hs => (FigmaParser.visitFill_colors s s' a hs).1) fills ds ds' h x]
      constructor
      · rintro (hx | hx)
        · exact Or.inl hx
        · exact Or.inr ⟨fills, rfl, hx⟩
      · rintro (hx | ⟨fs, hfs, hx⟩)
        · exact Or.inl hx
        · cases hfs
          exact Or.inr hx
    · exact Js.foldlM_ok_invariant FigmaParser.visitFill (fun s => s.colors.Nodup)
        (fun s a s' hs => (FigmaParser.visitFill_colors s s' a hs).2) fills ds ds' h

theorem FigmaParser.visitStroke_colors (ds : FigmaParser.DesignSystem) (stroke : Figma.Paint) :
    (∀ x, x ∈ (FigmaParser.visitStroke ds stroke).colors ↔
      x ∈ ds.colors ∨ Spec.PaintYields stroke x) ∧
      (ds.colors.Nodup → (FigmaParser.visitStroke ds stroke).colors.Nodup) := by
  unfold FigmaParser.visitStroke
  by_cases hs : stroke.type = some "SOLID" ∧ stroke.color.isSome = true ∧
      stroke.visible ≠ some false
  · rw [if_pos hs]
    rcases hc : stroke.color with _ | c
    · rw [hc] at hs
      exact absurd hs.2.1 (by simp)
    · refine ⟨fun x => ?_, fun hn => Js.nodup_setAdd _ _ hn⟩
      show x ∈ Js.setAdd ds.colors _ ↔ _
      rw [Js.mem_setAdd]
      unfold Spec.PaintYields
      constructor
      · rintro (hx | hx)
        · exact Or.inl hx
        · exact Or.inr ⟨hs.1, hs.2.2, c, hc, hx.symm⟩
      · rintro (hx | ⟨-, -, c', hc', hx⟩)
        · exact Or.inl hx
        · rw [hc] at hc'
          cases hc'
          exact Or.inr hx.symm
  · rw [if_neg hs]
    refine ⟨fun x => ⟨Or.inl, fun hx => hx.resolve_right ?_⟩, id⟩
    rintro ⟨ht, hv, c, hc, -⟩
    exact hs ⟨ht, by rw [hc]; rfl, hv⟩

theorem FigmaParser.visitStrokes_colors (node : Figma.NodeProps)
    (ds : FigmaParser.DesignSystem) :
    (∀ x, x ∈ (FigmaParser.visitStrokes node ds).colors ↔
      x ∈ ds.colors ∨
        ∃ strokes, node.strokes = some strokes ∧ ∃ p ∈ strokes, Spec.PaintYields p x) ∧
      (ds.colors.Nodup → (FigmaParser.visitStrokes node ds).colors.Nodup) := by
  rcases hf : node.strokes with _ | strokes
  · have e : FigmaParser.visitStrokes node ds = ds := by
      unfold FigmaParser.visitStrokes
      rw [hf]
    rw [e]
    exact ⟨fun x => ⟨Or.inl, fun hx => hx.elim id (fun ⟨_, hh, _⟩ => by cases hh)⟩, id⟩
  · have e : (FigmaParser.visitStrokes node ds).colors =
        (strokes.foldl FigmaParser.visitStroke ds).colors := by
      unfold FigmaParser.visitStrokes
      rw [hf]
      dsimp only
      split
      · split <;> rfl
      · rfl
    rw [e]
    refine ⟨fun x => ?_, ?_⟩
    · rw [Js.foldl_mem FigmaParser.visitStroke (fun s => s.colors) Spec.PaintYields
        (fun s a x => (FigmaParser.visitStroke_colors s a).1 x) strokes ds x]
      constructor
      · rintro (hx | hx)
        · exact Or.inl hx
        · exact Or.inr ⟨strokes, rfl, hx⟩
      · rintro (hx | ⟨fs, hfs, hx⟩)
        · exact Or.inl hx
        · cases hfs
          exact Or.inr hx
    · exact Js.foldl_invariant FigmaParser.visitStroke (fun s => s.colors.Nodup)
        (fun s a hn => (FigmaParser.visitStroke_colors s a).2 hn) strokes ds

theorem FigmaParser.visit_colors (node : Figma.NodeProps) (ds ds' : FigmaParser.DesignSystem)
    (h : FigmaParser.visit node ds = Except.ok ds') :
    (∀ x, x ∈ ds'.colors ↔ x ∈ ds.colors ∨ Spec.NodeYieldsColor node x) ∧
      (ds.colors.Nodup → ds'.colors.Nodup) := by
  obtain ⟨ds₁, hf, rfl⟩ := FigmaParser.visit_ok node ds ds' h
  rw [(FigmaParser.visitEffects_frame node _).1, (FigmaParser.visitRadius_frame node _).1,
    (FigmaParser.visitLayout_frame node _).1, (FigmaParser.visitStyle_frame node _).1]
  obtain ⟨hm1, hn1⟩ := FigmaParser.visitFills_colors node ds ds₁ hf
  obtain ⟨hm2, hn2⟩ := FigmaParser.visitStrokes_colors node ds₁
  refine ⟨fun x => ?_, fun hn => hn2 (hn1 hn)⟩
  rw [hm2 x, hm1 x]
  unfold Spec.NodeYieldsColor
  exact or_assoc

theorem FigmaParser.traverse_colors (t : Figma.Node) (ds ds' : FigmaParser.DesignSystem)
    (h : FigmaParser.traverse t ds = Except.ok ds') :
    (∀ x, x ∈ ds'.colors ↔
      x ∈ ds.colors ∨ ∃ n ∈ Figma.Node.preorder t, Spec.NodeYieldsColor n.props x) ∧
      (ds.colors.Nodup → ds'.colors.Nodup) := by
  rw [FigmaParser.traverse_eq_foldlM] at h
  exact ⟨Js.foldlM_ok_mem
      (fun (ds : FigmaParser.DesignSystem) (n : Figma.Node) => FigmaParser.visit n.props ds)
      (fun s => s.colors) (fun (n : Figma.Node) x => Spec.NodeYieldsColor n.props x)
      (fun s a s' hs => (FigmaParser.visit_colors a.props s s' hs).1) _ ds ds' h,
    Js.foldlM_ok_invariant
      (fun (ds : FigmaParser.DesignSystem) (n : Figma.Node) => FigmaParser.visit n.props ds)
      (fun s => s.colors.Nodup)
      (fun s a s' hs => (FigmaParser.visit_colors a.props s s' hs).2) _ ds ds' h⟩

/-- A returned token set comes from a returned traversal, field by field. -/
theorem FigmaParser.parseFigmaNode_ok (t : Figma.Node) (ts : FigmaParser.TokenSet)
    (h : FigmaParser.parseFigmaNode t = Except.ok ts) :
    ∃ ds, FigmaParser.traverse t {} = Except.ok ds ∧ ts.colors = ds.colors ∧
      ts.gradients = ds.gradients ∧ ts.fonts = ds.fonts ∧ ts.typography = ds.typography ∧
      ts.layout = ds.layout ∧ ts.effects = ds.effects ∧ ts.borders = ds.borders ∧
      ts.spacingScale =
        (Js.sortNumeric ds.spacing).map fun val => Js.numberToString val ++ "px" := by
  unfold FigmaParser.parseFigmaNode at h
  rcases ht : FigmaParser.traverse t {} with e | ds
  · rw [ht] at h
    cases h
  · rw [ht] at h
    cases h
    exact ⟨ds, rfl, rfl, rfl, rfl, rfl, rfl, rfl, rfl, rfl⟩

/-- C6: on a tree for which `parseFigmaNode` returns, a string is in `colors` exactly
when some node of the tree has a fill or a stroke of type SOLID that is visible (its
flag is not `false`) and has a colour converting to that string; hence a paint with
`visible = false` contributes nothing; and `colors` holds no string twice. -/
theorem parseFigmaNode_colors (t : Figma.Node) (ts : FigmaParser.TokenSet)
    (hret : FigmaParser.parseFigmaNode t = Except.ok ts) :
    (∀ h : String, h ∈ ts.colors ↔
      ∃ n ∈ Figma.Node.preorder t, Spec.NodeYieldsColor n.props h) ∧
    ts.colors.Nodup := by
  obtain ⟨ds, ht, hc, -⟩ := FigmaParser.parseFigmaNode_ok t ts hret
  obtain ⟨hm, hn⟩ := FigmaParser.traverse_colors t {} ds ht
  rw [hc]
  refine ⟨fun h => ?_, hn List.nodup_nil⟩
  rw [hm h]
  exact ⟨fun hx => hx.resolve_left (List.not_mem_nil h), Or.inr⟩

theorem parseFigmaNode_colors_witness :
    FigmaParser.parseFigmaNode Example.paintedTree = Except.ok Example.paintedTokens ∧
    ((∀ h : String, h ∈ Example.paintedTokens.colors ↔
      ∃ n ∈ Figma.Node.preorder Example.paintedTree, Spec.NodeYieldsColor n.props h) ∧
    Example.paintedTokens.colors.Nodup) :=
  ⟨by decide!, parseFigmaNode_colors Example.paintedTree Example.paintedTokens (by decide!)⟩

/-! ## Spacing scale -/

theorem FigmaParser.visitLayout_spacing_nodup (node : Figma.NodeProps)
    (ds : FigmaParser.DesignSystem) (h : ds.spacing.Nodup) :
    (FigmaParser.visitLayout node ds).spacing.Nodup := by
  unfold FigmaParser.visitLayout
  split
  · split
    · dsimp only
      split <;> split <;> (try split) <;>
        first
          | exact h
          | exact Js.nodup_setAdd _ _ h
          | exact Js.nodup_foldl_setAdd _ _ h
          | exact Js.nodup_foldl_setAdd _ _ (Js.nodup_setAdd _ _ h)
    · exact h
  · exact h

theorem FigmaParser.visit_spacing_nodup (node : Figma.NodeProps)
    (ds ds' : FigmaParser.DesignSystem) (h : FigmaParser.visit node ds = Except.ok ds')
    (hn : ds.spacing.Nodup) : ds'.spacing.Nodup := by
  obtain ⟨ds₁, hf, rfl⟩ := FigmaParser.visit_ok node ds ds' h
  rw [(FigmaParser.visitEffects_frame node _).2.2.2.2.2.2,
    (FigmaParser.visitRadius_frame node _).2.2.2.2.2.2]
  apply FigmaParser.visitLayout_spacing_nodup
  rw [(FigmaParser.visitStyle_frame node _).2.2.2.2.2,
    (FigmaParser.visitStrokes_frame node _).2.2.2.2.2,
    (FigmaParser.visitFills_frame node ds ds₁ hf).2.2.2.2.2]
  exact hn

theorem FigmaParser.traverse_spacing_nodup (t : Figma.Node) (ds ds' : FigmaParser.DesignSystem)
    (h : FigmaParser.traverse t ds = Except.ok ds') (hn : ds.spacing.Nodup) :
    ds'.spacing.Nodup := by
  rw [FigmaParser.traverse_eq_foldlM] at h
  exact Js.foldlM_ok_invariant
    (fun (ds : FigmaParser.DesignSystem) (n : Figma.Node) => FigmaParser.visit n.props ds)
    (fun s => s.spacing.Nodup)
    (fun s a s' hs => FigmaParser.visit_spacing_nodup a.props s s' hs) _ ds ds' h hn

theorem Js.sortNumeric_strict (l : List ℚ) (h : l.Nodup) :
    (Js.sortNumeric l).Sorted (· < ·) :=
  List.Sorted.lt_of_le (List.sorted_insertionSort (· ≤ ·) l)
    ((List.perm_insertionSort (· ≤ ·) l).nodup_iff.mpr h)

/-- C5: on a tree for which `parseFigmaNode` returns, `spacingScale` is the list of
`<value>px` strings of a strictly increasing list of numbers, namely the raw spacing
values collected by the traversal (each once); the raw values 24, 8, 16, 8 give exactly
`["8px", "16px", "24px"]`. -/
theorem parseFigmaNode_spacingScale (t : Figma.Node) (ts : FigmaParser.TokenSet)
    (hret : FigmaParser.parseFigmaNode t = Except.ok ts) :
    (∃ (ds : FigmaParser.DesignSystem) (vals : List ℚ),
      FigmaParser.traverse t {} = Except.ok ds ∧ vals.Perm ds.spacing ∧
      vals.Sorted (· < ·) ∧
      ts.spacingScale = vals.map fun v => Js.numberToString v ++ "px") ∧
    (FigmaParser.parseFigmaNode Example.spacingTree).map (fun r => r.spacingScale) =
      Except.ok ["8px", "16px", "24px"] := by
  obtain ⟨ds, ht, -, -, -, -, -, -, -, hsp⟩ := FigmaParser.parseFigmaNode_ok t ts hret
  refine ⟨⟨ds, Js.sortNumeric ds.spacing, ht, List.perm_insertionSort (· ≤ ·) ds.spacing,
    Js.sortNumeric_strict _ (FigmaParser.traverse_spacing_nodup t {} ds ht List.nodup_nil),
    hsp⟩, ?_⟩
  decide

theorem parseFigmaNode_spacingScale_witness :
    FigmaParser.parseFigmaNode Example.spacingTree = Except.ok Example.spacingTokens ∧
    ((∃ (ds : FigmaParser.DesignSystem) (vals : List ℚ),
      FigmaParser.traverse Example.spacingTree {} = Except.ok ds ∧ vals.Perm ds.spacing ∧
      vals.Sorted (· < ·) ∧
      Example.spacingTokens.spacingScale = vals.map fun v => Js.numberToString v ++ "px") ∧
    (FigmaParser.parseFigmaNode Example.spacingTree).map (fun r => r.spacingScale) =
      Except.ok ["8px", "16px", "24px"]) :=
  ⟨by decide, parseFigmaNode_spacingScale Example.spacingTree Example.spacingTokens (by decide)⟩

/-! ## Typography buckets -/

theorem FigmaParser.visitStyle_typography_congr (node : Figma.NodeProps)
    (x y : FigmaParser.DesignSystem) (h : x.typography = y.typography) :
    (FigmaParser.visitStyle node x).typography = (FigmaParser.visitStyle node y).typography := by
  unfold FigmaParser.visitStyle
  split
  · split
    · split
      · dsimp only
        split
        · rw [h]
        · split <;> rw [h]
      · exact h
    · exact h
  · exact h

theorem FigmaParser.visit_typography (node : Figma.NodeProps)
    (ds ds' : FigmaParser.DesignSystem) (h : FigmaParser.visit node ds = Except.ok ds') :
    ds'.typography = (FigmaParser.visitStyle node ds).typography := by
  obtain ⟨ds₁, hf, rfl⟩ := FigmaParser.visit_ok node ds ds' h
  rw [(FigmaParser.visitEffects_frame node _).2.2.2.1,
    (FigmaParser.visitRadius_frame node _).2.2.2.1,
    (FigmaParser.visitLayout_frame node _).2.2.2.1]
  apply FigmaParser.visitStyle_typography_congr
  rw [(FigmaParser.visitStrokes_frame node _).2.2.1,
    (FigmaParser.visitFills_frame node ds ds₁ hf).2.1]

/-- On a tree of one node the traversal is the visit of that node. -/
theorem FigmaParser.traverse_single (props : Figma.NodeProps)
    (kids : Option (List Figma.Node)) (hk : kids = none ∨ kids = some [])
    (ds : FigmaParser.DesignSystem) :
    FigmaParser.traverse (Figma.Node.mk props kids) ds = FigmaParser.visit props ds := by
  rw [FigmaParser.traverse]
  rcases hk with rfl | rfl
  · rcases FigmaParser.visit props ds with e | d <;> rfl
  · rcases FigmaParser.visit props ds with e | d <;> rfl

theorem FigmaParser.visitStyle_buckets (props : Figma.NodeProps) (st : Figma.TextStyle)
    (f : String) (s : ℚ) (hst : props.style = some st) (hf : st.fontFamily = some f)
    (hne : f ≠ "") (hs : st.fontSize = some s) :
    (FigmaParser.visitStyle props {}).typography =
      if 32 ≤ s then { headings := [FigmaParser.fontInfo f st], body := [], captions := [] }
      else if 14 ≤ s then
        { headings := [], body := [FigmaParser.fontInfo f st], captions := [] }
      else { headings := [], body := [], captions := [FigmaParser.fontInfo f st] } := by
  unfold FigmaParser.visitStyle
  rw [hst]
  dsimp only
  rw [hf]
  dsimp only
  rw [if_pos hne, hs]
  unfold FigmaParser.sizeGe
  dsimp only
  by_cases h32 : 32 ≤ s
  · rw [if_pos (by simpa using h32), if_pos h32]
    rfl
  · rw [if_neg (by simpa using h32), if_neg h32]
    by_cases h14 : 14 ≤ s
    · rw [if_pos (by simpa using h14), if_pos h14]
      rfl
    · rw [if_neg (by simpa using h14), if_neg h14]
      rfl

/-- C7: on a single-node tree whose node has a style with a (non-empty) font family
and a numeric font size `s`, the typography of a returned token set holds the node's
descriptor in exactly one bucket, the other two being empty: `headings` when `s ≥ 32`,
`body` when `14 ≤ s < 32`, `captions` when `s < 14`; sizes 32, 31.999, 14 and 13.999
land in headings, body, body and captions. -/
theorem parseFigmaNode_typography_bucket (props : Figma.NodeProps)
    (kids : Option (List Figma.Node)) (st : Figma.TextStyle) (f : String) (s : ℚ)
    (ts : FigmaParser.TokenSet) (hk : kids = none ∨ kids = some [])
    (hst : props.style = some st) (hf : st.fontFamily = some f) (hne : f ≠ "")
    (hs : st.fontSize = some s)
    (hret : FigmaParser.parseFigmaNode (Figma.Node.mk props kids) = Except.ok ts) :
    ((32 ≤ s → ts.typography =
        { headings := [FigmaParser.fontInfo f st], body := [], captions := [] }) ∧
     (14 ≤ s → s < 32 → ts.typography =
        { headings := [], body := [FigmaParser.fontInfo f st], captions := [] }) ∧
     (s < 14 → ts.typography =
        { headings := [], body := [], captions := [FigmaParser.fontInfo f st] })) ∧
    (FigmaParser.parseFigmaNode (Example.textNode 32)).map (fun r => r.typography) =
      Except.ok { headings := [FigmaParser.fontInfo "Inter" (Example.interStyle 32)],
                  body := [], captions := [] } ∧
    (FigmaParser.parseFigmaNode (Example.textNode (31999 / 1000))).map (fun r => r.typography) =
      Except.ok { headings := [],
                  body := [FigmaParser.fontInfo "Inter" (Example.interStyle (31999 / 1000))],
                  captions := [] } ∧
    (FigmaParser.parseFigmaNode (Example.textNode 14)).map (fun r => r.typography) =
      Except.ok { headings := [], body := [FigmaParser.fontInfo "Inter" (Example.interStyle 14)],
                  captions := [] } ∧
    (FigmaParser.parseFigmaNode (Example.textNode (13999 / 1000))).map (fun r => r.typography) =
      Except.ok { headings := [], body := [],
                  captions := [FigmaParser.fontInfo "Inter" (Example.interStyle (13999 / 1000))] } := by
  obtain ⟨ds, ht, -, -, -, hty, -⟩ := FigmaParser.parseFigmaNode_ok _ ts hret
  rw [FigmaParser.traverse_single props kids hk] at ht
  have key := FigmaParser.visitStyle_buckets props st f s hst hf hne hs
  rw [← FigmaParser.visit_typography props {} ds ht, ← hty] at key
  refine ⟨⟨fun h => ?_, fun h1 h2 => ?_, fun h => ?_⟩, ?_, ?_, ?_, ?_⟩
  · rw [key, if_pos h]
  · rw [key, if_neg (not_le.mpr h2), if_pos h1]
  · rw [key, if_neg (not_le.mpr (lt_trans h (by norm_num))), if_neg (not_le.mpr h)]
  all_goals decide!

theorem parseFigmaNode_typography_bucket_witness :
    FigmaParser.parseFigmaNode (Example.textNode 20) = Except.ok Example.textTokens ∧
    Example.textTokens.typography =
      { headings := [], body := [FigmaParser.fontInfo "Inter" (Example.interStyle 20)],
        captions := [] } :=
  ⟨by decide!,
    (parseFigmaNode_typography_bucket
      { type := some "TEXT", style := some (Example.interStyle 20) } none
      (Example.interStyle 20) "Inter" 20 Example.textTokens (Or.inl rfl) rfl rfl
      (by decide) rfl (by decide!)).1.2.1 (by norm_num) (by norm_num)⟩

/-! ## Name and structure signals of the classifier -/

theorem Js.includes_toLowerCase_iff (s kw : String)
    (hkw : kw.data.map Char.toLower = kw.data) :
    Js.includes (Js.toLowerCase s) kw = true ↔ Spec.ContainsCI s kw := by
  unfold Js.includes Js.toLowerCase Spec.ContainsCI
  rw [decide_eq_true_iff, hkw]
  constructor
  · rintro ⟨a, b, hab⟩
    obtain ⟨l₁, post, hs, h₁, -⟩ := List.map_eq_append_iff.mp hab.symm
    obtain ⟨pre, mid, hl, -, hmid⟩ := List.map_eq_append_iff.mp h₁
    exact ⟨pre, mid, post, by rw [hs, hl], hmid⟩
  · rintro ⟨pre, mid, post, hs, hmid⟩
    refine ⟨pre.map Char.toLower, post.map Char.toLower, ?_⟩
    show _ = List.map Char.toLower s.data
    rw [hs, List.map_append, List.map_append, hmid]

theorem Js.not_includes_empty (kw : String) (hkw : kw.data ≠ []) :
    Js.includes "" kw = false := by
  unfold Js.includes
  rw [decide_eq_false_iff_not]
  rintro ⟨a, b, hab⟩
  have h0 : (a ++ kw.data ++ b).length = 0 := by rw [hab]; rfl
  rw [List.length_append, List.length_append] at h0
  have : kw.data.length = 0 := by omega
  exact hkw (List.length_eq_zero.mp this)

theorem ComponentDetector.nameIncludes_iff (n : Figma.Node) (kw : String)
    (hkw : kw.data.map Char.toLower = kw.data) :
    Js.truthy (ComponentDetector.nameIncludes n kw) = true ↔ Spec.NameContains n kw := by
  unfold ComponentDetector.nameIncludes Spec.NameContains
  rcases n.props.name with _ | nm
  · constructor
    · intro h
      cases h
    · rintro ⟨_, h, -⟩
      cases h
  · show Js.includes (Js.toLowerCase nm) kw = true ↔ _
    rw [Js.includes_toLowerCase_iff nm kw hkw]
    constructor
    · exact fun h => ⟨nm, rfl, h⟩
    · rintro ⟨nm', h, hc⟩
      cases h
      exact hc

theorem ComponentDetector.lowerName_includes_iff (n : Figma.Node) (kw : String)
    (hkw : kw.data.map Char.toLower = kw.data) (hne : kw.data ≠ []) :
    Js.includes (ComponentDetector.lowerName n) kw = true ↔ Spec.NameContains n kw := by
  unfold ComponentDetector.lowerName Spec.NameContains
  rcases n.props.name with _ | nm
  · show Js.includes "" kw = true ↔ _
    rw [Js.not_includes_empty kw hne]
    constructor
    · intro h
      cases h
    · rintro ⟨_, h, -⟩
      cases h
  · have e : Js.orStr (Option.map Js.toLowerCase (some nm)) "" = Js.toLowerCase nm := by
      show (if Js.toLowerCase nm = "" then "" else Js.toLowerCase nm) = _
      split
      · next h => exact h.symm
      · rfl
    rw [e, Js.includes_toLowerCase_iff nm kw hkw]
    constructor
    · exact fun h => ⟨nm, rfl, h⟩
    · rintro ⟨nm', h, hc⟩
      cases h
      exact hc

theorem ComponentDetector.hasText_iff (n : Figma.Node) :
    Js.truthy (n.children.map fun cs => cs.any ComponentDetector.isText) = true ↔
      Spec.HasTextChild n := by
  unfold Spec.HasTextChild
  rcases n.children with _ | kids
  · constructor
    · intro h
      cases h
    · rintro ⟨_, h, -⟩
      cases h
  · show kids.any ComponentDetector.isText = true ↔ _
    rw [List.any_eq_true]
    constructor
    · rintro ⟨c, hc, ht⟩
      exact ⟨kids, rfl, c, hc, of_decide_eq_true ht⟩
    · rintro ⟨_, h, c, hc, ht⟩
      cases h
      exact ⟨c, hc, decide_eq_true ht⟩

theorem ComponentDetector.isVisibleSolid_iff (f : Figma.Paint) :
    ComponentDetector.isVisibleSolid f = true ↔
      f.type = some "SOLID" ∧ f.visible ≠ some false := by
  unfold ComponentDetector.isVisibleSolid
  rw [Bool.and_eq_true, decide_eq_true_iff, decide_eq_true_iff]

theorem ComponentDetector.hasSolidFill_iff (n : Figma.Node) :
    Js.truthy (n.props.fills.map fun fs => fs.any ComponentDetector.isVisibleSolid) = true ↔
      Spec.HasVisibleSolidFill n := by
  unfold Spec.HasVisibleSolidFill
  rcases n.props.fills with _ | fills
  · constructor
    · intro h
      cases h
    · rintro ⟨_, h, -⟩
      cases h
  · show fills.any ComponentDetector.isVisibleSolid = true ↔ _
    rw [List.any_eq_true]
    constructor
    · rintro ⟨f, hf, ht⟩
      exact ⟨fills, rfl, f, hf, (ComponentDetector.isVisibleSolid_iff f).mp ht⟩
    · rintro ⟨_, h, f, hf, ht⟩
      cases h
      exact ⟨f, hf, (ComponentDetector.isVisibleSolid_iff f).mpr ht⟩

theorem ComponentDetector.hasVisibleFill_iff (n : Figma.Node) :
    Js.truthy (n.props.fills.map fun fs =>
      fs.any fun fill => decide (fill.visible ≠ some false)) = true ↔
      Spec.HasVisibleFill n := by
  unfold Spec.HasVisibleFill
  rcases n.props.fills with _ | fills
  · constructor
    · intro h
      cases h
    · rintro ⟨_, h, -⟩
      cases h
  · show (fills.any fun fill => decide (fill.visible ≠ some false)) = true ↔ _
    rw [List.any_eq_true]
    constructor
    · rintro ⟨f, hf, ht⟩
      exact ⟨fills, rfl, f, hf, of_decide_eq_true ht⟩
    · rintro ⟨_, h, f, hf, ht⟩
      cases h
      exact ⟨f, hf, decide_eq_true ht⟩

theorem ComponentDetector.hasRadius_iff (n : Figma.Node) :
    (n.props.cornerRadius.isSome = true ∨ n.props.rectangleCornerRadii.isSome = true) ↔
      Spec.HasCornerRadius n := by
  unfold Spec.HasCornerRadius
  rw [Option.isSome_iff_exists, Option.isSome_iff_exists]

theorem ComponentDetector.hasStroke_iff (n : Figma.Node) :
    (match n.props.strokes with
      | some ss => decide (ss.length > 0)
      | none => false) = true ↔ Spec.HasStroke n := by
  unfold Spec.HasStroke
  rcases n.props.strokes with _ | ss
  · constructor
    · intro h
      cases h
    · rintro ⟨_, h, -⟩
      cases h
  · show decide (ss.length > 0) = true ↔ _
    rw [decide_eq_true_iff]
    constructor
    · intro h
      exact ⟨ss, rfl, List.ne_nil_of_length_pos h⟩
    · rintro ⟨_, h, hne⟩
      cases h
      exact List.length_pos.mpr hne

theorem ComponentDetector.isButton_iff (n : Figma.Node) :
    ComponentDetector.isButton n = true ↔ Spec.IsButton n := by
  unfold ComponentDetector.isButton Spec.IsButton
  dsimp only
  simp only [Bool.or_eq_true, Bool.and_eq_true]
  rw [ComponentDetector.hasText_iff, ComponentDetector.hasSolidFill_iff,
    ComponentDetector.hasRadius_iff,
    ComponentDetector.nameIncludes_iff n "button" (by decide),
    ComponentDetector.nameIncludes_iff n "btn" (by decide),
    ComponentDetector.nameIncludes_iff n "cta" (by decide)]
  simp only [and_assoc, or_assoc]

theorem ComponentDetector.isCard_iff (n : Figma.Node) :
    ComponentDetector.isCard n = true ↔ Spec.IsCard n := by
  have hkids : (match n.children with
      | some cs => decide (cs.length ≥ 2)
      | none => false) = true ↔ ∃ kids, n.children = some kids ∧ 2 ≤ kids.length := by
    rcases n.children with _ | kids
    · constructor
      · intro h
        cases h
      · rintro ⟨_, h, -⟩
        cases h
    · show decide (kids.length ≥ 2) = true ↔ _
      rw [decide_eq_true_iff]
      constructor
      · exact fun h => ⟨kids, rfl, h⟩
      · rintro ⟨_, h, hl⟩
        cases h
        exact hl
  unfold ComponentDetector.isCard Spec.IsCard
  dsimp only
  simp only [Bool.or_eq_true, Bool.and_eq_true]
  rw [hkids, ComponentDetector.hasVisibleFill_iff, ComponentDetector.hasRadius_iff,
    decide_eq_true_iff, ComponentDetector.nameIncludes_iff n "card" (by decide)]
  simp only [and_assoc]

/-! ## Reading the lists of a returned catalog -/

theorem Js.mapE_ok_forall₂ {α β : Type} (f : α → Except Js.JsError β) :
    ∀ (l : List α) (rs : List β), Js.mapE f l = Except.ok rs →
      List.Forall₂ (fun a r => f a = Except.ok r) l rs := by
  intro l
  induction l with
  | nil =>
    intro rs h
    cases h
    exact List.Forall₂.nil
  | cons a l ih =>
    intro rs h
    rw [Js.mapE] at h
    rcases hfa : f a with e | b
    · rw [hfa] at h
      cases h
    · rw [hfa] at h
      rcases hm : Js.mapE f l with e | bs
      · rw [hm] at h
        cases h
      · rw [hm] at h
        cases h
        exact List.Forall₂.cons hfa (ih bs hm)

theorem Spec.classifyPreorder_ok (t : Figma.Node) (cat : ComponentDetector.Catalog)
    (h : Spec.classifyPreorder t = Except.ok cat) :
    Js.mapE ComponentDetector.analyzeButton
        ((Figma.Node.preorder t).filter ComponentDetector.isButton) =
      Except.ok cat.components.buttons ∧
    Js.mapE ComponentDetector.analyzeCard
        ((Figma.Node.preorder t).filter ComponentDetector.isCard) =
      Except.ok cat.components.cards ∧
    Js.mapE ComponentDetector.analyzeNavigation
        ((Figma.Node.preorder t).filter ComponentDetector.isNavigation) =
      Except.ok cat.components.navigation ∧
    Js.mapE ComponentDetector.analyzeFormElement
        ((Figma.Node.preorder t).filter ComponentDetector.isFormElement) =
      Except.ok cat.components.forms ∧
    Js.mapE ComponentDetector.analyzeIcon
        ((Figma.Node.preorder t).filter ComponentDetector.isIcon) =
      Except.ok cat.components.icons := by
  unfold Spec.classifyPreorder at h
  dsimp only at h
  generalize Js.mapE ComponentDetector.analyzeButton
    ((Figma.Node.preorder t).filter ComponentDetector.isButton) = b at h ⊢
  generalize Js.mapE ComponentDetector.analyzeCard
    ((Figma.Node.preorder t).filter ComponentDetector.isCard) = c at h ⊢
  generalize Js.mapE ComponentDetector.analyzeNavigation
    ((Figma.Node.preorder t).filter ComponentDetector.isNavigation) = v at h ⊢
  generalize Js.mapE ComponentDetector.analyzeFormElement
    ((Figma.Node.preorder t).filter ComponentDetector.isFormElement) = f at h ⊢
  generalize Js.mapE ComponentDetector.analyzeIcon
    ((Figma.Node.preorder t).filter ComponentDetector.isIcon) = i at h ⊢
  rcases b with e | b
  · cases h
  rcases c with e | c
  · cases h
  rcases v with e | v
  · cases h
  rcases f with e | f
  · cases h
  rcases i with e | i
  · cases h
  cases h
  exact ⟨rfl, rfl, rfl, rfl, rfl⟩

/-! ## Buttons and cards -/

/-- C8: the code's button predicate holds of a node exactly when (it has a direct TEXT
child, a visible SOLID fill and a corner radius given as `cornerRadius` or as
`rectangleCornerRadii`) or its name contains "button", "btn" or "cta" in any letter
case; the `buttons` list of a returned catalog is, in pre-order, one record per node
satisfying it; "CTA Primary" with no children, fills or radius is listed. -/
theorem detectComponents_buttons (t : Figma.Node) (cat : ComponentDetector.Catalog)
    (hret : ComponentDetector.detectComponents t = Except.ok cat) :
    (∀ n, ComponentDetector.isButton n = true ↔ Spec.IsButton n) ∧
    List.Forall₂ (fun n r => ComponentDetector.analyzeButton n = Except.ok r)
      ((Figma.Node.preorder t).filter ComponentDetector.isButton) cat.components.buttons ∧
    ComponentDetector.isButton Example.ctaNode = true ∧
    (ComponentDetector.detectComponents Example.ctaNode).map
      (fun c => c.components.buttons.map fun b => b.type) = Except.ok ["button"] := by
  rw [ComponentDetector.detectComponents_eq_spec] at hret
  exact ⟨ComponentDetector.isButton_iff,
    Js.mapE_ok_forall₂ _ _ _ (Spec.classifyPreorder_ok t cat hret).1, by decide, by decide⟩

/-- C9: the variant of a button record follows the first matching rule: the
lower-cased name contains "primary", then "secondary", then "outline", then "text" or
"link"; otherwise a visible SOLID fill without stroke gives primary, a stroke without
such a fill gives outline, neither gives text, both give "default"; "CTA Primary" gets
"primary". -/
theorem analyzeButton_variant (n : Figma.Node) (r : ComponentDetector.ButtonRecord)
    (h : ComponentDetector.analyzeButton n = Except.ok r) :
    Spec.ButtonVariantRule n r.variant ∧
    (ComponentDetector.analyzeButton Example.ctaNode).map (fun b => b.variant) =
      Except.ok "primary" := by
  have hv : r.variant = ComponentDetector.classifyButtonVariant n := by
    unfold ComponentDetector.analyzeButton at h
    dsimp only at h
    split at h
    · split at h
      · cases h
        rfl
      · cases h
    · cases h
      rfl
  refine ⟨?_, by decide⟩
  rw [hv]
  have hp := ComponentDetector.lowerName_includes_iff n "primary" (by decide) (by decide)
  have hs := ComponentDetector.lowerName_includes_iff n "secondary" (by decide) (by decide)
  have ho := ComponentDetector.lowerName_includes_iff n "outline" (by decide) (by decide)
  have ht := ComponentDetector.lowerName_includes_iff n "text" (by decide) (by decide)
  have hl := ComponentDetector.lowerName_includes_iff n "link" (by decide) (by decide)
  have hf := ComponentDetector.hasSolidFill_iff n
  have hk := ComponentDetector.hasStroke_iff n
  unfold ComponentDetector.classifyButtonVariant Spec.ButtonVariantRule
  dsimp only
  rw [← hp, ← hs, ← ho, ← ht, ← hl, ← hf, ← hk]
  generalize Js.includes (ComponentDetector.lowerName n) "primary" = bp
  generalize Js.includes (ComponentDetector.lowerName n) "secondary" = bs
  generalize Js.includes (ComponentDetector.lowerName n) "outline" = bo
  generalize Js.includes (ComponentDetector.lowerName n) "text" = bt
  generalize Js.includes (ComponentDetector.lowerName n) "link" = bl
  generalize Js.truthy
    (n.props.fills.map fun fs => fs.any ComponentDetector.isVisibleSolid) = bf
  generalize (match n.props.strokes with
    | some ss => decide (ss.length > 0)
    | none => false) = bk
  cases bp <;> cases bs <;> cases bo <;> cases bt <;> cases bl <;> cases bf <;> cases bk <;>
    simp

/-- C10: the code's card predicate holds of a node exactly when (it has at least two
children, a visible fill of any kind, a corner radius given as `cornerRadius` or as
`rectangleCornerRadii`, and `layoutMode` VERTICAL) or its name contains "card" in any
letter case; the `cards` list of a returned catalog is, in pre-order, one record per
node satisfying it. -/
theorem detectComponents_cards (t : Figma.Node) (cat : ComponentDetector.Catalog)
    (hret : ComponentDetector.detectComponents t = Except.ok cat) :
    (∀ n, ComponentDetector.isCard n = true ↔ Spec.IsCard n) ∧
    List.Forall₂ (fun n r => ComponentDetector.analyzeCard n = Except.ok r)
      ((Figma.Node.preorder t).filter ComponentDetector.isCard) cat.components.cards := by
  rw [ComponentDetector.detectComponents_eq_spec] at hret
  exact ⟨ComponentDetector.isCard_iff,
    Js.mapE_ok_forall₂ _ _ _ (Spec.classifyPreorder_ok t cat hret).2.1⟩

theorem detectComponents_buttons_witness :
    ComponentDetector.detectComponents Example.ctaNode = Except.ok Example.ctaCatalog ∧
    ((∀ n, ComponentDetector.isButton n = true ↔ Spec.IsButton n) ∧
    List.Forall₂ (fun n r => ComponentDetector.analyzeButton n = Except.ok r)
      ((Figma.Node.preorder Example.ctaNode).filter ComponentDetector.isButton)
      Example.ctaCatalog.components.buttons ∧
    ComponentDetector.isButton Example.ctaNode = true ∧
    (ComponentDetector.detectComponents Example.ctaNode).map
      (fun c => c.components.buttons.map fun b => b.type) = Except.ok ["button"]) :=
  ⟨by decide, detectComponents_buttons Example.ctaNode Example.ctaCatalog (by decide)⟩

theorem analyzeButton_variant_witness :
    ComponentDetector.analyzeButton Example.ctaNode = Except.ok Example.ctaButton ∧
    (Spec.ButtonVariantRule Example.ctaNode Example.ctaButton.variant ∧
    (ComponentDetector.analyzeButton Example.ctaNode).map (fun b => b.variant) =
      Except.ok "primary") :=
  ⟨by decide, analyzeButton_variant Example.ctaNode Example.ctaButton (by decide)⟩

theorem detectComponents_cards_witness :
    ComponentDetector.detectComponents Example.tileNode = Except.ok Example.tileCatalog ∧
    ((∀ n, ComponentDetector.isCard n = true ↔ Spec.IsCard n) ∧
    List.Forall₂ (fun n r => ComponentDetector.analyzeCard n = Except.ok r)
      ((Figma.Node.preorder Example.tileNode).filter ComponentDetector.isCard)
      Example.tileCatalog.components.cards) :=
  ⟨by decide, detectComponents_cards Example.tileNode Example.tileCatalog (by decide)⟩

/-! ## When the analyzers return -/

theorem Js.mapE_returns_iff {α β : Type} (f : α → Except Js.JsError β) (l : List α) :
    (∃ rs, Js.mapE f l = Except.ok rs) ↔ ∀ a ∈ l, ∃ b, f a = Except.ok b := by
  induction l with
  | nil => exact ⟨fun _ a ha => absurd ha (List.not_mem_nil a), fun _ => ⟨[], rfl⟩⟩
  | cons x xs ih =>
    rw [Js.mapE]
    constructor
    · rintro ⟨rs, h⟩ a ha
      rcases hfx : f x with e | b
      · rw [hfx] at h
        cases h
      · rw [hfx] at h
        rcases hm : Js.mapE f xs with e | bs
        · rw [hm] at h
          cases h
        · rcases List.mem_cons.mp ha with rfl | ha'
          · exact ⟨b, hfx⟩
          · exact ih.mp ⟨bs, hm⟩ a ha'
    · intro hall
      obtain ⟨b, hb⟩ := hall x (List.mem_cons_self _ _)
      obtain ⟨bs, hbs⟩ := ih.mpr fun a ha => hall a (List.mem_cons_of_mem _ ha)
      rw [hb, hbs]
      exact ⟨b :: bs, rfl⟩

theorem Js.foldlM_returns_iff {σ α : Type} (f : σ → α → Except Js.JsError σ)
    (good : α → Prop) (hstep : ∀ s a, (∃ s', f s a = Except.ok s') ↔ good a) :
    ∀ (l : List α) (s : σ), (∃ s', l.foldlM f s = Except.ok s') ↔ ∀ a ∈ l, good a := by
  intro l
  induction l with
  | nil => exact fun s => ⟨fun _ a ha => absurd ha (List.not_mem_nil a), fun _ => ⟨s, rfl⟩⟩
  | cons x xs ih =>
    intro s
    rw [List.foldlM_cons]
    constructor
    · rintro ⟨s', h⟩ a ha
      rcases hfx : f s x with e | s₁
      · rw [hfx] at h
        cases h
      · rw [hfx] at h
        rcases List.mem_cons.mp ha with rfl | ha'
        · exact (hstep s a).mp ⟨s₁, hfx⟩
        · exact (ih s₁).mp ⟨s', h⟩ a ha'
    · intro hall
      obtain ⟨s₁, hs₁⟩ := (hstep s x).mpr (hall x (List.mem_cons_self _ _))
      obtain ⟨s', hs'⟩ := (ih s₁).mpr fun a ha => hall a (List.mem_cons_of_mem _ ha)
      rw [hs₁]
      exact ⟨s', hs'⟩

theorem FigmaParser.stopToHex_returns_iff (stop : Figma.GradientStop) :
    (∃ b, FigmaParser.stopToHex stop = Except.ok b) ↔ stop.color ≠ none := by
  unfold FigmaParser.stopToHex
  rcases stop.color with _ | c
  · constructor
    · rintro ⟨b, h⟩
      cases h
    · intro h
      exact absurd rfl h
  · exact ⟨fun _ h => (by cases h), fun _ => ⟨_, rfl⟩⟩

theorem FigmaParser.visitFill_returns_iff (ds : FigmaParser.DesignSystem)
    (fill : Figma.Paint) :
    (∃ ds', FigmaParser.visitFill ds fill = Except.ok ds') ↔ ¬ Spec.FillRaises fill := by
  unfold FigmaParser.visitFill Spec.FillRaises
  by_cases hv : fill.visible ≠ some false
  · rw [if_pos hv]
    by_cases hs : fill.type = some "SOLID" ∧ fill.color.isSome = true
    · rw [if_pos hs]
      have hng : ¬ (fill.type = some "GRADIENT_LINEAR" ∨ fill.type = some "GRADIENT_RADIAL") := by
        rw [hs.1]
        decide
      constructor
      · rintro - ⟨-, hg, -⟩
        exact hng hg
      · intro _
        rcases fill.color with _ | c
        · exact ⟨_, rfl⟩
        · exact ⟨_, rfl⟩
    · rw [if_neg hs]
      by_cases hg : fill.type = some "GRADIENT_LINEAR" ∨ fill.type = some "GRADIENT_RADIAL"
      · rw [if_pos hg]
        rcases hst : fill.gradientStops with _ | stops
        · constructor
          · rintro - ⟨-, -, st, h, -⟩
            cases h
          · exact fun _ => ⟨_, rfl⟩
        · dsimp only
          have hm := Js.mapE_returns_iff FigmaParser.stopToHex stops
          constructor
          · rintro ⟨ds', h⟩ ⟨-, -, st, hst', s, hsmem, hsc⟩
            cases hst'
            rcases hmm : Js.mapE FigmaParser.stopToHex stops with e | cs
            · rw [hmm] at h
              cases h
            · obtain ⟨b, hb⟩ := hm.mp ⟨cs, hmm⟩ s hsmem
              exact (FigmaParser.stopToHex_returns_iff s).mp ⟨b, hb⟩ hsc
          · intro hno
            have hall : ∀ a ∈ stops, ∃ b, FigmaParser.stopToHex a = Except.ok b := by
              intro a ha
              apply (FigmaParser.stopToHex_returns_iff a).mpr
              intro hc
              exact hno ⟨hv, hg, stops, rfl, a, ha, hc⟩
            obtain ⟨cs, hcs⟩ := hm.mpr hall
            rw [hcs]
            exact ⟨_, rfl⟩
      · rw [if_neg hg]
        exact ⟨fun _ h => hg h.2.1, fun _ => ⟨_, rfl⟩⟩
  · rw [if_neg hv]
    exact ⟨fun _ h => hv h.1, fun _ => ⟨_, rfl⟩⟩

theorem FigmaParser.visit_returns_iff (node : Figma.NodeProps)
    (ds : FigmaParser.DesignSystem) :
    (∃ ds', FigmaParser.visit node ds = Except.ok ds') ↔
      ∀ fills, node.fills = some fills → ∀ f ∈ fills, ¬ Spec.FillRaises f := by
  have hfills : (∃ ds₁, FigmaParser.visitFills node ds = Except.ok ds₁) ↔
      ∀ fills, node.fills = some fills → ∀ f ∈ fills, ¬ Spec.FillRaises f := by
    unfold FigmaParser.visitFills
    rcases node.fills with _ | fills
    · exact ⟨fun _ fs h => (by cases h), fun _ => ⟨ds, rfl⟩⟩
    · dsimp only
      rw [Js.foldlM_returns_iff FigmaParser.visitFill (fun f => ¬ Spec.FillRaises f)
        FigmaParser.visitFill_returns_iff fills ds]
      constructor
      · intro h fs hfs
        cases hfs
        exact h
      · exact fun h => h fills rfl
  rw [← hfills]
  unfold FigmaParser.visit
  rcases FigmaParser.visitFills node ds with e | ds₁
  · constructor
    · rintro ⟨_, h⟩
      cases h
    · rintro ⟨_, h⟩
      cases h
  · exact ⟨fun _ => ⟨ds₁, rfl⟩, fun _ => ⟨_, rfl⟩⟩

/-- The token extractor returns exactly on the trees in which no fill makes it read a
colourless gradient stop; on every other tree it raises. -/
theorem FigmaParser.parseFigmaNode_returns_iff (t : Figma.Node) :
    (∃ ts, FigmaParser.parseFigmaNode t = Except.ok ts) ↔
      ∀ n ∈ Figma.Node.preorder t, ∀ fills, n.props.fills = some fills →
        ∀ f ∈ fills, ¬ Spec.FillRaises f := by
  have htr := Js.foldlM_returns_iff
    (fun (ds : FigmaParser.DesignSystem) (n : Figma.Node) => FigmaParser.visit n.props ds)
    (fun n => ∀ fills, n.props.fills = some fills → ∀ f ∈ fills, ¬ Spec.FillRaises f)
    (fun s a => FigmaParser.visit_returns_iff a.props s) (Figma.Node.preorder t) {}
  rw [← htr, ← FigmaParser.traverse_eq_foldlM]
  unfold FigmaParser.parseFigmaNode
  rcases FigmaParser.traverse t {} with e | ds
  · constructor
    · rintro ⟨_, h⟩
      cases h
    · rintro ⟨_, h⟩
      cases h
  · exact ⟨fun _ => ⟨ds, rfl⟩, fun _ => ⟨_, rfl⟩⟩

theorem ComponentDetector.extractBgColor_returns_iff (n : Figma.Node) :
    (∃ c, ComponentDetector.extractBgColor n = Except.ok c) ↔ ¬ Spec.BgFillColorless n := by
  unfold ComponentDetector.extractBgColor Spec.BgFillColorless
  rcases n.props.fills with _ | fills
  · exact ⟨fun _ ⟨_, _, h, _⟩ => (by cases h), fun _ => ⟨none, rfl⟩⟩
  · dsimp only [Option.bind]
    rcases hfind : fills.find? ComponentDetector.isVisibleSolid with _ | f
    · refine ⟨?_, fun _ => ⟨none, rfl⟩⟩
      rintro - ⟨fs, f, hfs, hf, -⟩
      cases hfs
      rw [hfind] at hf
      cases hf
    · dsimp only
      rcases hc : f.color with _ | c
      · constructor
        · rintro ⟨_, h⟩
          cases h
        · intro hno
          exact absurd ⟨fills, f, rfl, hfind, hc⟩ hno
      · refine ⟨?_, fun _ => ⟨_, rfl⟩⟩
        rintro - ⟨fs, f', hfs, hf, hc'⟩
        cases hfs
        rw [hfind] at hf
        cases hf
        rw [hc] at hc'
        cases hc'

theorem ComponentDetector.analyzeButton_returns_iff (n : Figma.Node) :
    (∃ r, ComponentDetector.analyzeButton n = Except.ok r) ↔ ¬ Spec.BgFillColorless n := by
  rw [← ComponentDetector.extractBgColor_returns_iff]
  unfold ComponentDetector.analyzeButton ComponentDetector.extractBgColor
  dsimp only
  rcases n.props.fills.bind fun fs => fs.find? ComponentDetector.isVisibleSolid with _ | f
  · exact ⟨fun _ => ⟨_, rfl⟩, fun _ => ⟨_, rfl⟩⟩
  · dsimp only
    rcases f.color with _ | c
    · constructor
      · rintro ⟨_, h⟩
        cases h
      · rintro ⟨_, h⟩
        cases h
    · exact ⟨fun _ => ⟨_, rfl⟩, fun _ => ⟨_, rfl⟩⟩

theorem ComponentDetector.analyzeCard_returns_iff (n : Figma.Node) :
    (∃ r, ComponentDetector.analyzeCard n = Except.ok r) ↔ ¬ Spec.BgFillColorless n := by
  rw [← ComponentDetector.extractBgColor_returns_iff]
  unfold ComponentDetector.analyzeCard
  rcases ComponentDetector.extractBgColor n with e | c
  · constructor
    · rintro ⟨_, h⟩
      cases h
    · rintro ⟨_, h⟩
      cases h
  · exact ⟨fun _ => ⟨_, rfl⟩, fun _ => ⟨_, rfl⟩⟩

theorem ComponentDetector.analyzeNavigation_returns_iff (n : Figma.Node) :
    (∃ r, ComponentDetector.analyzeNavigation n = Except.ok r) ↔
      ¬ Spec.BgFillColorless n := by
  rw [← ComponentDetector.extractBgColor_returns_iff]
  unfold ComponentDetector.analyzeNavigation
  rcases ComponentDetector.extractBgColor n with e | c
  · constructor
    · rintro ⟨_, h⟩
      cases h
    · rintro ⟨_, h⟩
      cases h
  · exact ⟨fun _ => ⟨_, rfl⟩, fun _ => ⟨_, rfl⟩⟩

theorem ComponentDetector.analyzeFormElement_returns_iff (n : Figma.Node) :
    (∃ r, ComponentDetector.analyzeFormElement n = Except.ok r) ↔
      ¬ Spec.BgFillColorless n := by
  rw [← ComponentDetector.extractBgColor_returns_iff]
  unfold ComponentDetector.analyzeFormElement
  rcases ComponentDetector.extractBgColor n with e | c
  · constructor
    · rintro ⟨_, h⟩
      cases h
    · rintro ⟨_, h⟩
      cases h
  · exact ⟨fun _ => ⟨_, rfl⟩, fun _ => ⟨_, rfl⟩⟩

theorem ComponentDetector.analyzeIcon_returns_iff (n : Figma.Node) :
    (∃ r, ComponentDetector.analyzeIcon n = Except.ok r) ↔ ¬ Spec.BgFillColorless n := by
  rw [← ComponentDetector.extractBgColor_returns_iff]
  unfold ComponentDetector.analyzeIcon
  rcases ComponentDetector.extractBgColor n with e | c
  · constructor
    · rintro ⟨_, h⟩
      cases h
    · rintro ⟨_, h⟩
      cases h
  · exact ⟨fun _ => ⟨_, rfl⟩, fun _ => ⟨_, rfl⟩⟩

/-- The component classifier returns exactly on the trees in which no matched node has
a colourless first visible SOLID fill; on every other tree it raises. -/
theorem ComponentDetector.detectComponents_returns_iff (t : Figma.Node) :
    (∃ cat, ComponentDetector.detectComponents t = Except.ok cat) ↔
      ∀ n ∈ Figma.Node.preorder t, Spec.IsMatched n → ¬ Spec.BgFillColorless n := by
  rw [ComponentDetector.detectComponents_eq_spec]
  have hb := Js.mapE_returns_iff ComponentDetector.analyzeButton
    ((Figma.Node.preorder t).filter ComponentDetector.isButton)
  have hc := Js.mapE_returns_iff ComponentDetector.analyzeCard
    ((Figma.Node.preorder t).filter ComponentDetector.isCard)
  have hv := Js.mapE_returns_iff ComponentDetector.analyzeNavigation
    ((Figma.Node.preorder t).filter ComponentDetector.isNavigation)
  have hf := Js.mapE_returns_iff ComponentDetector.analyzeFormElement
    ((Figma.Node.preorder t).filter ComponentDetector.isFormElement)
  have hi := Js.mapE_returns_iff ComponentDetector.analyzeIcon
    ((Figma.Node.preorder t).filter ComponentDetector.isIcon)
  constructor
  · rintro ⟨cat, h⟩ n hn hmatch
    obtain ⟨ob, oc, ov, of', oi⟩ := Spec.classifyPreorder_ok t cat h
    rcases hmatch with hm | hm | hm | hm | hm
    · exact (ComponentDetector.analyzeButton_returns_iff n).mp
        (hb.mp ⟨_, ob⟩ n (List.mem_filter.mpr ⟨hn, hm⟩))
    · exact (ComponentDetector.analyzeCard_returns_iff n).mp
        (hc.mp ⟨_, oc⟩ n (List.mem_filter.mpr ⟨hn, hm⟩))
    · exact (ComponentDetector.analyzeNavigation_returns_iff n).mp
        (hv.mp ⟨_, ov⟩ n (List.mem_filter.mpr ⟨hn, hm⟩))
    · exact (ComponentDetector.analyzeFormElement_returns_iff n).mp
        (hf.mp ⟨_, of'⟩ n (List.mem_filter.mpr ⟨hn, hm⟩))
    · exact (ComponentDetector.analyzeIcon_returns_iff n).mp
        (hi.mp ⟨_, oi⟩ n (List.mem_filter.mpr ⟨hn, hm⟩))
  · intro hall
    obtain ⟨bs, hbs⟩ := hb.mpr fun n hn =>
      (ComponentDetector.analyzeButton_returns_iff n).mpr
        (hall n (List.mem_filter.mp hn).1 (Or.inl (List.mem_filter.mp hn).2))
    obtain ⟨cs, hcs⟩ := hc.mpr fun n hn =>
      (ComponentDetector.analyzeCard_returns_iff n).mpr
        (hall n (List.mem_filter.mp hn).1 (Or.inr (Or.inl (List.mem_filter.mp hn).2)))
    obtain ⟨vs, hvs⟩ := hv.mpr fun n hn =>
      (ComponentDetector.analyzeNavigation_returns_iff n).mpr
        (hall n (List.mem_filter.mp hn).1 (Or.inr (Or.inr (Or.inl (List.mem_filter.mp hn).2))))
    obtain ⟨fs, hfs⟩ := hf.mpr fun n hn =>
      (ComponentDetector.analyzeFormElement_returns_iff n).mpr
        (hall n (List.mem_filter.mp hn).1
          (Or.inr (Or.inr (Or.inr (Or.inl (List.mem_filter.mp hn).2)))))
    obtain ⟨is, his⟩ := hi.mpr fun n hn =>
      (ComponentDetector.analyzeIcon_returns_iff n).mpr
        (hall n (List.mem_filter.mp hn).1
          (Or.inr (Or.inr (Or.inr (Or.inr (List.mem_filter.mp hn).2)))))
    unfold Spec.classifyPreorder
    dsimp only
    rw [hbs, hcs, hvs, hfs, his]
    exact ⟨_, rfl⟩

/-! ## Card flags -/

theorem ComponentDetector.isImageRectangle_iff (c : Figma.Node) :
    ComponentDetector.isImageRectangle c = true ↔ Spec.IsImageRectangle c := by
  unfold ComponentDetector.isImageRectangle Spec.IsImageRectangle
  rw [Bool.and_eq_true, decide_eq_true_iff]
  refine and_congr_right fun _ => ?_
  rcases c.props.fills with _ | fills
  · constructor
    · intro h
      cases h
    · rintro ⟨_, h, -⟩
      cases h
  · show (fills.any fun fill => decide (fill.type = some "IMAGE")) = true ↔ _
    rw [List.any_eq_true]
    constructor
    · rintro ⟨f, hf, ht⟩
      exact ⟨fills, rfl, f, hf, of_decide_eq_true ht⟩
    · rintro ⟨_, h, f, hf, ht⟩
      cases h
      exact ⟨f, hf, decide_eq_true ht⟩

theorem ComponentDetector.analyzeCard_reads_children (n : Figma.Node)
    (r : ComponentDetector.CardRecord) (h : ComponentDetector.analyzeCard n = Except.ok r) :
    r.hasImage = n.children.map (fun cs => cs.any ComponentDetector.isImageRectangle) ∧
    r.hasText = n.children.map (fun cs => cs.any ComponentDetector.isText) ∧
    r.hasButton = n.children.map (fun cs => cs.any ComponentDetector.isButton) := by
  unfold ComponentDetector.analyzeCard at h
  rcases hbg : ComponentDetector.extractBgColor n with e | c
  · rw [hbg] at h
    cases h
  · rw [hbg] at h
    cases h
    exact ⟨rfl, rfl, rfl⟩

/-- C11: for a node with a children list, the card record has `hasImage` true exactly
when some direct child is a RECTANGLE with an IMAGE fill, `hasText` true exactly when
some direct child has type TEXT, and `hasButton` true exactly when some direct child
satisfies the button predicate; a VERTICAL node with a visible fill, a corner radius
and two children (a TEXT and a RECTANGLE with an IMAGE fill) is a card with flags
true, true, false. -/
theorem analyzeCard_flags (n : Figma.Node) (kids : List Figma.Node)
    (r : ComponentDetector.CardRecord) (hk : n.children = some kids)
    (h : ComponentDetector.analyzeCard n = Except.ok r) :
    (∃ bi bt bb : Bool, r.hasImage = some bi ∧ r.hasText = some bt ∧ r.hasButton = some bb ∧
      (bi = true ↔ ∃ c ∈ kids, Spec.IsImageRectangle c) ∧
      (bt = true ↔ ∃ c ∈ kids, c.props.type = some "TEXT") ∧
      (bb = true ↔ ∃ c ∈ kids, Spec.IsButton c)) ∧
    ComponentDetector.isCard Example.galleryCard = true ∧
    (ComponentDetector.analyzeCard Example.galleryCard).map
      (fun c => (c.hasImage, c.hasText, c.hasButton)) =
      Except.ok (some true, some true, some false) := by
  obtain ⟨hi, ht, hb⟩ := ComponentDetector.analyzeCard_reads_children n r h
  rw [hk] at hi ht hb
  refine ⟨⟨_, _, _, hi, ht, hb, ?_, ?_, ?_⟩, by decide, by decide!⟩
  · rw [List.any_eq_true]
    exact exists_congr fun c => and_congr_right fun _ =>
      ComponentDetector.isImageRectangle_iff c
  · rw [List.any_eq_true]
    exact exists_congr fun c => and_congr_right fun _ => by
      unfold ComponentDetector.isText
      rw [decide_eq_true_iff]
  · rw [List.any_eq_true]
    exact exists_congr fun c => and_congr_right fun _ => ComponentDetector.isButton_iff c

theorem analyzeCard_flags_witness :
    ComponentDetector.analyzeCard Example.galleryCard = Except.ok Example.galleryRecord ∧
    ((∃ bi bt bb : Bool, Example.galleryRecord.hasImage = some bi ∧
      Example.galleryRecord.hasText = some bt ∧ Example.galleryRecord.hasButton = some bb ∧
      (bi = true ↔ ∃ c ∈ [Figma.Node.mk { type := some "TEXT", characters := some "Title" } none,
          Figma.Node.mk { type := some "RECTANGLE", fills := some [{ type := some "IMAGE" }] }
            none], Spec.IsImageRectangle c) ∧
      (bt = true ↔ ∃ c ∈ [Figma.Node.mk { type := some "TEXT", characters := some "Title" } none,
          Figma.Node.mk { type := some "RECTANGLE", fills := some [{ type := some "IMAGE" }] }
            none], c.props.type = some "TEXT") ∧
      (bb = true ↔ ∃ c ∈ [Figma.Node.mk { type := some "TEXT", characters := some "Title" } none,
          Figma.Node.mk { type := some "RECTANGLE", fills := some [{ type := some "IMAGE" }] }
            none], Spec.IsButton c)) ∧
    ComponentDetector.isCard Example.galleryCard = true ∧
    (ComponentDetector.analyzeCard Example.galleryCard).map
      (fun c => (c.hasImage, c.hasText, c.hasButton)) =
      Except.ok (some true, some true, some false)) :=
  ⟨by decide!, analyzeCard_flags Example.galleryCard _ Example.galleryRecord rfl (by decide!)⟩

/-! ## Navigation -/

theorem Spec.atLeast_iff_filter (k : Nat) (p : Figma.Node → Bool) (P : Figma.Node → Prop)
    (hp : ∀ c, p c = true ↔ P c) (l : List Figma.Node) :
    Spec.AtLeast k P l ↔ k ≤ (l.filter p).length := by
  unfold Spec.AtLeast
  constructor
  · rintro ⟨sub, hsub, hk, hall⟩
    have hself : sub.filter p = sub :=
      List.filter_eq_self.mpr fun c hc => (hp c).mpr (hall c hc)
    have hle := (hsub.filter p).length_le
    rw [hself] at hle
    exact le_trans hk hle
  · intro hk
    exact ⟨l.filter p, List.filter_sublist l, hk,
      fun c hc => (hp c).mp (List.mem_filter.mp hc).2⟩

theorem ComponentDetector.isTextOrHasTextChild_iff (c : Figma.Node) :
    ComponentDetector.isTextOrHasTextChild c = true ↔
      (c.props.type = some "TEXT" ∨ Spec.HasTextChild c) := by
  unfold ComponentDetector.isTextOrHasTextChild
  rw [Bool.or_eq_true, ComponentDetector.hasText_iff]
  unfold ComponentDetector.isText
  rw [decide_eq_true_iff]

theorem ComponentDetector.isNavigation_iff (n : Figma.Node) :
    ComponentDetector.isNavigation n = true ↔ Spec.IsNavigation n := by
  have hstruct : ((match n.children with
        | some cs => decide (cs.length ≥ 3)
        | none => false) = true ∧
      (match n.children with
        | some cs => decide ((cs.filter ComponentDetector.isTextOrHasTextChild).length ≥ 3)
        | none => false) = true) ↔
      ∃ kids, n.children = some kids ∧ 3 ≤ kids.length ∧
        Spec.AtLeast 3 (fun c => c.props.type = some "TEXT" ∨ Spec.HasTextChild c) kids := by
    rcases n.children with _ | kids
    · constructor
      · rintro ⟨h, -⟩
        cases h
      · rintro ⟨_, h, -⟩
        cases h
    · show (decide (kids.length ≥ 3) = true ∧
        decide ((kids.filter ComponentDetector.isTextOrHasTextChild).length ≥ 3) = true) ↔ _
      rw [decide_eq_true_iff, decide_eq_true_iff]
      constructor
      · rintro ⟨h1, h2⟩
        exact ⟨kids, rfl, h1, (Spec.atLeast_iff_filter 3 _ _
          ComponentDetector.isTextOrHasTextChild_iff kids).mpr h2⟩
      · rintro ⟨_, h, h1, h2⟩
        cases h
        exact ⟨h1, (Spec.atLeast_iff_filter 3 _ _
          ComponentDetector.isTextOrHasTextChild_iff _).mp h2⟩
  unfold ComponentDetector.isNavigation Spec.IsNavigation
  dsimp only
  simp only [Bool.or_eq_true, Bool.and_eq_true]
  rw [and_assoc, hstruct, decide_eq_true_iff,
    ComponentDetector.nameIncludes_iff n "nav" (by decide),
    ComponentDetector.nameIncludes_iff n "header" (by decide),
    ComponentDetector.nameIncludes_iff n "menu" (by decide)]
  simp only [or_assoc]

/-- C12, as stated, fails: a HORIZONTAL frame whose three children each hold a TEXT two
levels down satisfies the predicate worded with "a TEXT descendant at any depth", yet
the code's navigation predicate rejects it and its catalog lists no navigation. -/
theorem isNavigation_not_any_depth :
    Spec.IsNavigationAnyDepth Example.deepBar ∧
    ComponentDetector.isNavigation Example.deepBar = false ∧
    (ComponentDetector.detectComponents Example.deepBar).map
      (fun c => c.components.navigation) = Except.ok [] := by
  refine ⟨Or.inl ⟨rfl, [Example.wrappedText, Example.wrappedText, Example.wrappedText], rfl,
    by decide, ⟨_, List.Sublist.refl _, by decide, ?_⟩⟩, by decide, by decide⟩
  intro c hc
  have hc' : c = Example.wrappedText := by
    simp only [List.mem_cons, List.mem_singleton, List.not_mem_nil, or_false, or_self] at hc
    exact hc
  rw [hc']
  exact Or.inr (by decide)

/-- C12, amended: the code's navigation predicate holds of a node exactly when
(`layoutMode` is HORIZONTAL, it has at least 3 children, and at least 3 of its
children are TEXT nodes or have a direct child of type TEXT) or its name contains
"nav", "header" or "menu" in any letter case; the `navigation` list of a returned
catalog is, in pre-order, one record per node satisfying it. -/
theorem detectComponents_navigation (t : Figma.Node) (cat : ComponentDetector.Catalog)
    (hret : ComponentDetector.detectComponents t = Except.ok cat) :
    (∀ n, ComponentDetector.isNavigation n = true ↔ Spec.IsNavigation n) ∧
    List.Forall₂ (fun n r => ComponentDetector.analyzeNavigation n = Except.ok r)
      ((Figma.Node.preorder t).filter ComponentDetector.isNavigation)
      cat.components.navigation := by
  rw [ComponentDetector.detectComponents_eq_spec] at hret
  exact ⟨ComponentDetector.isNavigation_iff,
    Js.mapE_ok_forall₂ _ _ _ (Spec.classifyPreorder_ok t cat hret).2.2.1⟩

theorem detectComponents_navigation_witness :
    ComponentDetector.detectComponents Example.linkBar = Except.ok Example.linkBarCatalog ∧
    ((∀ n, ComponentDetector.isNavigation n = true ↔ Spec.IsNavigation n) ∧
    List.Forall₂ (fun n r => ComponentDetector.analyzeNavigation n = Except.ok r)
      ((Figma.Node.preorder Example.linkBar).filter ComponentDetector.isNavigation)
      Example.linkBarCatalog.components.navigation) :=
  ⟨by decide, detectComponents_navigation Example.linkBar Example.linkBarCatalog (by decide)⟩

/-! ## Icons -/

theorem ComponentDetector.isIcon_of_width (n : Figma.Node) (b : Figma.BoundingBox) (w : ℚ)
    (hb : n.props.absoluteBoundingBox = some b) (hw : b.width = some w)
    (hname : ¬ Spec.NameContains n "icon") :
    ComponentDetector.isIcon n = true ↔ Spec.IsVectorType n ∧ w ≤ 48 := by
  have hsize : Js.orNum (n.props.absoluteBoundingBox.bind fun b => b.width) 0 = w := by
    rw [hb]
    show Js.orNum b.width 0 = w
    rw [hw]
    show (if w = 0 then 0 else w) = w
    split
    · next h => exact h.symm
    · rfl
  have hn : Js.truthy (ComponentDetector.nameIncludes n "icon") = false := by
    rw [← Bool.not_eq_true, ComponentDetector.nameIncludes_iff n "icon" (by decide)]
    exact hname
  unfold ComponentDetector.isIcon Spec.IsVectorType
  dsimp only
  rw [hsize, hn, Bool.or_false, Bool.and_eq_true, Bool.or_eq_true, decide_eq_true_iff,
    decide_eq_true_iff, decide_eq_true_iff]
  exact and_comm

theorem ComponentDetector.isIcon_of_name (n : Figma.Node) (hname : Spec.NameContains n "icon") :
    ComponentDetector.isIcon n = true := by
  unfold ComponentDetector.isIcon
  dsimp only
  rw [(ComponentDetector.nameIncludes_iff n "icon" (by decide)).mpr hname, Bool.or_true]

/-- C13: a node with a bounding box of width `w` whose name does not contain "icon"
satisfies the code's icon predicate exactly when its type is VECTOR or
BOOLEAN_OPERATION and `w ≤ 48`; a node whose name contains "icon" always satisfies it;
the `icons` list of a returned catalog is, in pre-order, one record per node
satisfying the predicate; a VECTOR of width 48 is an icon, one of width 49 is not. -/
theorem detectComponents_icons (t : Figma.Node) (cat : ComponentDetector.Catalog)
    (hret : ComponentDetector.detectComponents t = Except.ok cat) :
    (∀ (n : Figma.Node) (b : Figma.BoundingBox) (w : ℚ),
      n.props.absoluteBoundingBox = some b → b.width = some w →
      ¬ Spec.NameContains n "icon" →
      (ComponentDetector.isIcon n = true ↔ Spec.IsVectorType n ∧ w ≤ 48)) ∧
    (∀ n, Spec.NameContains n "icon" → ComponentDetector.isIcon n = true) ∧
    List.Forall₂ (fun n r => ComponentDetector.analyzeIcon n = Except.ok r)
      ((Figma.Node.preorder t).filter ComponentDetector.isIcon) cat.components.icons ∧
    ComponentDetector.isIcon (Example.vectorNode 48) = true ∧
    ComponentDetector.isIcon (Example.vectorNode 49) = false := by
  rw [ComponentDetector.detectComponents_eq_spec] at hret
  exact ⟨ComponentDetector.isIcon_of_width, ComponentDetector.isIcon_of_name,
    Js.mapE_ok_forall₂ _ _ _ (Spec.classifyPreorder_ok t cat hret).2.2.2.2, by decide,
    by decide⟩

theorem detectComponents_icons_witness :
    ComponentDetector.detectComponents (Example.vectorNode 48) =
      Except.ok Example.vectorCatalog ∧
    ((∀ (n : Figma.Node) (b : Figma.BoundingBox) (w : ℚ),
      n.props.absoluteBoundingBox = some b → b.width = some w →
      ¬ Spec.NameContains n "icon" →
      (ComponentDetector.isIcon n = true ↔ Spec.IsVectorType n ∧ w ≤ 48)) ∧
    (∀ n, Spec.NameContains n "icon" → ComponentDetector.isIcon n = true) ∧
    List.Forall₂ (fun n r => ComponentDetector.analyzeIcon n = Except.ok r)
      ((Figma.Node.preorder (Example.vectorNode 48)).filter ComponentDetector.isIcon)
      Example.vectorCatalog.components.icons ∧
    ComponentDetector.isIcon (Example.vectorNode 48) = true ∧
    ComponentDetector.isIcon (Example.vectorNode 49) = false) :=
  ⟨by decide,
    detectComponents_icons (Example.vectorNode 48) Example.vectorCatalog (by decide)⟩

/-! ## Form elements -/

theorem ComponentDetector.isFormElement_iff (n : Figma.Node) :
    ComponentDetector.isFormElement n = true ↔ Spec.IsFormElement n := by
  unfold ComponentDetector.isFormElement Spec.IsFormElement
  dsimp only
  simp only [Bool.or_eq_true]
  rw [ComponentDetector.lowerName_includes_iff n "input" (by decide) (by decide),
    ComponentDetector.lowerName_includes_iff n "form" (by decide) (by decide),
    ComponentDetector.lowerName_includes_iff n "field" (by decide) (by decide),
    ComponentDetector.lowerName_includes_iff n "textarea" (by decide) (by decide),
    ComponentDetector.lowerName_includes_iff n "select" (by decide) (by decide)]
  simp only [or_assoc]

/-- C14: the `elementType` of a form record is one of input, textarea, select,
checkbox, radio; of the keywords textarea, select, checkbox, radio in the lower-cased
name the last one wins (radio over checkbox over select over textarea), and the value
is "input" exactly when the name contains none of the four; the code's form predicate
is the containment of "input", "form", "field", "textarea" or "select". -/
theorem analyzeFormElement_elementType (n : Figma.Node) (r : ComponentDetector.FormRecord)
    (h : ComponentDetector.analyzeFormElement n = Except.ok r) :
    Spec.FormElementTypeRule n r.elementType ∧
    (∀ m, ComponentDetector.isFormElement m = true ↔ Spec.IsFormElement m) := by
  refine ⟨?_, ComponentDetector.isFormElement_iff⟩
  have hv : r.elementType =
      (if Js.includes (ComponentDetector.lowerName n) "radio" = true then "radio"
       else if Js.includes (ComponentDetector.lowerName n) "checkbox" = true then "checkbox"
       else if Js.includes (ComponentDetector.lowerName n) "select" = true then "select"
       else if Js.includes (ComponentDetector.lowerName n) "textarea" = true then "textarea"
       else "input") := by
    unfold ComponentDetector.analyzeFormElement at h
    rcases hbg : ComponentDetector.extractBgColor n with e | c
    · rw [hbg] at h
      cases h
    · rw [hbg] at h
      cases h
      cases Js.includes (ComponentDetector.lowerName n) "radio" <;>
        cases Js.includes (ComponentDetector.lowerName n) "checkbox" <;>
        cases Js.includes (ComponentDetector.lowerName n) "select" <;>
        cases Js.includes (ComponentDetector.lowerName n) "textarea" <;> rfl
  rw [hv]
  have hr := ComponentDetector.lowerName_includes_iff n "radio" (by decide) (by decide)
  have hc := ComponentDetector.lowerName_includes_iff n "checkbox" (by decide) (by decide)
  have hs := ComponentDetector.lowerName_includes_iff n "select" (by decide) (by decide)
  have ht := ComponentDetector.lowerName_includes_iff n "textarea" (by decide) (by decide)
  unfold Spec.FormElementTypeRule
  rw [← hr, ← hc, ← hs, ← ht]
  generalize Js.includes (ComponentDetector.lowerName n) "radio" = br
  generalize Js.includes (ComponentDetector.lowerName n) "checkbox" = bc
  generalize Js.includes (ComponentDetector.lowerName n) "select" = bs
  generalize Js.includes (ComponentDetector.lowerName n) "textarea" = bt
  cases br <;> cases bc <;> cases bs <;> cases bt <;> simp

theorem analyzeFormElement_elementType_witness :
    ComponentDetector.analyzeFormElement Example.radioNode = Except.ok Example.radioRecord ∧
    (Spec.FormElementTypeRule Example.radioNode Example.radioRecord.elementType ∧
    (∀ m, ComponentDetector.isFormElement m = true ↔ Spec.IsFormElement m)) :=
  ⟨by decide,
    analyzeFormElement_elementType Example.radioNode Example.radioRecord (by decide)⟩

/-! ## The annotation fields are not read -/

theorem Spec.eraseAnnotationsList_eq_map (l : List Figma.Node) :
    Spec.eraseAnnotationsList l = l.map Spec.eraseAnnotations := by
  induction l with
  | nil => rfl
  | cons c cs ih => rw [Spec.eraseAnnotationsList, ih, List.map_cons]

theorem Spec.eraseAnnotations_props (n : Figma.Node) :
    (Spec.eraseAnnotations n).props = Spec.eraseAnnotationProps n.props := by
  cases n
  rfl

theorem Spec.eraseAnnotations_children (n : Figma.Node) :
    (Spec.eraseAnnotations n).children =
      n.children.map fun cs => cs.map Spec.eraseAnnotations := by
  rcases n with ⟨p, _ | kids⟩
  · rfl
  · show some (Spec.eraseAnnotationsList kids) = _
    rw [Spec.eraseAnnotationsList_eq_map]
    rfl

theorem Spec.preorder_eraseAnnotations (t : Figma.Node) :
    Figma.Node.preorder (Spec.eraseAnnotations t) =
      (Figma.Node.preorder t).map Spec.eraseAnnotations := by
  induction t using Figma.Node.induct with
  | step props kids ih =>
    rw [Spec.eraseAnnotations, Figma.Node.preorder, Figma.Node.preorder, List.map_cons]
    congr 1
    cases kids with
    | none => rfl
    | some l =>
      rw [Spec.eraseAnnotationsKids, Figma.Node.preorderKids, Figma.Node.preorderKids]
      have hl := ih l rfl
      clear ih
      induction l with
      | nil => rfl
      | cons c cs ihl =>
        rw [Spec.eraseAnnotationsList, Figma.Node.preorderList, Figma.Node.preorderList,
          List.map_append, hl c (List.mem_cons_self _ _),
          ihl fun d hd => hl d (List.mem_cons_of_mem _ hd)]

theorem FigmaParser.visit_eraseAnnotationProps (p : Figma.NodeProps)
    (ds : FigmaParser.DesignSystem) :
    FigmaParser.visit (Spec.eraseAnnotationProps p) ds = FigmaParser.visit p ds := rfl

theorem Js.foldlM_map {σ α β : Type} (g : α → β) (f : σ → β → Except Js.JsError σ) :
    ∀ (l : List α) (s : σ), (l.map g).foldlM f s = l.foldlM (fun s a => f s (g a)) s := by
  intro l
  induction l with
  | nil => exact fun s => rfl
  | cons a l ih =>
    intro s
    rw [List.map_cons, List.foldlM_cons, List.foldlM_cons]
    congr 1
    funext s₁
    exact ih s₁

theorem FigmaParser.parseFigmaNode_eraseAnnotations (t : Figma.Node) :
    FigmaParser.parseFigmaNode (Spec.eraseAnnotations t) = FigmaParser.parseFigmaNode t := by
  have htr : ∀ ds, FigmaParser.traverse (Spec.eraseAnnotations t) ds =
      FigmaParser.traverse t ds := by
    intro ds
    rw [FigmaParser.traverse_eq_foldlM, FigmaParser.traverse_eq_foldlM,
      Spec.preorder_eraseAnnotations, Js.foldlM_map]
    congr 1
    funext s n
    rw [Spec.eraseAnnotations_props]
    rfl
  unfold FigmaParser.parseFigmaNode
  rw [htr]

theorem ComponentDetector.isText_erase (c : Figma.Node) :
    ComponentDetector.isText (Spec.eraseAnnotations c) = ComponentDetector.isText c := by
  cases c
  rfl

theorem ComponentDetector.nameIncludes_erase (n : Figma.Node) (kw : String) :
    ComponentDetector.nameIncludes (Spec.eraseAnnotations n) kw =
      ComponentDetector.nameIncludes n kw := by
  cases n
  rfl

theorem ComponentDetector.lowerName_erase (n : Figma.Node) :
    ComponentDetector.lowerName (Spec.eraseAnnotations n) = ComponentDetector.lowerName n := by
  cases n
  rfl

theorem ComponentDetector.extractBgColor_erase (n : Figma.Node) :
    ComponentDetector.extractBgColor (Spec.eraseAnnotations n) =
      ComponentDetector.extractBgColor n := by
  cases n
  rfl

theorem ComponentDetector.extractPadding_erase (n : Figma.Node) :
    ComponentDetector.extractPadding (Spec.eraseAnnotations n) =
      ComponentDetector.extractPadding n := by
  cases n
  rfl

theorem ComponentDetector.classifyButtonVariant_erase (n : Figma.Node) :
    ComponentDetector.classifyButtonVariant (Spec.eraseAnnotations n) =
      ComponentDetector.classifyButtonVariant n := by
  cases n
  rfl

theorem ComponentDetector.classifyCardVariant_erase (n : Figma.Node) :
    ComponentDetector.classifyCardVariant (Spec.eraseAnnotations n) =
      ComponentDetector.classifyCardVariant n := by
  cases n
  rfl

theorem ComponentDetector.isImageRectangle_erase (n : Figma.Node) :
    ComponentDetector.isImageRectangle (Spec.eraseAnnotations n) =
      ComponentDetector.isImageRectangle n := by
  cases n
  rfl

theorem ComponentDetector.isFormElement_erase (n : Figma.Node) :
    ComponentDetector.isFormElement (Spec.eraseAnnotations n) =
      ComponentDetector.isFormElement n := by
  cases n
  rfl

theorem ComponentDetector.isIcon_erase (n : Figma.Node) :
    ComponentDetector.isIcon (Spec.eraseAnnotations n) = ComponentDetector.isIcon n := by
  cases n
  rfl

theorem ComponentDetector.analyzeFormElement_erase (n : Figma.Node) :
    ComponentDetector.analyzeFormElement (Spec.eraseAnnotations n) =
      ComponentDetector.analyzeFormElement n := by
  cases n
  rfl

theorem ComponentDetector.analyzeIcon_erase (n : Figma.Node) :
    ComponentDetector.analyzeIcon (Spec.eraseAnnotations n) =
      ComponentDetector.analyzeIcon n := by
  cases n
  rfl

theorem Spec.any_map_erase (p : Figma.Node → Bool)
    (hp : ∀ c, p (Spec.eraseAnnotations c) = p c) (l : List Figma.Node) :
    (l.map Spec.eraseAnnotations).any p = l.any p := by
  induction l with
  | nil => rfl
  | cons c cs ih => rw [List.map_cons, List.any_cons, List.any_cons, hp c, ih]

theorem Spec.filter_map_erase (p : Figma.Node → Bool)
    (hp : ∀ c, p (Spec.eraseAnnotations c) = p c) (l : List Figma.Node) :
    (l.map Spec.eraseAnnotations).filter p = (l.filter p).map Spec.eraseAnnotations := by
  induction l with
  | nil => rfl
  | cons c cs ih =>
    rw [List.map_cons, List.filter_cons, List.filter_cons, hp c, ih]
    split <;> rfl

theorem Spec.find_map_erase (p : Figma.Node → Bool)
    (hp : ∀ c, p (Spec.eraseAnnotations c) = p c) (l : List Figma.Node) :
    (l.map Spec.eraseAnnotations).find? p = (l.find? p).map Spec.eraseAnnotations := by
  induction l with
  | nil => rfl
  | cons c cs ih =>
    rw [List.map_cons, List.find?_cons, List.find?_cons, hp c, ih]
    split <;> rfl

theorem ComponentDetector.isButton_erase (n : Figma.Node) :
    ComponentDetector.isButton (Spec.eraseAnnotations n) = ComponentDetector.isButton n := by
  rcases n with ⟨p, _ | kids⟩
  · rfl
  · show ComponentDetector.isButton
      (Figma.Node.mk (Spec.eraseAnnotationProps p) (some (Spec.eraseAnnotationsList kids))) = _
    rw [Spec.eraseAnnotationsList_eq_map]
    unfold ComponentDetector.isButton
    show (Js.truthy (some ((kids.map Spec.eraseAnnotations).any ComponentDetector.isText)) && _
      && _ || _) = _
    rw [Spec.any_map_erase _ ComponentDetector.isText_erase]
    rfl

theorem ComponentDetector.isCard_erase (n : Figma.Node) :
    ComponentDetector.isCard (Spec.eraseAnnotations n) = ComponentDetector.isCard n := by
  rcases n with ⟨p, _ | kids⟩
  · rfl
  · show ComponentDetector.isCard
      (Figma.Node.mk (Spec.eraseAnnotationProps p) (some (Spec.eraseAnnotationsList kids))) = _
    rw [Spec.eraseAnnotationsList_eq_map]
    unfold ComponentDetector.isCard
    show (decide ((kids.map Spec.eraseAnnotations).length ≥ 2) && _ && _ && _ || _) = _
    rw [List.length_map]
    rfl

theorem ComponentDetector.isTextOrHasTextChild_erase (n : Figma.Node) :
    ComponentDetector.isTextOrHasTextChild (Spec.eraseAnnotations n) =
      ComponentDetector.isTextOrHasTextChild n := by
  rcases n with ⟨p, _ | kids⟩
  · rfl
  · show ComponentDetector.isTextOrHasTextChild
      (Figma.Node.mk (Spec.eraseAnnotationProps p) (some (Spec.eraseAnnotationsList kids))) = _
    rw [Spec.eraseAnnotationsList_eq_map]
    unfold ComponentDetector.isTextOrHasTextChild
    show (_ || Js.truthy (some ((kids.map Spec.eraseAnnotations).any ComponentDetector.isText)))
      = _
    rw [Spec.any_map_erase _ ComponentDetector.isText_erase]
    rfl

theorem ComponentDetector.isNavigation_erase (n : Figma.Node) :
    ComponentDetector.isNavigation (Spec.eraseAnnotations n) =
      ComponentDetector.isNavigation n := by
  rcases n with ⟨p, _ | kids⟩
  · rfl
  · show ComponentDetector.isNavigation
      (Figma.Node.mk (Spec.eraseAnnotationProps p) (some (Spec.eraseAnnotationsList kids))) = _
    rw [Spec.eraseAnnotationsList_eq_map]
    unfold ComponentDetector.isNavigation
    show (_ && decide ((kids.map Spec.eraseAnnotations).length ≥ 3) &&
      decide (((kids.map Spec.eraseAnnotations).filter
        ComponentDetector.isTextOrHasTextChild).length ≥ 3) || _) = _
    rw [Spec.filter_map_erase _ ComponentDetector.isTextOrHasTextChild_erase, List.length_map,
      List.length_map]
    rfl

theorem ComponentDetector.analyzeNavigation_erase (n : Figma.Node) :
    ComponentDetector.analyzeNavigation (Spec.eraseAnnotations n) =
      ComponentDetector.analyzeNavigation n := by
  rcases n with ⟨p, _ | kids⟩
  · rfl
  · show ComponentDetector.analyzeNavigation
      (Figma.Node.mk (Spec.eraseAnnotationProps p) (some (Spec.eraseAnnotationsList kids))) = _
    rw [Spec.eraseAnnotationsList_eq_map]
    have hlen : ((kids.map Spec.eraseAnnotations).filter
        ComponentDetector.isTextOrHasTextChild).length =
        (kids.filter ComponentDetector.isTextOrHasTextChild).length := by
      rw [Spec.filter_map_erase _ ComponentDetector.isTextOrHasTextChild_erase, List.length_map]
    unfold ComponentDetector.analyzeNavigation
    dsimp only [Figma.Node.children]
    rw [hlen]
    rfl

theorem ComponentDetector.analyzeCard_erase (n : Figma.Node) :
    ComponentDetector.analyzeCard (Spec.eraseAnnotations n) =
      ComponentDetector.analyzeCard n := by
  rcases n with ⟨p, _ | kids⟩
  · rfl
  · show ComponentDetector.analyzeCard
      (Figma.Node.mk (Spec.eraseAnnotationProps p) (some (Spec.eraseAnnotationsList kids))) = _
    rw [Spec.eraseAnnotationsList_eq_map]
    unfold ComponentDetector.analyzeCard
    dsimp only [Figma.Node.children, Option.map]
    rw [Spec.any_map_erase _ ComponentDetector.isText_erase,
      Spec.any_map_erase _ ComponentDetector.isImageRectangle_erase,
      Spec.any_map_erase _ ComponentDetector.isButton_erase]
    rfl

theorem ComponentDetector.analyzeButton_erase (n : Figma.Node) :
    ComponentDetector.analyzeButton (Spec.eraseAnnotations n) =
      ComponentDetector.analyzeButton n := by
  rcases n with ⟨p, _ | kids⟩
  · rfl
  · show ComponentDetector.analyzeButton
      (Figma.Node.mk (Spec.eraseAnnotationProps p) (some (Spec.eraseAnnotationsList kids))) = _
    rw [Spec.eraseAnnotationsList_eq_map]
    unfold ComponentDetector.analyzeButton
    dsimp only [Figma.Node.children, Option.bind]
    rw [Spec.find_map_erase _ ComponentDetector.isText_erase]
    rcases kids.find? ComponentDetector.isText with _ | tn
    · rfl
    · cases tn
      rfl

theorem Spec.mapE_map_erase {β : Type} (analyze : Figma.Node → Except Js.JsError β)
    (ha : ∀ c, analyze (Spec.eraseAnnotations c) = analyze c) (l : List Figma.Node) :
    Js.mapE analyze (l.map Spec.eraseAnnotations) = Js.mapE analyze l := by
  induction l with
  | nil => rfl
  | cons c cs ih => rw [List.map_cons, Js.mapE, Js.mapE, ha c, ih]

theorem Spec.mapE_filter_erase {β : Type} (pred : Figma.Node → Bool)
    (analyze : Figma.Node → Except Js.JsError β)
    (hp : ∀ c, pred (Spec.eraseAnnotations c) = pred c)
    (ha : ∀ c, analyze (Spec.eraseAnnotations c) = analyze c) (l : List Figma.Node) :
    Js.mapE analyze ((l.map Spec.eraseAnnotations).filter pred) =
      Js.mapE analyze (l.filter pred) := by
  rw [Spec.filter_map_erase pred hp, Spec.mapE_map_erase analyze ha]

theorem ComponentDetector.detectComponents_eraseAnnotations (t : Figma.Node) :
    ComponentDetector.detectComponents (Spec.eraseAnnotations t) =
      ComponentDetector.detectComponents t := by
  rw [ComponentDetector.detectComponents_eq_spec, ComponentDetector.detectComponents_eq_spec]
  unfold Spec.classifyPreorder
  dsimp only
  rw [Spec.preorder_eraseAnnotations,
    Spec.mapE_filter_erase _ _ ComponentDetector.isButton_erase
      ComponentDetector.analyzeButton_erase,
    Spec.mapE_filter_erase _ _ ComponentDetector.isCard_erase
      ComponentDetector.analyzeCard_erase,
    Spec.mapE_filter_erase _ _ ComponentDetector.isNavigation_erase
      ComponentDetector.analyzeNavigation_erase,
    Spec.mapE_filter_erase _ _ ComponentDetector.isFormElement_erase
      ComponentDetector.analyzeFormElement_erase,
    Spec.mapE_filter_erase _ _ ComponentDetector.isIcon_erase
      ComponentDetector.analyzeIcon_erase]

/-- C15: two trees that differ only in the fields `localSrc` and `AI_INSTRUCTION` of
their nodes (they agree once both fields are removed everywhere) get the same result,
token set or exception, from `parseFigmaNode`, and the same from `detectComponents`. -/
theorem analyzers_ignore_annotations (t₁ t₂ : Figma.Node)
    (h : Spec.eraseAnnotations t₁ = Spec.eraseAnnotations t₂) :
    FigmaParser.parseFigmaNode t₁ = FigmaParser.parseFigmaNode t₂ ∧
    ComponentDetector.detectComponents t₁ = ComponentDetector.detectComponents t₂ := by
  constructor
  · rw [← FigmaParser.parseFigmaNode_eraseAnnotations t₁, h,
      FigmaParser.parseFigmaNode_eraseAnnotations t₂]
  · rw [← ComponentDetector.detectComponents_eraseAnnotations t₁, h,
      ComponentDetector.detectComponents_eraseAnnotations t₂]

theorem analyzers_ignore_annotations_witness :
    Spec.eraseAnnotations Example.galleryCard =
      Spec.eraseAnnotations Example.annotatedGalleryCard ∧
    (FigmaParser.parseFigmaNode Example.galleryCard =
      FigmaParser.parseFigmaNode Example.annotatedGalleryCard ∧
    ComponentDetector.detectComponents Example.galleryCard =
      ComponentDetector.detectComponents Example.annotatedGalleryCard) :=
  ⟨rfl, analyzers_ignore_annotations Example.galleryCard Example.annotatedGalleryCard rfl⟩

/-! ## Colour conversion outside the unit interval -/

/-- C16, as stated, fails: `rgbToHex` pads a channel to two digits but does not clamp
it: channel 2 scales to 510, rendered "1FE", and channel -1 to -255, rendered "-FF", so
the results have 8 characters, in both copies; so does the double 1.0019607843137255,
whose product with 255 is the double 255.5, rendered "100". -/
theorem rgbToHex_does_not_clamp :
    FigmaParser.rgbToHex 2 0 0 = "#1FE0000" ∧ (FigmaParser.rgbToHex 2 0 0).length = 8 ∧
    ComponentDetector.rgbToHex 2 0 0 = "#1FE0000" ∧
    (ComponentDetector.rgbToHex 2 0 0).length = 8 ∧
    FigmaParser.rgbToHex (-1) 0 0 = "#-FF0000" ∧
    (FigmaParser.rgbToHex (-1) 0 0).length = 8 ∧
    Js.mul (564053776859393 / 562949953421312) 255 = 511 / 2 ∧
    FigmaParser.rgbToHex (564053776859393 / 562949953421312) 0 0 = "#1000000" := by
  refine ⟨?_, ?_, ?_, ?_, ?_, ?_, ?_, ?_⟩ <;> decide!

/-- C16, amended: when every channel scaled by 255 rounds into 0..255, that is
`-1/2 ≤ c * 255 < 255 + 1/2` for the product as the code takes it, in double precision
(every channel in [0,1] does), both copies of `rgbToHex` return exactly 7 characters:
`#` and the two-digit upper-case hexadecimal rendering of the three rounded values. -/
theorem rgbToHex_seven_chars_in_range (r g b : ℚ)
    (hr : -1 / 2 ≤ Js.mul r 255 ∧ Js.mul r 255 < 255 + 1 / 2)
    (hg : -1 / 2 ≤ Js.mul g 255 ∧ Js.mul g 255 < 255 + 1 / 2)
    (hb : -1 / 2 ≤ Js.mul b 255 ∧ Js.mul b 255 < 255 + 1 / 2) :
    (∃ vr vg vb : Nat, vr ≤ 255 ∧ vg ≤ 255 ∧ vb ≤ 255 ∧
      Spec.IsRoundHalfUp (Js.mul r 255) vr ∧ Spec.IsRoundHalfUp (Js.mul g 255) vg ∧
      Spec.IsRoundHalfUp (Js.mul b 255) vb ∧
      FigmaParser.rgbToHex r g b =
        "#" ++ Spec.twoDigitUpperHex vr ++ Spec.twoDigitUpperHex vg ++ Spec.twoDigitUpperHex vb ∧
      ComponentDetector.rgbToHex r g b = FigmaParser.rgbToHex r g b ∧
      (FigmaParser.rgbToHex r g b).length = 7 ∧
      (ComponentDetector.rgbToHex r g b).length = 7) ∧
    (∀ c : ℚ, 0 ≤ c → c ≤ 1 → -1 / 2 ≤ Js.mul c 255 ∧ Js.mul c 255 < 255 + 1 / 2) := by
  refine ⟨?_, fun c h0 h1 => ?_⟩
  · obtain ⟨r0, r1⟩ := Js.mathRound_bounds_of_range _ hr.1 hr.2
    obtain ⟨g0, g1⟩ := Js.mathRound_bounds_of_range _ hg.1 hg.2
    obtain ⟨b0, b1⟩ := Js.mathRound_bounds_of_range _ hb.1 hb.2
    have key : FigmaParser.rgbToHex r g b =
        "#" ++ Spec.twoDigitUpperHex (Js.mathRound (Js.mul r 255)).toNat ++
          Spec.twoDigitUpperHex (Js.mathRound (Js.mul g 255)).toNat ++
          Spec.twoDigitUpperHex (Js.mathRound (Js.mul b 255)).toNat := by
      unfold FigmaParser.rgbToHex
      rw [Js.toUpperCase_append, Js.toUpperCase_append, Js.toUpperCase_append,
        FigmaParser.toUpperCase_toHex_of_byte r hr.1 hr.2,
        FigmaParser.toUpperCase_toHex_of_byte g hg.1 hg.2,
        FigmaParser.toUpperCase_toHex_of_byte b hb.1 hb.2]
      rfl
    have hlen : (FigmaParser.rgbToHex r g b).length = 7 := by
      rw [key, String.length_append, String.length_append, String.length_append,
        Spec.twoDigitUpperHex_length, Spec.twoDigitUpperHex_length,
        Spec.twoDigitUpperHex_length]
      rfl
    refine ⟨_, _, _, by omega, by omega, by omega, Js.mathRound_isRoundHalfUp _ r0,
      Js.mathRound_isRoundHalfUp _ g0, Js.mathRound_isRoundHalfUp _ b0, key,
      ComponentDetector.rgbToHex_eq_figmaParser r g b, hlen, ?_⟩
    rw [ComponentDetector.rgbToHex_eq_figmaParser]
    exact hlen
  · obtain ⟨hlo, hhi⟩ := Js.mul_scaled_bounds c h0 h1
    exact ⟨by linarith, by linarith⟩

theorem rgbToHex_seven_chars_in_range_witness :
    (-1 / 2 ≤ Js.mul (-1 / 512) 255 ∧ Js.mul (-1 / 512) 255 < 255 + 1 / 2) ∧
    (FigmaParser.rgbToHex (-1 / 512) 1 (1 / 2)).length = 7 ∧
      (ComponentDetector.rgbToHex (-1 / 512) 1 (1 / 2)).length = 7 := by
  obtain ⟨⟨vr, vg, vb, -, -, -, -, -, -, -, -, h1, h2⟩, -⟩ :=
    rgbToHex_seven_chars_in_range (-1 / 512) 1 (1 / 2) (by decide!) (by decide!)
      (by decide!)
  exact ⟨by decide!, h1, h2⟩

/-! ## Border widths -/

theorem FigmaParser.foldl_visitStroke_borders (strokes : List Figma.Paint)
    (ds : FigmaParser.DesignSystem) :
    (strokes.foldl FigmaParser.visitStroke ds).borders = ds.borders :=
  Js.foldl_invariant FigmaParser.visitStroke (fun s => s.borders = ds.borders)
    (fun s a h => ((FigmaParser.visitStroke_frame s a).2.2.2.2.2.1).trans h) strokes ds rfl

theorem FigmaParser.visitStrokes_widths (node : Figma.NodeProps)
    (ds : FigmaParser.DesignSystem) (s : String) :
    s ∈ (FigmaParser.visitStrokes node ds).borders.widths ↔
      s ∈ ds.borders.widths ∨ Spec.NodeYieldsWidth node s := by
  unfold FigmaParser.visitStrokes Spec.NodeYieldsWidth
  rcases node.strokes with _ | strokes
  · exact ⟨Or.inl, fun h => h.elim id fun ⟨_, _, h, _⟩ => (by cases h)⟩
  · dsimp only
    rcases node.strokeWeight with _ | w
    · dsimp only
      rw [FigmaParser.foldl_visitStroke_borders]
      exact ⟨Or.inl, fun h => h.elim id fun ⟨_, _, _, h, _⟩ => (by cases h)⟩
    · dsimp only
      by_cases h0 : w ≠ 0
      · rw [if_pos h0]
        show s ∈ Js.setAdd (strokes.foldl FigmaParser.visitStroke ds).borders.widths _ ↔ _
        rw [Js.mem_setAdd, FigmaParser.foldl_visitStroke_borders]
        constructor
        · rintro (h | h)
          · exact Or.inl h
          · exact Or.inr ⟨strokes, w, rfl, rfl, h0, h⟩
        · rintro (h | ⟨_, w', -, hw, -, hs⟩)
          · exact Or.inl h
          · cases hw
            exact Or.inr hs
      · rw [if_neg h0, FigmaParser.foldl_visitStroke_borders]
        refine ⟨Or.inl, fun h => h.elim id ?_⟩
        rintro ⟨_, w', -, hw, hw0, -⟩
        cases hw
        exact absurd hw0 h0

theorem FigmaParser.visitRadius_widths (node : Figma.NodeProps)
    (ds : FigmaParser.DesignSystem) :
    (FigmaParser.visitRadius node ds).borders.widths = ds.borders.widths := by
  unfold FigmaParser.visitRadius
  split
  · rfl
  · split
    · refine Js.foldl_invariant _ (fun s => s.borders.widths = ds.borders.widths) ?_ _ ds rfl
      intro s a hinv
      dsimp only
      split
      · exact hinv
      · exact hinv
    · rfl

theorem FigmaParser.visit_widths (node : Figma.NodeProps) (ds ds' : FigmaParser.DesignSystem)
    (h : FigmaParser.visit node ds = Except.ok ds') (s : String) :
    s ∈ ds'.borders.widths ↔ s ∈ ds.borders.widths ∨ Spec.NodeYieldsWidth node s := by
  obtain ⟨ds₁, hf, rfl⟩ := FigmaParser.visit_ok node ds ds' h
  rw [(FigmaParser.visitEffects_frame node _).2.2.2.2.2.1, FigmaParser.visitRadius_widths,
    (FigmaParser.visitLayout_frame node _).2.2.2.2.2,
    (FigmaParser.visitStyle_frame node _).2.2.2.2.1, FigmaParser.visitStrokes_widths,
    (FigmaParser.visitFills_frame node ds ds₁ hf).2.2.2.2.1]

theorem FigmaParser.traverse_widths (t : Figma.Node) (ds ds' : FigmaParser.DesignSystem)
    (h : FigmaParser.traverse t ds = Except.ok ds') (s : String) :
    s ∈ ds'.borders.widths ↔
      s ∈ ds.borders.widths ∨ ∃ n ∈ Figma.Node.preorder t, Spec.NodeYieldsWidth n.props s := by
  rw [FigmaParser.traverse_eq_foldlM] at h
  exact Js.foldlM_ok_mem
    (fun (ds : FigmaParser.DesignSystem) (n : Figma.Node) => FigmaParser.visit n.props ds)
    (fun d => d.borders.widths) (fun (n : Figma.Node) x => Spec.NodeYieldsWidth n.props x)
    (fun d a d' hs => FigmaParser.visit_widths a.props d d' hs) _ ds ds' h s

/-- C17, as stated, fails: a node with `strokeWeight` 2 and no `strokes` field yields
no border width: the weight is read only inside the guard on `strokes`. -/
theorem parseFigmaNode_width_needs_strokes :
    Example.weightOnlyNode.props.strokeWeight = some 2 ∧
    Example.weightOnlyNode.props.strokes = none ∧
    (FigmaParser.parseFigmaNode Example.weightOnlyNode).map (fun r => r.borders.widths) =
      Except.ok [] := by
  refine ⟨rfl, rfl, ?_⟩
  decide

/-- C17, amended: on a tree for which `parseFigmaNode` returns, a string is in
`borders.widths` exactly when it is `<w>px` for some node that has a `strokes` list
(possibly empty) and a non-zero `strokeWeight` `w`; a node without a `strokes` field
contributes no width. -/
theorem parseFigmaNode_border_widths (t : Figma.Node) (ts : FigmaParser.TokenSet)
    (hret : FigmaParser.parseFigmaNode t = Except.ok ts) :
    ∀ s : String, s ∈ ts.borders.widths ↔
      ∃ n ∈ Figma.Node.preorder t, ∃ (ss : List Figma.Paint) (w : ℚ),
        n.props.strokes = some ss ∧ n.props.strokeWeight = some w ∧ w ≠ 0 ∧
        s = Js.numberToString w ++ "px" := by
  obtain ⟨ds, ht, -, -, -, -, -, -, hb, -⟩ := FigmaParser.parseFigmaNode_ok t ts hret
  intro s
  rw [hb, FigmaParser.traverse_widths t {} ds ht s]
  exact ⟨fun h => h.resolve_left (List.not_mem_nil s), Or.inr⟩

theorem parseFigmaNode_border_widths_witness :
    FigmaParser.parseFigmaNode Example.strokedNode = Except.ok Example.strokedTokens ∧
    (∀ s : String, s ∈ Example.strokedTokens.borders.widths ↔
      ∃ n ∈ Figma.Node.preorder Example.strokedNode, ∃ (ss : List Figma.Paint) (w : ℚ),
        n.props.strokes = some ss ∧ n.props.strokeWeight = some w ∧ w ≠ 0 ∧
        s = Js.numberToString w ++ "px") :=
  ⟨by decide, parseFigmaNode_border_widths Example.strokedNode Example.strokedTokens (by decide)⟩

/-! ## Layout harvesting -/

theorem Js.orNum_zero (x : Option ℚ) : Js.orNum x 0 = x.getD 0 := by
  rcases x with _ | v
  · rfl
  · show (if v = 0 then 0 else v) = v
    split
    · next h => exact h.symm
    · rfl

theorem Js.truthyNum_iff (o : Option ℚ) : Js.truthyNum o = true ↔ Spec.SetNonZero o := by
  unfold Spec.SetNonZero
  rcases o with _ | v
  · constructor
    · intro h
      cases h
    · rintro ⟨_, h, -⟩
      cases h
  · show decide (v ≠ 0) = true ↔ _
    rw [decide_eq_true_iff]
    constructor
    · exact fun h => ⟨v, rfl, h⟩
    · rintro ⟨_, h, h0⟩
      cases h
      exact h0

theorem FigmaParser.visitLayout_of_absent (node : Figma.NodeProps)
    (ds : FigmaParser.DesignSystem) (h : node.layoutMode = none) :
    FigmaParser.visitLayout node ds = ds := by
  unfold FigmaParser.visitLayout
  rw [h]

theorem FigmaParser.visitLayout_paddings (node : Figma.NodeProps)
    (ds : FigmaParser.DesignSystem) (s : String) :
    s ∈ (FigmaParser.visitLayout node ds).layout.paddings ↔
      s ∈ ds.layout.paddings ∨ Spec.NodeYieldsPadding node s := by
  have hguard : (Js.truthyNum node.paddingLeft || Js.truthyNum node.paddingTop) = true ↔
      (Spec.SetNonZero node.paddingLeft ∨ Spec.SetNonZero node.paddingTop) := by
    rw [Bool.or_eq_true, Js.truthyNum_iff, Js.truthyNum_iff]
  have hstr : Js.numberToString (Js.orNum node.paddingTop 0) ++ "px " ++
      Js.numberToString (Js.orNum node.paddingRight 0) ++ "px " ++
      Js.numberToString (Js.orNum node.paddingBottom 0) ++ "px " ++
      Js.numberToString (Js.orNum node.paddingLeft 0) ++ "px" = Spec.paddingShorthand node := by
    unfold Spec.paddingShorthand
    rw [Js.orNum_zero, Js.orNum_zero, Js.orNum_zero, Js.orNum_zero]
  unfold FigmaParser.visitLayout Spec.NodeYieldsPadding
  rcases node.layoutMode with _ | mode
  · exact ⟨Or.inl, fun h => h.elim id fun ⟨⟨_, h, _⟩, _⟩ => (by cases h)⟩
  · dsimp only
    have hpos : (Js.truthyNum node.paddingLeft || Js.truthyNum node.paddingTop) = true →
        mode ≠ "" →
        (s ∈ Js.setAdd ds.layout.paddings
            (Js.numberToString (Js.orNum node.paddingTop 0) ++ "px " ++
              Js.numberToString (Js.orNum node.paddingRight 0) ++ "px " ++
              Js.numberToString (Js.orNum node.paddingBottom 0) ++ "px " ++
              Js.numberToString (Js.orNum node.paddingLeft 0) ++ "px") ↔
          s ∈ ds.layout.paddings ∨
            (∃ mode', some mode = some mode' ∧ mode' ≠ "") ∧
              (Spec.SetNonZero node.paddingLeft ∨ Spec.SetNonZero node.paddingTop) ∧
              s = Spec.paddingShorthand node) := by
      intro hp hne
      rw [Js.mem_setAdd, hstr]
      constructor
      · rintro (h | h)
        · exact Or.inl h
        · exact Or.inr ⟨⟨mode, rfl, hne⟩, hguard.mp hp, h⟩
      · rintro (h | ⟨-, -, h⟩)
        · exact Or.inl h
        · exact Or.inr h
    have hneg : (¬ (Js.truthyNum node.paddingLeft || Js.truthyNum node.paddingTop) = true ∨
        ¬ mode ≠ "") →
        (s ∈ ds.layout.paddings ↔
          s ∈ ds.layout.paddings ∨
            (∃ mode', some mode = some mode' ∧ mode' ≠ "") ∧
              (Spec.SetNonZero node.paddingLeft ∨ Spec.SetNonZero node.paddingTop) ∧
              s = Spec.paddingShorthand node) := by
      intro hcase
      refine ⟨Or.inl, fun h => h.elim id ?_⟩
      rintro ⟨⟨mode', hm, hne'⟩, hg, -⟩
      cases hm
      rcases hcase with hc | hc
      · exact absurd (hguard.mpr hg) hc
      · exact absurd hne' hc
    by_cases hne : mode ≠ ""
    · rw [if_pos hne]
      rcases node.itemSpacing with _ | g
      · dsimp only
        by_cases hp : (Js.truthyNum node.paddingLeft || Js.truthyNum node.paddingTop) = true
        · rw [if_pos hp]
          exact hpos hp hne
        · rw [if_neg hp]
          exact hneg (Or.inl hp)
      · dsimp only
        by_cases hg : g ≠ 0
        · rw [if_pos hg]
          by_cases hp : (Js.truthyNum node.paddingLeft || Js.truthyNum node.paddingTop) = true
          · rw [if_pos hp]
            exact hpos hp hne
          · rw [if_neg hp]
            exact hneg (Or.inl hp)
        · rw [if_neg hg]
          by_cases hp : (Js.truthyNum node.paddingLeft || Js.truthyNum node.paddingTop) = true
          · rw [if_pos hp]
            exact hpos hp hne
          · rw [if_neg hp]
            exact hneg (Or.inl hp)
    · rw [if_neg hne]
      exact hneg (Or.inr hne)

theorem FigmaParser.visit_paddings (node : Figma.NodeProps)
    (ds ds' : FigmaParser.DesignSystem) (h : FigmaParser.visit node ds = Except.ok ds')
    (s : String) :
    s ∈ ds'.layout.paddings ↔ s ∈ ds.layout.paddings ∨ Spec.NodeYieldsPadding node s := by
  obtain ⟨ds₁, hf, rfl⟩ := FigmaParser.visit_ok node ds ds' h
  rw [(FigmaParser.visitEffects_frame node _).2.2.2.2.1,
    (FigmaParser.visitRadius_frame node _).2.2.2.2.1, FigmaParser.visitLayout_paddings,
    (FigmaParser.visitStyle_frame node _).2.2.1,
    (FigmaParser.visitStrokes_frame node _).2.2.2.1,
    (FigmaParser.visitFills_frame node ds ds₁ hf).2.2.1]

theorem FigmaParser.traverse_paddings (t : Figma.Node) (ds ds' : FigmaParser.DesignSystem)
    (h : FigmaParser.traverse t ds = Except.ok ds') (s : String) :
    s ∈ ds'.layout.paddings ↔
      s ∈ ds.layout.paddings ∨
        ∃ n ∈ Figma.Node.preorder t, Spec.NodeYieldsPadding n.props s := by
  rw [FigmaParser.traverse_eq_foldlM] at h
  exact Js.foldlM_ok_mem
    (fun (ds : FigmaParser.DesignSystem) (n : Figma.Node) => FigmaParser.visit n.props ds)
    (fun d => d.layout.paddings) (fun (n : Figma.Node) x => Spec.NodeYieldsPadding n.props x)
    (fun d a d' hs => FigmaParser.visit_paddings a.props d d' hs) _ ds ds' h s

/-- C18: a node without `layoutMode` contributes nothing to gaps, paddings or spacing,
but a node whose `layoutMode` is the string "NONE" is harvested like an auto-layout
node: with gap 10 and left padding 4 it yields a gap, a paddings entry and two
spacing-scale entries. -/
theorem parseFigmaNode_harvests_none_layout :
    (∀ (node : Figma.NodeProps) (ds : FigmaParser.DesignSystem),
      node.layoutMode = none → FigmaParser.visitLayout node ds = ds) ∧
    Example.noneLayoutNode.props.layoutMode = some "NONE" ∧
    (FigmaParser.parseFigmaNode Example.noneLayoutNode).map
      (fun r => (r.layout.gaps, r.layout.paddings, r.spacingScale)) =
      Except.ok (["10px"], ["0px 0px 0px 4px"], ["4px", "10px"]) := by
  refine ⟨FigmaParser.visitLayout_of_absent, rfl, ?_⟩
  decide

/-- C19, as stated, fails: a vertical auto-layout node on which only `paddingRight`
(12) is present adds nothing to `layout.paddings`, although its four-side string is
"0px 12px 0px 0px". -/
theorem parseFigmaNode_right_padding_alone :
    Example.rightPaddingNode.props.layoutMode = some "VERTICAL" ∧
    Example.rightPaddingNode.props.paddingRight = some 12 ∧
    Spec.paddingShorthand Example.rightPaddingNode.props = "0px 12px 0px 0px" ∧
    (FigmaParser.parseFigmaNode Example.rightPaddingNode).map (fun r => r.layout.paddings) =
      Except.ok [] := by
  refine ⟨rfl, rfl, ?_, ?_⟩ <;> decide

/-- C19, amended: on a tree for which `parseFigmaNode` returns, every node whose
`layoutMode` is HORIZONTAL or VERTICAL and whose `paddingTop` or `paddingLeft` is
present and non-zero has its string `<top>px <right>px <bottom>px <left>px` (absent
sides as 0) in `layout.paddings`; and every entry of `layout.paddings` is that string
of a node with a `layoutMode` whose `paddingTop` or `paddingLeft` is non-zero, so a node
with only `paddingRight` or `paddingBottom` adds nothing. -/
theorem parseFigmaNode_layout_paddings (t : Figma.Node) (ts : FigmaParser.TokenSet)
    (hret : FigmaParser.parseFigmaNode t = Except.ok ts) :
    (∀ n ∈ Figma.Node.preorder t,
      (n.props.layoutMode = some "HORIZONTAL" ∨ n.props.layoutMode = some "VERTICAL") →
      (Spec.SetNonZero n.props.paddingTop ∨ Spec.SetNonZero n.props.paddingLeft) →
      Spec.paddingShorthand n.props ∈ ts.layout.paddings) ∧
    (∀ s ∈ ts.layout.paddings, ∃ n ∈ Figma.Node.preorder t,
      n.props.layoutMode ≠ none ∧
      (Spec.SetNonZero n.props.paddingTop ∨ Spec.SetNonZero n.props.paddingLeft) ∧
      s = Spec.paddingShorthand n.props) := by
  obtain ⟨ds, ht, -, -, -, -, hl, -, -, -⟩ := FigmaParser.parseFigmaNode_ok t ts hret
  rw [hl]
  constructor
  · intro n hn hmode hpad
    rw [FigmaParser.traverse_paddings t {} ds ht]
    refine Or.inr ⟨n, hn, ?_, hpad.symm, rfl⟩
    rcases hmode with h | h
    · exact ⟨"HORIZONTAL", h, by decide⟩
    · exact ⟨"VERTICAL", h, by decide⟩
  · intro s hs
    rcases (FigmaParser.traverse_paddings t {} ds ht s).mp hs with h | ⟨n, hn, ⟨mode, hm, -⟩, hp, he⟩
    · exact absurd h (List.not_mem_nil s)
    · refine ⟨n, hn, ?_, hp.symm, he⟩
      rw [hm]
      exact fun h => by cases h

theorem parseFigmaNode_layout_paddings_witness :
    FigmaParser.parseFigmaNode Example.paddedNode = Except.ok Example.paddedTokens ∧
    ((∀ n ∈ Figma.Node.preorder Example.paddedNode,
      (n.props.layoutMode = some "HORIZONTAL" ∨ n.props.layoutMode = some "VERTICAL") →
      (Spec.SetNonZero n.props.paddingTop ∨ Spec.SetNonZero n.props.paddingLeft) →
      Spec.paddingShorthand n.props ∈ Example.paddedTokens.layout.paddings) ∧
    (∀ s ∈ Example.paddedTokens.layout.paddings, ∃ n ∈ Figma.Node.preorder Example.paddedNode,
      n.props.layoutMode ≠ none ∧
      (Spec.SetNonZero n.props.paddingTop ∨ Spec.SetNonZero n.props.paddingLeft) ∧
      s = Spec.paddingShorthand n.props)) :=
  ⟨by decide,
    parseFigmaNode_layout_paddings Example.paddedNode Example.paddedTokens (by decide)⟩

/-! ## The padding helper of the classifier -/

/-- C20: `extractPadding` returns null exactly when neither `paddingTop` nor
`paddingLeft` is set to a non-zero value, and otherwise the four sides with every
absent side as 0; a node on which only `paddingRight`, or only `paddingBottom`, is set
yields null. -/
theorem extractPadding_spec (n : Figma.Node) :
    (ComponentDetector.extractPadding n = none ↔
      ¬ Spec.SetNonZero n.props.paddingTop ∧ ¬ Spec.SetNonZero n.props.paddingLeft) ∧
    (ComponentDetector.extractPadding n ≠ none →
      ComponentDetector.extractPadding n = some {
        top := n.props.paddingTop.getD 0
        right := n.props.paddingRight.getD 0
        bottom := n.props.paddingBottom.getD 0
        left := n.props.paddingLeft.getD 0 }) ∧
    ComponentDetector.extractPadding Example.rightPaddingNode = none ∧
    ComponentDetector.extractPadding Example.bottomPaddingNode = none := by
  have hcond : (!Js.truthyNum n.props.paddingLeft && !Js.truthyNum n.props.paddingTop) = true ↔
      ¬ Spec.SetNonZero n.props.paddingTop ∧ ¬ Spec.SetNonZero n.props.paddingLeft := by
    rw [Bool.and_eq_true, Bool.not_eq_true', Bool.not_eq_true', ← Js.truthyNum_iff,
      ← Js.truthyNum_iff, Bool.not_eq_true, Bool.not_eq_true]
    exact and_comm
  refine ⟨?_, ?_, by decide, by decide⟩
  · rw [← hcond]
    unfold ComponentDetector.extractPadding
    split
    · next h => exact ⟨fun _ => h, fun _ => rfl⟩
    · next h => exact ⟨fun he => (by cases he), fun hc => absurd hc h⟩
  · intro hne
    unfold ComponentDetector.extractPadding at hne ⊢
    split
    · next h =>
      rw [if_pos h] at hne
      exact absurd rfl hne
    · rw [Js.orNum_zero, Js.orNum_zero, Js.orNum_zero, Js.orNum_zero]

/-! ## Navigation records -/

theorem ComponentDetector.analyzeNavigation_reads (n : Figma.Node)
    (r : ComponentDetector.NavigationRecord)
    (h : ComponentDetector.analyzeNavigation n = Except.ok r) :
    r.variant = (if Js.truthy (ComponentDetector.nameIncludes n "footer") then "footer"
      else "header") ∧
    r.linkCount = (match n.children with
      | some cs => cs.filter ComponentDetector.isTextOrHasTextChild
      | none => []).length := by
  unfold ComponentDetector.analyzeNavigation at h
  rcases hbg : ComponentDetector.extractBgColor n with e | c
  · rw [hbg] at h
    cases h
  · rw [hbg] at h
    cases h
    exact ⟨rfl, rfl⟩

theorem Spec.countIs_filter (p : Figma.Node → Bool) (P : Figma.Node → Prop)
    (hp : ∀ c, p c = true ↔ P c) (l : List Figma.Node) :
    Spec.CountIs (l.filter p).length P l := by
  unfold Spec.CountIs
  rw [Spec.atLeast_iff_filter _ p P hp, Spec.atLeast_iff_filter _ p P hp]
  exact ⟨le_refl _, Nat.not_succ_le_self _⟩

/-- C25: in the record `analyzeNavigation` returns, `variant` is "footer" exactly when
the node's name contains "footer" in any letter case and "header" otherwise;
`linkCount` is 0 when the node has no children list and otherwise is the number of
direct children that are TEXT or have a direct TEXT child, so it is at most the number
of children; and it is at least 3 for a node that satisfies the navigation predicate
without any of the name keywords. -/
theorem analyzeNavigation_variant_linkCount (n : Figma.Node)
    (r : ComponentDetector.NavigationRecord)
    (h : ComponentDetector.analyzeNavigation n = Except.ok r) :
    (r.variant = "footer" ↔ Spec.NameContains n "footer") ∧
    (r.variant = "header" ↔ ¬ Spec.NameContains n "footer") ∧
    (n.children = none → r.linkCount = 0) ∧
    (∀ kids, n.children = some kids →
      Spec.CountIs r.linkCount Spec.IsLink kids ∧ r.linkCount ≤ kids.length) ∧
    (ComponentDetector.isNavigation n = true → ¬ Spec.NameContains n "nav" →
      ¬ Spec.NameContains n "header" → ¬ Spec.NameContains n "menu" → 3 ≤ r.linkCount) := by
  obtain ⟨hv, hl⟩ := ComponentDetector.analyzeNavigation_reads n r h
  have hfooter := ComponentDetector.nameIncludes_iff n "footer" (by decide)
  refine ⟨?_, ?_, ?_, ?_, ?_⟩
  · rw [hv, ← hfooter]
    split
    · next hc => exact ⟨fun _ => hc, fun _ => rfl⟩
    · next hc => exact ⟨fun he => absurd he (by decide), fun hc' => absurd hc' hc⟩
  · rw [hv, ← hfooter]
    split
    · next hc => exact ⟨fun he => absurd he (by decide), fun hc' => absurd hc hc'⟩
    · next hc => exact ⟨fun _ => hc, fun _ => rfl⟩
  · intro hnone
    rw [hl, hnone]
    rfl
  · intro kids hkids
    rw [hl, hkids]
    exact ⟨Spec.countIs_filter _ _ ComponentDetector.isTextOrHasTextChild_iff kids,
      List.length_filter_le _ _⟩
  · intro hnav hn1 hn2 hn3
    rcases (ComponentDetector.isNavigation_iff n).mp hnav with hs | hs | hs | hs
    · obtain ⟨-, kids, hkids, -, hat⟩ := hs
      rw [hl, hkids]
      exact (Spec.atLeast_iff_filter 3 _ _ ComponentDetector.isTextOrHasTextChild_iff kids).mp hat
    · exact absurd hs hn1
    · exact absurd hs hn2
    · exact absurd hs hn3

theorem analyzeNavigation_variant_linkCount_witness :
    ComponentDetector.analyzeNavigation Example.footerBar = Except.ok Example.footerRecord ∧
    ((Example.footerRecord.variant = "footer" ↔ Spec.NameContains Example.footerBar "footer") ∧
    (Example.footerRecord.variant = "header" ↔
      ¬ Spec.NameContains Example.footerBar "footer") ∧
    (Example.footerBar.children = none → Example.footerRecord.linkCount = 0) ∧
    (∀ kids, Example.footerBar.children = some kids →
      Spec.CountIs Example.footerRecord.linkCount Spec.IsLink kids ∧
        Example.footerRecord.linkCount ≤ kids.length) ∧
    (ComponentDetector.isNavigation Example.footerBar = true →
      ¬ Spec.NameContains Example.footerBar "nav" →
      ¬ Spec.NameContains Example.footerBar "header" →
      ¬ Spec.NameContains Example.footerBar "menu" → 3 ≤ Example.footerRecord.linkCount)) :=
  ⟨by decide, analyzeNavigation_variant_linkCount Example.footerBar Example.footerRecord
    (by decide)⟩

/-! ## The reported border radius -/

theorem Spec.borderRadiusRule_orNum (p : Figma.NodeProps) :
    Spec.BorderRadiusRule p (Js.orNum p.cornerRadius 0) := by
  rw [Js.orNum_zero]
  unfold Spec.BorderRadiusRule Spec.SetNonZero
  rcases p.cornerRadius with _ | v
  · exact ⟨fun v hv => (by cases hv), fun _ => rfl⟩
  · refine ⟨fun w hw _ => ?_, fun hno => ?_⟩
    · cases hw
      rfl
    · by_contra hne
      exact hno ⟨v, rfl, hne⟩

theorem ComponentDetector.analyzeButton_borderRadius (n : Figma.Node)
    (r : ComponentDetector.ButtonRecord)
    (h : ComponentDetector.analyzeButton n = Except.ok r) :
    r.properties.borderRadius = Js.orNum n.props.cornerRadius 0 := by
  unfold ComponentDetector.analyzeButton at h
  dsimp only at h
  rcases hf : n.props.fills.bind fun fs => fs.find? ComponentDetector.isVisibleSolid
    with _ | f
  · rw [hf] at h
    cases h
    rfl
  · rw [hf] at h
    dsimp only at h
    rcases hc : f.color with _ | c
    · rw [hc] at h
      cases h
    · rw [hc] at h
      cases h
      rfl

theorem ComponentDetector.analyzeCard_borderRadius (n : Figma.Node)
    (r : ComponentDetector.CardRecord)
    (h : ComponentDetector.analyzeCard n = Except.ok r) :
    r.properties.borderRadius = Js.orNum n.props.cornerRadius 0 := by
  unfold ComponentDetector.analyzeCard at h
  rcases hbg : ComponentDetector.extractBgColor n with e | c
  · rw [hbg] at h
    cases h
  · rw [hbg] at h
    cases h
    rfl

theorem ComponentDetector.analyzeFormElement_borderRadius (n : Figma.Node)
    (r : ComponentDetector.FormRecord)
    (h : ComponentDetector.analyzeFormElement n = Except.ok r) :
    r.properties.borderRadius = Js.orNum n.props.cornerRadius 0 := by
  unfold ComponentDetector.analyzeFormElement at h
  rcases hbg : ComponentDetector.extractBgColor n with e | c
  · rw [hbg] at h
    cases h
  · rw [hbg] at h
    cases h
    rfl

/-- C30: when `b` is the `properties.borderRadius` of the button, card or form record
built from a node, `b` equals the node's `cornerRadius` when that is present and
non-zero and is 0 otherwise; the node `radiiNode`, whose radius is given only as
`rectangleCornerRadii` [8, 8, 8, 8], satisfies the button predicate and is reported
with `borderRadius` 0. -/
theorem borderRadius_from_cornerRadius (n : Figma.Node) (b : ℚ)
    (h : (∃ r, ComponentDetector.analyzeButton n = Except.ok r ∧
        r.properties.borderRadius = b) ∨
      (∃ r, ComponentDetector.analyzeCard n = Except.ok r ∧ r.properties.borderRadius = b) ∨
      (∃ r, ComponentDetector.analyzeFormElement n = Except.ok r ∧
        r.properties.borderRadius = b)) :
    Spec.BorderRadiusRule n.props b ∧
    ComponentDetector.isButton Example.radiiNode = true ∧
    (ComponentDetector.analyzeButton Example.radiiNode).map
      (fun r => r.properties.borderRadius) = Except.ok 0 := by
  refine ⟨?_, by decide, by decide⟩
  rcases h with ⟨r, hr, hb⟩ | ⟨r, hr, hb⟩ | ⟨r, hr, hb⟩
  · rw [← hb, ComponentDetector.analyzeButton_borderRadius n r hr]
    exact Spec.borderRadiusRule_orNum n.props
  · rw [← hb, ComponentDetector.analyzeCard_borderRadius n r hr]
    exact Spec.borderRadiusRule_orNum n.props
  · rw [← hb, ComponentDetector.analyzeFormElement_borderRadius n r hr]
    exact Spec.borderRadiusRule_orNum n.props

theorem borderRadius_from_cornerRadius_witness :
    ComponentDetector.analyzeButton Example.radiiNode = Except.ok Example.radiiButton ∧
    (Spec.BorderRadiusRule Example.radiiNode.props 0 ∧
    ComponentDetector.isButton Example.radiiNode = true ∧
    (ComponentDetector.analyzeButton Example.radiiNode).map
      (fun r => r.properties.borderRadius) = Except.ok 0) :=
  ⟨by decide!, borderRadius_from_cornerRadius Example.radiiNode 0
    (Or.inl ⟨Example.radiiButton, by decide!, rfl⟩)⟩

/-! ## Children are visited -/

theorem Figma.Node.mem_preorder_self (t : Figma.Node) : t ∈ Figma.Node.preorder t := by
  cases t
  rw [Figma.Node.preorder]
  exact List.mem_cons_self _ _

theorem Figma.Node.mem_preorderList_iff (l : List Figma.Node) (x : Figma.Node) :
    x ∈ Figma.Node.preorderList l ↔ ∃ c ∈ l, x ∈ Figma.Node.preorder c := by
  induction l with
  | nil =>
    rw [Figma.Node.preorderList]
    simp
  | cons c cs ih =>
    rw [Figma.Node.preorderList, List.mem_append, ih]
    simp only [List.mem_cons, exists_eq_or_imp]

/-- Every direct child of a node of the tree is itself a node of the tree. -/
theorem Figma.Node.preorder_closed (t : Figma.Node) :
    ∀ n ∈ Figma.Node.preorder t, ∀ kids, n.children = some kids →
      ∀ c ∈ kids, c ∈ Figma.Node.preorder t := by
  induction t using Figma.Node.induct with
  | step props kids ih =>
    intro n hn ks hks c hc
    rw [Figma.Node.preorder] at hn ⊢
    rcases List.mem_cons.mp hn with hn | hn
    · rw [hn] at hks
      change kids = some ks at hks
      rw [hks, Figma.Node.preorderKids]
      exact List.mem_cons_of_mem _
        ((Figma.Node.mem_preorderList_iff ks c).mpr ⟨c, hc, Figma.Node.mem_preorder_self c⟩)
    · rcases kids with _ | l
      · rw [Figma.Node.preorderKids] at hn
        cases hn
      · rw [Figma.Node.preorderKids] at hn ⊢
        obtain ⟨c₀, hc₀, hn₀⟩ := (Figma.Node.mem_preorderList_iff l n).mp hn
        exact List.mem_cons_of_mem _ ((Figma.Node.mem_preorderList_iff l c).mpr
          ⟨c₀, hc₀, ih l rfl c₀ hc₀ n hn₀ ks hks c hc⟩)

theorem Js.forall₂_mem_right {α β : Type} (R : α → β → Prop) :
    ∀ (l : List α) (rs : List β), List.Forall₂ R l rs → ∀ r ∈ rs, ∃ a ∈ l, R a r := by
  intro l rs h
  induction h with
  | nil =>
    intro r hr
    cases hr
  | cons hab _ ih =>
    intro r hr
    rcases List.mem_cons.mp hr with hr | hr
    · exact ⟨_, List.mem_cons_self _ _, hr ▸ hab⟩
    · obtain ⟨a, ha, hR⟩ := ih r hr
      exact ⟨a, List.mem_cons_of_mem _ ha, hR⟩

theorem Spec.classifyPreorder_summary (t : Figma.Node) (cat : ComponentDetector.Catalog)
    (h : Spec.classifyPreorder t = Except.ok cat) :
    cat.summary.buttonCount = cat.components.buttons.length ∧
    cat.summary.cardCount = cat.components.cards.length ∧
    cat.summary.navigationCount = cat.components.navigation.length ∧
    cat.summary.formCount = cat.components.forms.length ∧
    cat.summary.iconCount = cat.components.icons.length := by
  unfold Spec.classifyPreorder at h
  dsimp only at h
  generalize Js.mapE ComponentDetector.analyzeButton
    ((Figma.Node.preorder t).filter ComponentDetector.isButton) = b at h ⊢
  generalize Js.mapE ComponentDetector.analyzeCard
    ((Figma.Node.preorder t).filter ComponentDetector.isCard) = c at h ⊢
  generalize Js.mapE ComponentDetector.analyzeNavigation
    ((Figma.Node.preorder t).filter ComponentDetector.isNavigation) = v at h ⊢
  generalize Js.mapE ComponentDetector.analyzeFormElement
    ((Figma.Node.preorder t).filter ComponentDetector.isFormElement) = f at h ⊢
  generalize Js.mapE ComponentDetector.analyzeIcon
    ((Figma.Node.preorder t).filter ComponentDetector.isIcon) = i at h ⊢
  rcases b with e | b
  · cases h
  rcases c with e | c
  · cases h
  rcases v with e | v
  · cases h
  rcases f with e | f
  · cases h
  rcases i with e | i
  · cases h
  cases h
  exact ⟨rfl, rfl, rfl, rfl, rfl⟩

/-- Every record of a returned catalog is the analyzer's result on a node of the tree
that satisfies the kind's predicate. -/
theorem ComponentDetector.detectComponents_record_origin (t : Figma.Node)
    (cat : ComponentDetector.Catalog)
    (hret : ComponentDetector.detectComponents t = Except.ok cat) :
    (∀ r ∈ cat.components.buttons, ∃ n ∈ Figma.Node.preorder t,
      ComponentDetector.isButton n = true ∧ ComponentDetector.analyzeButton n = Except.ok r) ∧
    (∀ r ∈ cat.components.cards, ∃ n ∈ Figma.Node.preorder t,
      ComponentDetector.isCard n = true ∧ ComponentDetector.analyzeCard n = Except.ok r) ∧
    (∀ r ∈ cat.components.navigation, ∃ n ∈ Figma.Node.preorder t,
      ComponentDetector.isNavigation n = true ∧
        ComponentDetector.analyzeNavigation n = Except.ok r) ∧
    (∀ r ∈ cat.components.forms, ∃ n ∈ Figma.Node.preorder t,
      ComponentDetector.isFormElement n = true ∧
        ComponentDetector.analyzeFormElement n = Except.ok r) ∧
    (∀ r ∈ cat.components.icons, ∃ n ∈ Figma.Node.preorder t,
      ComponentDetector.isIcon n = true ∧ ComponentDetector.analyzeIcon n = Except.ok r) := by
  rw [ComponentDetector.detectComponents_eq_spec] at hret
  obtain ⟨hb, hc, hv, hf, hi⟩ := Spec.classifyPreorder_ok t cat hret
  refine ⟨fun r hr => ?_, fun r hr => ?_, fun r hr => ?_, fun r hr => ?_, fun r hr => ?_⟩
  · obtain ⟨n, hn, hR⟩ := Js.forall₂_mem_right _ _ _ (Js.mapE_ok_forall₂ _ _ _ hb) r hr
    exact ⟨n, (List.mem_filter.mp hn).1, (List.mem_filter.mp hn).2, hR⟩
  · obtain ⟨n, hn, hR⟩ := Js.forall₂_mem_right _ _ _ (Js.mapE_ok_forall₂ _ _ _ hc) r hr
    exact ⟨n, (List.mem_filter.mp hn).1, (List.mem_filter.mp hn).2, hR⟩
  · obtain ⟨n, hn, hR⟩ := Js.forall₂_mem_right _ _ _ (Js.mapE_ok_forall₂ _ _ _ hv) r hr
    exact ⟨n, (List.mem_filter.mp hn).1, (List.mem_filter.mp hn).2, hR⟩
  · obtain ⟨n, hn, hR⟩ := Js.forall₂_mem_right _ _ _ (Js.mapE_ok_forall₂ _ _ _ hf) r hr
    exact ⟨n, (List.mem_filter.mp hn).1, (List.mem_filter.mp hn).2, hR⟩
  · obtain ⟨n, hn, hR⟩ := Js.forall₂_mem_right _ _ _ (Js.mapE_ok_forall₂ _ _ _ hi) r hr
    exact ⟨n, (List.mem_filter.mp hn).1, (List.mem_filter.mp hn).2, hR⟩

/-- C29: in a returned catalog, if some card record has `hasButton` true then
`summary.buttonCount` is at least 1: the child that makes the flag true is itself
visited and listed as a button. -/
theorem detectComponents_hasButton_counted (t : Figma.Node) (cat : ComponentDetector.Catalog)
    (hret : ComponentDetector.detectComponents t = Except.ok cat)
    (hcard : ∃ r ∈ cat.components.cards, r.hasButton = some true) :
    1 ≤ cat.summary.buttonCount := by
  obtain ⟨r, hr, hflag⟩ := hcard
  obtain ⟨n, hn, -, hrec⟩ :=
    (ComponentDetector.detectComponents_record_origin t cat hret).2.1 r hr
  have hflag' := (ComponentDetector.analyzeCard_reads_children n r hrec).2.2
  rw [hflag] at hflag'
  rcases hkids : n.children with _ | kids
  · rw [hkids] at hflag'
    cases hflag'
  · rw [hkids] at hflag'
    have hany : kids.any ComponentDetector.isButton = true := by
      change some true = some (kids.any ComponentDetector.isButton) at hflag'
      exact (Option.some.inj hflag').symm
    obtain ⟨c, hc, hbtn⟩ := List.any_eq_true.mp hany
    have hmem : c ∈ (Figma.Node.preorder t).filter ComponentDetector.isButton :=
      List.mem_filter.mpr ⟨Figma.Node.preorder_closed t n hn kids hkids c hc, hbtn⟩
    rw [ComponentDetector.detectComponents_eq_spec] at hret
    rw [(Spec.classifyPreorder_summary t cat hret).1,
      ← (Js.mapE_ok_forall₂ _ _ _ (Spec.classifyPreorder_ok t cat hret).1).length_eq]
    exact List.length_pos_of_mem hmem

theorem detectComponents_hasButton_counted_witness :
    ComponentDetector.detectComponents Example.shopCard = Except.ok Example.shopCatalog ∧
    (∃ r ∈ Example.shopCatalog.components.cards, r.hasButton = some true) ∧
    1 ≤ Example.shopCatalog.summary.buttonCount :=
  ⟨by decide, ⟨_, List.mem_singleton_self _, rfl⟩,
    detectComponents_hasButton_counted Example.shopCard Example.shopCatalog (by decide)
      ⟨_, List.mem_singleton_self _, rfl⟩⟩

/-! ## The two analyzers agree on colours -/

theorem ComponentDetector.extractBgColor_yields (n : Figma.Node) (c : String)
    (h : ComponentDetector.extractBgColor n = Except.ok (some c)) :
    Spec.NodeYieldsColor n.props c := by
  unfold ComponentDetector.extractBgColor at h
  rcases hfills : n.props.fills with _ | fills
  · rw [hfills] at h
    cases h
  · rw [hfills] at h
    dsimp only [Option.bind] at h
    rcases hfind : fills.find? ComponentDetector.isVisibleSolid with _ | f
    · rw [hfind] at h
      cases h
    · rw [hfind] at h
      dsimp only at h
      rcases hc : f.color with _ | col
      · rw [hc] at h
        cases h
      · rw [hc] at h
        cases h
        have hvis := (ComponentDetector.isVisibleSolid_iff f).mp (List.find?_some hfind)
        exact Or.inl ⟨fills, hfills, f, List.mem_of_find?_eq_some hfind, hvis.1, hvis.2,
          col, hc, rfl⟩

theorem ComponentDetector.analyzeButton_bgColor (n : Figma.Node)
    (r : ComponentDetector.ButtonRecord)
    (h : ComponentDetector.analyzeButton n = Except.ok r) :
    ComponentDetector.extractBgColor n = Except.ok r.properties.bgColor := by
  unfold ComponentDetector.analyzeButton at h
  unfold ComponentDetector.extractBgColor
  dsimp only at h ⊢
  rcases hf : n.props.fills.bind fun fs => fs.find? ComponentDetector.isVisibleSolid
    with _ | f
  · rw [hf] at h
    cases h
    rfl
  · rw [hf] at h
    dsimp only at h ⊢
    rcases hc : f.color with _ | c
    · rw [hc] at h
      cases h
    · rw [hc] at h
      cases h
      rfl

theorem ComponentDetector.analyzeCard_bgColor (n : Figma.Node)
    (r : ComponentDetector.CardRecord)
    (h : ComponentDetector.analyzeCard n = Except.ok r) :
    ComponentDetector.extractBgColor n = Except.ok r.properties.bgColor := by
  unfold ComponentDetector.analyzeCard at h
  rcases hbg : ComponentDetector.extractBgColor n with e | c
  · rw [hbg] at h
    cases h
  · rw [hbg] at h
    cases h
    rfl

theorem ComponentDetector.analyzeNavigation_bgColor (n : Figma.Node)
    (r : ComponentDetector.NavigationRecord)
    (h : ComponentDetector.analyzeNavigation n = Except.ok r) :
    ComponentDetector.extractBgColor n = Except.ok r.properties.bgColor := by
  unfold ComponentDetector.analyzeNavigation at h
  rcases hbg : ComponentDetector.extractBgColor n with e | c
  · rw [hbg] at h
    cases h
  · rw [hbg] at h
    cases h
    rfl

theorem ComponentDetector.analyzeFormElement_bgColor (n : Figma.Node)
    (r : ComponentDetector.FormRecord)
    (h : ComponentDetector.analyzeFormElement n = Except.ok r) :
    ComponentDetector.extractBgColor n = Except.ok r.properties.bgColor := by
  unfold ComponentDetector.analyzeFormElement at h
  rcases hbg : ComponentDetector.extractBgColor n with e | c
  · rw [hbg] at h
    cases h
  · rw [hbg] at h
    cases h
    rfl

theorem ComponentDetector.analyzeIcon_color (n : Figma.Node)
    (r : ComponentDetector.IconRecord)
    (h : ComponentDetector.analyzeIcon n = Except.ok r) :
    ComponentDetector.extractBgColor n = Except.ok r.color := by
  unfold ComponentDetector.analyzeIcon at h
  rcases hbg : ComponentDetector.extractBgColor n with e | c
  · rw [hbg] at h
    cases h
  · rw [hbg] at h
    cases h
    rfl

/-- C28: on a tree for which both analyzers return, every colour string the catalog
reports (the `bgColor` of a button, card, navigation or form record, or the `color` of
an icon record, when not null) is an element of the token set's `colors`. -/
theorem detectComponents_colors_in_tokens (t : Figma.Node) (ts : FigmaParser.TokenSet)
    (cat : ComponentDetector.Catalog) (c : String)
    (hparse : FigmaParser.parseFigmaNode t = Except.ok ts)
    (hdetect : ComponentDetector.detectComponents t = Except.ok cat)
    (hc : Spec.ReportsColor cat c) : c ∈ ts.colors := by
  obtain ⟨ds, ht, hcolors, -⟩ := FigmaParser.parseFigmaNode_ok t ts hparse
  obtain ⟨hb, hcd, hv, hf, hi⟩ := ComponentDetector.detectComponents_record_origin t cat hdetect
  have key : ∀ n ∈ Figma.Node.preorder t,
      ComponentDetector.extractBgColor n = Except.ok (some c) → c ∈ ts.colors := by
    intro n hn hbg
    rw [hcolors, (FigmaParser.traverse_colors t {} ds ht).1]
    exact Or.inr ⟨n, hn, ComponentDetector.extractBgColor_yields n c hbg⟩
  rcases hc with ⟨r, hr, hrc⟩ | ⟨r, hr, hrc⟩ | ⟨r, hr, hrc⟩ | ⟨r, hr, hrc⟩ | ⟨r, hr, hrc⟩
  · obtain ⟨n, hn, -, hrec⟩ := hb r hr
    exact key n hn (hrc ▸ ComponentDetector.analyzeButton_bgColor n r hrec)
  · obtain ⟨n, hn, -, hrec⟩ := hcd r hr
    exact key n hn (hrc ▸ ComponentDetector.analyzeCard_bgColor n r hrec)
  · obtain ⟨n, hn, -, hrec⟩ := hv r hr
    exact key n hn (hrc ▸ ComponentDetector.analyzeNavigation_bgColor n r hrec)
  · obtain ⟨n, hn, -, hrec⟩ := hf r hr
    exact key n hn (hrc ▸ ComponentDetector.analyzeFormElement_bgColor n r hrec)
  · obtain ⟨n, hn, -, hrec⟩ := hi r hr
    exact key n hn (hrc ▸ ComponentDetector.analyzeIcon_color n r hrec)

theorem detectComponents_colors_in_tokens_witness :
    FigmaParser.parseFigmaNode Example.redCard = Except.ok Example.redCardTokens ∧
    ComponentDetector.detectComponents Example.redCard = Except.ok Example.redCardCatalog ∧
    Spec.ReportsColor Example.redCardCatalog "#FF0000" ∧
    "#FF0000" ∈ Example.redCardTokens.colors :=
  ⟨by decide!, by decide!, Or.inr (Or.inl ⟨_, List.mem_singleton_self _, rfl⟩),
    detectComponents_colors_in_tokens Example.redCard Example.redCardTokens
      Example.redCardCatalog "#FF0000" (by decide!) (by decide!)
      (Or.inr (Or.inl ⟨_, List.mem_singleton_self _, rfl⟩))⟩

/-! ## Corner radii -/

theorem Js.eq_singleton_of_nodup {α : Type} (l : List α) (x : α) (hn : l.Nodup)
    (h : ∀ s, s ∈ l ↔ s = x) : l = [x] := by
  rcases l with _ | ⟨a, l⟩
  · exact absurd ((h x).mpr rfl) (List.not_mem_nil x)
  · have ha : a = x := (h a).mp (List.mem_cons_self _ _)
    have hl : l = [] := by
      rw [List.eq_nil_iff_forall_not_mem]
      intro b hb
      have hbx : b = x := (h b).mp (List.mem_cons_of_mem _ hb)
      rw [hbx, ← ha] at hb
      exact (List.nodup_cons.mp hn).1 hb
    rw [ha, hl]

theorem FigmaParser.visitStrokes_radius (node : Figma.NodeProps)
    (ds : FigmaParser.DesignSystem) :
    (FigmaParser.visitStrokes node ds).borders.radius = ds.borders.radius := by
  unfold FigmaParser.visitStrokes
  rcases node.strokes with _ | strokes
  · rfl
  · dsimp only
    rcases node.strokeWeight with _ | w
    · dsimp only
      rw [FigmaParser.foldl_visitStroke_borders]
    · dsimp only
      split
      · show (strokes.foldl FigmaParser.visitStroke ds).borders.radius = _
        rw [FigmaParser.foldl_visitStroke_borders]
      · rw [FigmaParser.foldl_visitStroke_borders]

theorem FigmaParser.visitRadius_radius (node : Figma.NodeProps)
    (ds : FigmaParser.DesignSystem) (s : String) :
    s ∈ (FigmaParser.visitRadius node ds).borders.radius ↔
      s ∈ ds.borders.radius ∨ Spec.NodeYieldsRadius node s := by
  unfold FigmaParser.visitRadius Spec.NodeYieldsRadius
  rcases node.cornerRadius with _ | r
  · dsimp only
    rcases node.rectangleCornerRadii with _ | rs
    · dsimp only
      refine ⟨Or.inl, fun h => h.elim id ?_⟩
      rintro (⟨_, h, -⟩ | ⟨-, _, h, -⟩)
      · cases h
      · cases h
    · dsimp only
      rw [Js.foldl_mem _ (fun d : FigmaParser.DesignSystem => d.borders.radius)
        (fun (v : ℚ) (x : String) => 0 < v ∧ x = Js.numberToString v ++ "px") ?_ rs ds s]
      · constructor
        · rintro (h | ⟨v, hv, h0, hs⟩)
          · exact Or.inl h
          · exact Or.inr (Or.inr ⟨rfl, rs, rfl, v, hv, h0, hs⟩)
        · rintro (h | ⟨_, h, -⟩ | ⟨-, _, h, v, hv, h0, hs⟩)
          · exact Or.inl h
          · cases h
          · cases h
            exact Or.inr ⟨v, hv, h0, hs⟩
      · intro d v x
        dsimp only
        by_cases h0 : v > 0
        · rw [if_pos h0]
          show x ∈ Js.setAdd d.borders.radius _ ↔ _
          rw [Js.mem_setAdd]
          exact ⟨fun h => h.imp id fun hx => ⟨h0, hx⟩, fun h => h.imp id fun hx => hx.2⟩
        · rw [if_neg h0]
          exact ⟨Or.inl, fun h => h.elim id fun hx => absurd hx.1 h0⟩
  · dsimp only
    show s ∈ Js.setAdd ds.borders.radius _ ↔ _
    rw [Js.mem_setAdd]
    constructor
    · rintro (h | h)
      · exact Or.inl h
      · exact Or.inr (Or.inl ⟨r, rfl, h⟩)
    · rintro (h | ⟨r', hr, hs⟩ | ⟨h, -⟩)
      · exact Or.inl h
      · cases hr
        exact Or.inr hs
      · cases h

theorem FigmaParser.visitRadius_radius_nodup (node : Figma.NodeProps)
    (ds : FigmaParser.DesignSystem) (h : ds.borders.radius.Nodup) :
    (FigmaParser.visitRadius node ds).borders.radius.Nodup := by
  unfold FigmaParser.visitRadius
  split
  · exact Js.nodup_setAdd _ _ h
  · split
    · refine Js.foldl_invariant _ (fun d : FigmaParser.DesignSystem => d.borders.radius.Nodup)
        ?_ _ ds h
      intro d v hinv
      dsimp only
      split
      · exact Js.nodup_setAdd _ _ hinv
      · exact hinv
    · exact h

theorem FigmaParser.visit_radius (node : Figma.NodeProps) (ds ds' : FigmaParser.DesignSystem)
    (h : FigmaParser.visit node ds = Except.ok ds') :
    (∀ s, s ∈ ds'.borders.radius ↔ s ∈ ds.borders.radius ∨ Spec.NodeYieldsRadius node s) ∧
    (ds.borders.radius.Nodup → ds'.borders.radius.Nodup) := by
  obtain ⟨ds₁, hf, rfl⟩ := FigmaParser.visit_ok node ds ds' h
  have hpre : (FigmaParser.visitLayout node (FigmaParser.visitStyle node
      (FigmaParser.visitStrokes node ds₁))).borders.radius = ds.borders.radius := by
    rw [(FigmaParser.visitLayout_frame node _).2.2.2.2.2,
      (FigmaParser.visitStyle_frame node _).2.2.2.2.1, FigmaParser.visitStrokes_radius,
      (FigmaParser.visitFills_frame node ds ds₁ hf).2.2.2.2.1]
  constructor
  · intro s
    rw [(FigmaParser.visitEffects_frame node _).2.2.2.2.2.1, FigmaParser.visitRadius_radius,
      hpre]
  · intro hn
    rw [(FigmaParser.visitEffects_frame node _).2.2.2.2.2.1]
    exact FigmaParser.visitRadius_radius_nodup node _ (hpre ▸ hn)

/-- The token set of a tree that consists of one node comes from one visit. -/
theorem FigmaParser.parseFigmaNode_single (props : Figma.NodeProps)
    (kids : Option (List Figma.Node)) (hk : kids = none ∨ kids = some [])
    (ts : FigmaParser.TokenSet)
    (hret : FigmaParser.parseFigmaNode (Figma.Node.mk props kids) = Except.ok ts) :
    ∃ ds, FigmaParser.visit props {} = Except.ok ds ∧ ts.colors = ds.colors ∧
      ts.gradients = ds.gradients ∧ ts.fonts = ds.fonts ∧ ts.typography = ds.typography ∧
      ts.layout = ds.layout ∧ ts.effects = ds.effects ∧ ts.borders = ds.borders := by
  obtain ⟨ds, ht, h1, h2, h3, h4, h5, h6, h7, -⟩ := FigmaParser.parseFigmaNode_ok _ ts hret
  rw [FigmaParser.traverse_single props kids hk] at ht
  exact ⟨ds, ht, h1, h2, h3, h4, h5, h6, h7⟩

/-- C21: in the token set of a tree that consists of one node, `borders.radius` is
exactly `["<r>px"]` when the node has `cornerRadius` `r`; when `cornerRadius` is absent
and `rectangleCornerRadii` is present, it holds no string twice and holds exactly the
strings `<v>px` for the strictly positive values `v` among the corner radii. -/
theorem parseFigmaNode_radius_single (props : Figma.NodeProps)
    (kids : Option (List Figma.Node)) (ts : FigmaParser.TokenSet)
    (hk : kids = none ∨ kids = some [])
    (hret : FigmaParser.parseFigmaNode (Figma.Node.mk props kids) = Except.ok ts) :
    (∀ r, props.cornerRadius = some r →
      ts.borders.radius = [Js.numberToString r ++ "px"]) ∧
    (∀ rs, props.cornerRadius = none → props.rectangleCornerRadii = some rs →
      ts.borders.radius.Nodup ∧
      ∀ s, s ∈ ts.borders.radius ↔ ∃ v ∈ rs, 0 < v ∧ s = Js.numberToString v ++ "px") := by
  obtain ⟨ds, hv, -, -, -, -, -, -, hb⟩ :=
    FigmaParser.parseFigmaNode_single props kids hk ts hret
  obtain ⟨hmem, hnodup⟩ := FigmaParser.visit_radius props {} ds hv
  have hnd : ds.borders.radius.Nodup := hnodup List.nodup_nil
  have hmem' : ∀ s, s ∈ ds.borders.radius ↔ Spec.NodeYieldsRadius props s := fun s =>
    (hmem s).trans ⟨fun h => h.resolve_left (List.not_mem_nil s), Or.inr⟩
  rw [hb]
  constructor
  · intro r hr
    refine Js.eq_singleton_of_nodup _ _ hnd fun s => ?_
    rw [hmem' s]
    constructor
    · rintro (⟨r', hr', hs⟩ | ⟨hnone, -⟩)
      · rw [hr] at hr'
        cases hr'
        exact hs
      · rw [hr] at hnone
        cases hnone
    · intro hs
      exact Or.inl ⟨r, hr, hs⟩
  · intro rs hnone hrs
    refine ⟨hnd, fun s => ?_⟩
    rw [hmem' s]
    constructor
    · rintro (⟨r', hr', -⟩ | ⟨-, rs', hrs', hex⟩)
      · rw [hnone] at hr'
        cases hr'
      · rw [hrs] at hrs'
        cases hrs'
        exact hex
    · intro hex
      exact Or.inr ⟨hnone, rs, hrs, hex⟩

theorem parseFigmaNode_radius_single_witness :
    ((none : Option (List Figma.Node)) = none ∨ (none : Option (List Figma.Node)) = some []) ∧
    FigmaParser.parseFigmaNode Example.cornersNode = Except.ok Example.cornersTokens ∧
    ((∀ r, Example.cornersNode.props.cornerRadius = some r →
      Example.cornersTokens.borders.radius = [Js.numberToString r ++ "px"]) ∧
    (∀ rs, Example.cornersNode.props.cornerRadius = none →
      Example.cornersNode.props.rectangleCornerRadii = some rs →
      Example.cornersTokens.borders.radius.Nodup ∧
      ∀ s, s ∈ Example.cornersTokens.borders.radius ↔
        ∃ v ∈ rs, 0 < v ∧ s = Js.numberToString v ++ "px")) :=
  ⟨Or.inl rfl, by decide!,
    parseFigmaNode_radius_single Example.cornersNode.props none Example.cornersTokens
      (Or.inl rfl) (by decide!)⟩

/-! ## Shadows and blurs -/

theorem FigmaParser.visitEffect_shadows (ds : FigmaParser.DesignSystem)
    (e : Figma.Effect) (s : String) :
    s ∈ (FigmaParser.visitEffect ds e).effects.shadows ↔
      s ∈ ds.effects.shadows ∨ Spec.EffectYieldsShadow e s := by
  unfold FigmaParser.visitEffect Spec.EffectYieldsShadow Spec.shadowString
  by_cases hv : e.visible ≠ some false
  · rw [if_pos hv]
    by_cases ht : e.type = some "DROP_SHADOW" ∨ e.type = some "INNER_SHADOW"
    · rw [if_pos ht]
      dsimp only
      rw [Js.mem_setAdd, Js.orNum_zero, Js.orNum_zero, Js.orNum_zero]
      exact ⟨fun h => h.imp id fun hs => ⟨hv, ht, hs⟩, fun h => h.imp id fun hs => hs.2.2⟩
    · rw [if_neg ht]
      split
      · exact ⟨Or.inl, fun h => h.elim id fun hs => absurd hs.2.1 ht⟩
      · exact ⟨Or.inl, fun h => h.elim id fun hs => absurd hs.2.1 ht⟩
  · rw [if_neg hv]
    exact ⟨Or.inl, fun h => h.elim id fun hs => absurd hs.1 hv⟩

theorem FigmaParser.visitEffect_blurs (ds : FigmaParser.DesignSystem)
    (e : Figma.Effect) (s : String) :
    s ∈ (FigmaParser.visitEffect ds e).effects.blurs ↔
      s ∈ ds.effects.blurs ∨ Spec.EffectYieldsBlur e s := by
  unfold FigmaParser.visitEffect Spec.EffectYieldsBlur
  by_cases hv : e.visible ≠ some false
  · rw [if_pos hv]
    by_cases ht : e.type = some "DROP_SHADOW" ∨ e.type = some "INNER_SHADOW"
    · rw [if_pos ht]
      dsimp only
      refine ⟨Or.inl, fun h => h.elim id ?_⟩
      rintro ⟨-, hb, -⟩
      rcases ht with ht | ht <;> rcases hb with hb | hb <;> rw [ht] at hb <;>
        exact absurd hb (by decide)
    · rw [if_neg ht]
      by_cases hb : e.type = some "LAYER_BLUR" ∨ e.type = some "BACKGROUND_BLUR"
      · rw [if_pos hb]
        show s ∈ Js.setAdd ds.effects.blurs _ ↔ _
        rw [Js.mem_setAdd, Js.orNum_zero]
        exact ⟨fun h => h.imp id fun hs => ⟨hv, hb, hs⟩, fun h => h.imp id fun hs => hs.2.2⟩
      · rw [if_neg hb]
        exact ⟨Or.inl, fun h => h.elim id fun hs => absurd hs.2.1 hb⟩
  · rw [if_neg hv]
    exact ⟨Or.inl, fun h => h.elim id fun hs => absurd hs.1 hv⟩

theorem FigmaParser.visitEffect_nodup (ds : FigmaParser.DesignSystem) (e : Figma.Effect)
    (h : ds.effects.shadows.Nodup ∧ ds.effects.blurs.Nodup) :
    (FigmaParser.visitEffect ds e).effects.shadows.Nodup ∧
      (FigmaParser.visitEffect ds e).effects.blurs.Nodup := by
  unfold FigmaParser.visitEffect
  split
  · split
    · exact ⟨Js.nodup_setAdd _ _ h.1, h.2⟩
    · split
      · exact ⟨h.1, Js.nodup_setAdd _ _ h.2⟩
      · exact h
  · exact h

theorem FigmaParser.visitEffects_effects (node : Figma.NodeProps)
    (ds : FigmaParser.DesignSystem) :
    (∀ s, s ∈ (FigmaParser.visitEffects node ds).effects.shadows ↔
      s ∈ ds.effects.shadows ∨ Spec.NodeYieldsShadow node s) ∧
    (∀ s, s ∈ (FigmaParser.visitEffects node ds).effects.blurs ↔
      s ∈ ds.effects.blurs ∨ Spec.NodeYieldsBlur node s) ∧
    (ds.effects.shadows.Nodup ∧ ds.effects.blurs.Nodup →
      (FigmaParser.visitEffects node ds).effects.shadows.Nodup ∧
        (FigmaParser.visitEffects node ds).effects.blurs.Nodup) := by
  unfold FigmaParser.visitEffects Spec.NodeYieldsShadow Spec.NodeYieldsBlur
  rcases node.effects with _ | es
  · exact ⟨fun s => ⟨Or.inl, fun h => h.elim id fun ⟨_, h, _⟩ => (by cases h)⟩,
      fun s => ⟨Or.inl, fun h => h.elim id fun ⟨_, h, _⟩ => (by cases h)⟩, id⟩
  · dsimp only
    refine ⟨fun s => ?_, fun s => ?_, ?_⟩
    · rw [Js.foldl_mem FigmaParser.visitEffect
        (fun d : FigmaParser.DesignSystem => d.effects.shadows) Spec.EffectYieldsShadow
        FigmaParser.visitEffect_shadows es ds s]
      constructor
      · exact fun h => h.imp id fun hex => ⟨es, rfl, hex⟩
      · rintro (h | ⟨_, hes, hex⟩)
        · exact Or.inl h
        · cases hes
          exact Or.inr hex
    · rw [Js.foldl_mem FigmaParser.visitEffect
        (fun d : FigmaParser.DesignSystem => d.effects.blurs) Spec.EffectYieldsBlur
        FigmaParser.visitEffect_blurs es ds s]
      constructor
      · exact fun h => h.imp id fun hex => ⟨es, rfl, hex⟩
      · rintro (h | ⟨_, hes, hex⟩)
        · exact Or.inl h
        · cases hes
          exact Or.inr hex
    · exact Js.foldl_invariant FigmaParser.visitEffect
        (fun d : FigmaParser.DesignSystem => d.effects.shadows.Nodup ∧ d.effects.blurs.Nodup)
        FigmaParser.visitEffect_nodup es ds

theorem FigmaParser.visit_effects (node : Figma.NodeProps) (ds ds' : FigmaParser.DesignSystem)
    (h : FigmaParser.visit node ds = Except.ok ds') :
    (∀ s, s ∈ ds'.effects.shadows ↔ s ∈ ds.effects.shadows ∨ Spec.NodeYieldsShadow node s) ∧
    (∀ s, s ∈ ds'.effects.blurs ↔ s ∈ ds.effects.blurs ∨ Spec.NodeYieldsBlur node s) ∧
    (ds.effects.shadows.Nodup ∧ ds.effects.blurs.Nodup →
      ds'.effects.shadows.Nodup ∧ ds'.effects.blurs.Nodup) := by
  obtain ⟨ds₁, hf, rfl⟩ := FigmaParser.visit_ok node ds ds' h
  have hpre : (FigmaParser.visitRadius node (FigmaParser.visitLayout node
      (FigmaParser.visitStyle node (FigmaParser.visitStrokes node ds₁)))).effects =
      ds.effects := by
    rw [(FigmaParser.visitRadius_frame node _).2.2.2.2.2.1,
      (FigmaParser.visitLayout_frame node _).2.2.2.2.1,
      (FigmaParser.visitStyle_frame node _).2.2.2.1,
      (FigmaParser.visitStrokes_frame node _).2.2.2.2.1,
      (FigmaParser.visitFills_frame node ds ds₁ hf).2.2.2.1]
  have key := FigmaParser.visitEffects_effects node (FigmaParser.visitRadius node
    (FigmaParser.visitLayout node (FigmaParser.visitStyle node
      (FigmaParser.visitStrokes node ds₁))))
  rw [hpre] at key
  exact key

/-- C22: in the token set of a tree that consists of one node, `effects.shadows` holds
no string twice and holds exactly the strings `<offsetX>px <offsetY>px <radius>px
<hexColor>` of the node's visible DROP_SHADOW and INNER_SHADOW effects (an absent
offset component or radius as 0, an absent colour as `#000000`); `effects.blurs` holds
no string twice and holds exactly the strings `<radius>px` of its visible LAYER_BLUR
and BACKGROUND_BLUR effects; an effect with `visible = false` contributes to neither. -/
theorem parseFigmaNode_effects_single (props : Figma.NodeProps)
    (kids : Option (List Figma.Node)) (ts : FigmaParser.TokenSet)
    (hk : kids = none ∨ kids = some [])
    (hret : FigmaParser.parseFigmaNode (Figma.Node.mk props kids) = Except.ok ts) :
    (∀ s, s ∈ ts.effects.shadows ↔
      ∃ es, props.effects = some es ∧ ∃ e ∈ es, e.visible ≠ some false ∧
        (e.type = some "DROP_SHADOW" ∨ e.type = some "INNER_SHADOW") ∧
        s = Spec.shadowString e) ∧
    ts.effects.shadows.Nodup ∧
    (∀ s, s ∈ ts.effects.blurs ↔
      ∃ es, props.effects = some es ∧ ∃ e ∈ es, e.visible ≠ some false ∧
        (e.type = some "LAYER_BLUR" ∨ e.type = some "BACKGROUND_BLUR") ∧
        s = Js.numberToString (e.radius.getD 0) ++ "px") ∧
    ts.effects.blurs.Nodup := by
  obtain ⟨ds, hv, -, -, -, -, -, he, -⟩ :=
    FigmaParser.parseFigmaNode_single props kids hk ts hret
  obtain ⟨hs, hb, hn⟩ := FigmaParser.visit_effects props {} ds hv
  obtain ⟨hn1, hn2⟩ := hn ⟨List.nodup_nil, List.nodup_nil⟩
  rw [he]
  exact ⟨fun s => (hs s).trans ⟨fun h => h.resolve_left (List.not_mem_nil s), Or.inr⟩, hn1,
    fun s => (hb s).trans ⟨fun h => h.resolve_left (List.not_mem_nil s), Or.inr⟩, hn2⟩

theorem parseFigmaNode_effects_single_witness :
    ((none : Option (List Figma.Node)) = none ∨ (none : Option (List Figma.Node)) = some []) ∧
    FigmaParser.parseFigmaNode Example.shadowNode = Except.ok Example.shadowTokens ∧
    ((∀ s, s ∈ Example.shadowTokens.effects.shadows ↔
      ∃ es, Example.shadowNode.props.effects = some es ∧ ∃ e ∈ es, e.visible ≠ some false ∧
        (e.type = some "DROP_SHADOW" ∨ e.type = some "INNER_SHADOW") ∧
        s = Spec.shadowString e) ∧
    Example.shadowTokens.effects.shadows.Nodup ∧
    (∀ s, s ∈ Example.shadowTokens.effects.blurs ↔
      ∃ es, Example.shadowNode.props.effects = some es ∧ ∃ e ∈ es, e.visible ≠ some false ∧
        (e.type = some "LAYER_BLUR" ∨ e.type = some "BACKGROUND_BLUR") ∧
        s = Js.numberToString (e.radius.getD 0) ++ "px") ∧
    Example.shadowTokens.effects.blurs.Nodup) :=
  ⟨Or.inl rfl, by decide!,
    parseFigmaNode_effects_single Example.shadowNode.props none Example.shadowTokens
      (Or.inl rfl) (by decide!)⟩

/-! ## Gradients -/

theorem Js.setAdd_idem {α : Type} [DecidableEq α] (s : List α) (x : α) :
    Js.setAdd (Js.setAdd s x) x = Js.setAdd s x := by
  have hx : x ∈ Js.setAdd s x := (Js.mem_setAdd s x x).mpr (Or.inr rfl)
  exact if_pos hx

theorem FigmaParser.mapE_stopToHex_stopsOf (cs : List Figma.Color) :
    Js.mapE FigmaParser.stopToHex (Spec.stopsOf cs) =
      Except.ok (cs.map fun c => FigmaParser.rgbToHex c.r c.g c.b) := by
  induction cs with
  | nil => rfl
  | cons c cs ih =>
    show Js.mapE FigmaParser.stopToHex ({ color := some c } :: Spec.stopsOf cs) = _
    rw [Js.mapE, ih]
    rfl

/-- One fill, when every visible gradient carries the stop colours `cs`: the step
returns, and it adds the descriptor of `cs` exactly when the fill is a visible
gradient. -/
theorem FigmaParser.visitFill_gradient (ds : FigmaParser.DesignSystem) (f : Figma.Paint)
    (cs : List Figma.Color)
    (hf : f.visible ≠ some false → Spec.IsGradient f →
      f.gradientStops = some (Spec.stopsOf cs)) :
    ∃ ds', FigmaParser.visitFill ds f = Except.ok ds' ∧
      ((f.visible ≠ some false ∧ Spec.IsGradient f) →
        ds'.gradients = Js.setAdd ds.gradients (Spec.gradientDescriptor cs)) ∧
      (¬ (f.visible ≠ some false ∧ Spec.IsGradient f) → ds'.gradients = ds.gradients) := by
  unfold FigmaParser.visitFill
  by_cases hv : f.visible ≠ some false
  · rw [if_pos hv]
    by_cases hs : f.type = some "SOLID" ∧ f.color.isSome = true
    · rw [if_pos hs]
      have hng : ¬ (f.visible ≠ some false ∧ Spec.IsGradient f) := by
        rintro ⟨-, hg | hg⟩
        · rw [hs.1] at hg
          exact absurd hg (by decide)
        · rw [hs.1] at hg
          exact absurd hg (by decide)
      rcases f.color with _ | c
      · exact ⟨ds, rfl, fun h => absurd h hng, fun _ => rfl⟩
      · exact ⟨_, rfl, fun h => absurd h hng, fun _ => rfl⟩
    · rw [if_neg hs]
      by_cases hg : f.type = some "GRADIENT_LINEAR" ∨ f.type = some "GRADIENT_RADIAL"
      · rw [if_pos hg, hf hv hg]
        dsimp only
        rw [FigmaParser.mapE_stopToHex_stopsOf]
        exact ⟨_, rfl, fun _ => rfl, fun h => absurd ⟨hv, hg⟩ h⟩
      · rw [if_neg hg]
        exact ⟨ds, rfl, fun h => absurd h.2 hg, fun _ => rfl⟩
  · rw [if_neg hv]
    exact ⟨ds, rfl, fun h => absurd h.1 hv, fun _ => rfl⟩

theorem FigmaParser.foldlM_visitFill_gradient (cs : List Figma.Color) :
    ∀ (fills : List Figma.Paint) (ds : FigmaParser.DesignSystem),
      (∀ f ∈ fills, f.visible ≠ some false → Spec.IsGradient f →
        f.gradientStops = some (Spec.stopsOf cs)) →
      ∃ ds', fills.foldlM FigmaParser.visitFill ds = Except.ok ds' ∧
        ((∃ f ∈ fills, f.visible ≠ some false ∧ Spec.IsGradient f) →
          ds'.gradients = Js.setAdd ds.gradients (Spec.gradientDescriptor cs)) ∧
        ((¬ ∃ f ∈ fills, f.visible ≠ some false ∧ Spec.IsGradient f) →
          ds'.gradients = ds.gradients) := by
  intro fills
  induction fills with
  | nil =>
    intro ds _
    exact ⟨ds, rfl, fun ⟨_, h, _⟩ => (by cases h), fun _ => rfl⟩
  | cons f fs ih =>
    intro ds hall
    obtain ⟨ds₁, h₁, hyes₁, hno₁⟩ :=
      FigmaParser.visitFill_gradient ds f cs (hall f (List.mem_cons_self _ _))
    obtain ⟨ds₂, h₂, hyes₂, hno₂⟩ := ih ds₁ fun g hg => hall g (List.mem_cons_of_mem _ hg)
    refine ⟨ds₂, ?_, ?_, ?_⟩
    · rw [List.foldlM_cons, h₁]
      exact h₂
    · rintro ⟨g, hg, hgood⟩
      by_cases hrest : ∃ f ∈ fs, f.visible ≠ some false ∧ Spec.IsGradient f
      · rw [hyes₂ hrest]
        by_cases hhead : f.visible ≠ some false ∧ Spec.IsGradient f
        · rw [hyes₁ hhead, Js.setAdd_idem]
        · rw [hno₁ hhead]
      · rw [hno₂ hrest]
        rcases List.mem_cons.mp hg with hg | hg
        · exact hyes₁ (hg ▸ hgood)
        · exact absurd ⟨g, hg, hgood⟩ hrest
    · intro hnone
      rw [hno₂ fun ⟨g, hg, hgood⟩ => hnone ⟨g, List.mem_cons_of_mem _ hg, hgood⟩,
        hno₁ fun hhead => hnone ⟨f, List.mem_cons_self _ _, hhead⟩]

/-- C23: for a tree that consists of one node whose visible gradient fills (of type
GRADIENT_LINEAR or GRADIENT_RADIAL; at least one) all carry the same stop colours
`c1, ..., cn`, `parseFigmaNode` returns and `gradients` is exactly the one descriptor
`rgbToHex(c1), ..., rgbToHex(cn)` in stop order joined by the separator, however often
the gradient repeats in the fill list; the stops red, blue, repeated twice, give the
one string that has "#FF0000" before "#0000FF". -/
theorem parseFigmaNode_gradient_once (props : Figma.NodeProps)
    (kids : Option (List Figma.Node)) (fills : List Figma.Paint) (cs : List Figma.Color)
    (hk : kids = none ∨ kids = some [])
    (hfills : props.fills = some fills)
    (hsome : ∃ f ∈ fills, f.visible ≠ some false ∧ Spec.IsGradient f)
    (hsame : ∀ f ∈ fills, f.visible ≠ some false → Spec.IsGradient f →
      f.gradientStops = some (Spec.stopsOf cs)) :
    (∃ ts, FigmaParser.parseFigmaNode (Figma.Node.mk props kids) = Except.ok ts ∧
      ts.gradients = [Spec.gradientDescriptor cs]) ∧
    (FigmaParser.parseFigmaNode Example.gradientNode).map (fun ts => ts.gradients) =
      Except.ok ["#FF0000" ++ FigmaParser.gradientSeparator ++ "#0000FF"] := by
  refine ⟨?_, by decide!⟩
  obtain ⟨ds₁, hfold, hyes, -⟩ := FigmaParser.foldlM_visitFill_gradient cs fills {} hsame
  have hvf : FigmaParser.visitFills props {} = Except.ok ds₁ := by
    unfold FigmaParser.visitFills
    rw [hfills]
    exact hfold
  have hvisit : FigmaParser.visit props {} = Except.ok
      (FigmaParser.visitEffects props (FigmaParser.visitRadius props
        (FigmaParser.visitLayout props (FigmaParser.visitStyle props
          (FigmaParser.visitStrokes props ds₁))))) := by
    unfold FigmaParser.visit
    rw [hvf]
    rfl
  have hgrad : (FigmaParser.visitEffects props (FigmaParser.visitRadius props
      (FigmaParser.visitLayout props (FigmaParser.visitStyle props
        (FigmaParser.visitStrokes props ds₁))))).gradients = [Spec.gradientDescriptor cs] := by
    rw [(FigmaParser.visitEffects_frame props _).2.1,
      (FigmaParser.visitRadius_frame props _).2.1,
      (FigmaParser.visitLayout_frame props _).2.1,
      (FigmaParser.visitStyle_frame props _).2.1,
      (FigmaParser.visitStrokes_frame props _).1, hyes hsome]
    rfl
  unfold FigmaParser.parseFigmaNode
  rw [FigmaParser.traverse_single props kids hk, hvisit]
  exact ⟨_, rfl, hgrad⟩

theorem parseFigmaNode_gradient_once_witness :
    ((none : Option (List Figma.Node)) = none ∨ (none : Option (List Figma.Node)) = some []) ∧
    Example.gradientNode.props.fills =
      some [Example.redBlueGradient, { type := some "SOLID", color := some ⟨1, 1, 1⟩ },
        Example.redBlueGradient] ∧
    ((∃ ts, FigmaParser.parseFigmaNode Example.gradientNode = Except.ok ts ∧
      ts.gradients = [Spec.gradientDescriptor [⟨1, 0, 0⟩, ⟨0, 0, 1⟩]]) ∧
    (FigmaParser.parseFigmaNode Example.gradientNode).map (fun ts => ts.gradients) =
      Except.ok ["#FF0000" ++ FigmaParser.gradientSeparator ++ "#0000FF"]) :=
  ⟨Or.inl rfl, rfl,
    parseFigmaNode_gradient_once Example.gradientNode.props none
      [Example.redBlueGradient, { type := some "SOLID", color := some ⟨1, 1, 1⟩ },
        Example.redBlueGradient] [⟨1, 0, 0⟩, ⟨0, 0, 1⟩] (Or.inl rfl) rfl
      ⟨Example.redBlueGradient, List.mem_cons_self _ _, by decide, Or.inl rfl⟩
      (by
        intro f hf _ hg
        simp only [List.mem_cons, List.mem_singleton, List.not_mem_nil, or_false] at hf
        rcases hf with rfl | rfl | rfl
        · rfl
        · rcases hg with hg | hg <;> exact absurd hg (by decide)
        · rfl)⟩

/-! ## Fonts and size buckets -/

theorem Spec.sizeClass_eq (fontSize : Option ℚ) :
    Spec.sizeClass fontSize =
      if FigmaParser.sizeGe fontSize 32 = true then Spec.SizeClass.headings
      else if FigmaParser.sizeGe fontSize 14 = true then Spec.SizeClass.body
      else Spec.SizeClass.captions := by
  unfold Spec.sizeClass FigmaParser.sizeGe
  rcases fontSize with _ | s
  · rfl
  · dsimp only
    by_cases h32 : 32 ≤ s
    · have d32 : decide (s ≥ 32) = true := decide_eq_true h32
      rw [if_pos h32, if_pos d32]
    · have d32 : ¬ decide (s ≥ 32) = true := fun h => h32 (of_decide_eq_true h)
      rw [if_neg h32, if_neg d32]
      by_cases h14 : 14 ≤ s
      · have d14 : decide (s ≥ 14) = true := decide_eq_true h14
        rw [if_pos h14, if_pos d14]
      · have d14 : ¬ decide (s ≥ 14) = true := fun h => h14 (of_decide_eq_true h)
        rw [if_neg h14, if_neg d14]

theorem FigmaParser.visitStyle_fonts (node : Figma.NodeProps)
    (ds : FigmaParser.DesignSystem) (s : String) :
    s ∈ (FigmaParser.visitStyle node ds).fonts ↔
      s ∈ ds.fonts ∨ Spec.NodeYieldsFont node s := by
  unfold FigmaParser.visitStyle Spec.NodeYieldsFont
  rcases node.style with _ | st
  · exact ⟨Or.inl, fun h => h.elim id fun ⟨_, _, h, _⟩ => (by cases h)⟩
  · dsimp only
    rcases hf : st.fontFamily with _ | f
    · dsimp only
      refine ⟨Or.inl, fun h => h.elim id ?_⟩
      rintro ⟨st', f', hst', hf', -⟩
      cases hst'
      rw [hf] at hf'
      cases hf'
    · dsimp only
      by_cases hne : f ≠ ""
      · rw [if_pos hne]
        have hfont : s ∈ Js.setAdd ds.fonts (FigmaParser.fontInfo f st) ↔
            s ∈ ds.fonts ∨ ∃ st' f', some st = some st' ∧ st'.fontFamily = some f' ∧
              f' ≠ "" ∧ s = FigmaParser.fontInfo f' st' := by
          rw [Js.mem_setAdd]
          constructor
          · exact fun h => h.imp id fun hs => ⟨st, f, rfl, hf, hne, hs⟩
          · rintro (h | ⟨st', f', hst', hf', -, hs⟩)
            · exact Or.inl h
            · cases hst'
              rw [hf] at hf'
              cases hf'
              exact Or.inr hs
        split
        · exact hfont
        · split
          · exact hfont
          · exact hfont
      · rw [if_neg hne]
        refine ⟨Or.inl, fun h => h.elim id ?_⟩
        rintro ⟨st', f', hst', hf', hne', -⟩
        cases hst'
        rw [hf] at hf'
        cases hf'
        exact absurd hne' hne

theorem FigmaParser.visitStyle_bucket (node : Figma.NodeProps)
    (ds : FigmaParser.DesignSystem) (k : Spec.SizeClass) (s : String) :
    s ∈ Spec.bucket (FigmaParser.visitStyle node ds).typography k ↔
      s ∈ Spec.bucket ds.typography k ∨ Spec.NodeYieldsBucket node k s := by
  unfold FigmaParser.visitStyle Spec.NodeYieldsBucket
  rcases node.style with _ | st
  · exact ⟨Or.inl, fun h => h.elim id fun ⟨_, _, h, _⟩ => (by cases h)⟩
  · dsimp only
    rcases hf : st.fontFamily with _ | f
    · dsimp only
      refine ⟨Or.inl, fun h => h.elim id ?_⟩
      rintro ⟨st', f', hst', hf', -⟩
      cases hst'
      rw [hf] at hf'
      cases hf'
    · dsimp only
      by_cases hne : f ≠ ""
      · rw [if_pos hne]
        have hR : (∃ st' f', some st = some st' ∧ st'.fontFamily = some f' ∧ f' ≠ "" ∧
            s = FigmaParser.fontInfo f' st' ∧ Spec.sizeClass st'.fontSize = k) ↔
            (s = FigmaParser.fontInfo f st ∧ Spec.sizeClass st.fontSize = k) := by
          constructor
          · rintro ⟨st', f', hst', hf', -, hs, hk⟩
            cases hst'
            rw [hf] at hf'
            cases hf'
            exact ⟨hs, hk⟩
          · rintro ⟨hs, hk⟩
            exact ⟨st, f, rfl, hf, hne, hs, hk⟩
        rw [hR, Spec.sizeClass_eq]
        by_cases h32 : FigmaParser.sizeGe st.fontSize 32 = true
        · rw [if_pos h32, if_pos h32]
          cases k
          · show s ∈ Js.setAdd ds.typography.headings _ ↔ _
            rw [Js.mem_setAdd]
            simp [Spec.bucket]
          · show s ∈ ds.typography.body ↔ _
            simp [Spec.bucket]
          · show s ∈ ds.typography.captions ↔ _
            simp [Spec.bucket]
        · rw [if_neg h32, if_neg h32]
          by_cases h14 : FigmaParser.sizeGe st.fontSize 14 = true
          · rw [if_pos h14, if_pos h14]
            cases k
            · show s ∈ ds.typography.headings ↔ _
              simp [Spec.bucket]
            · show s ∈ Js.setAdd ds.typography.body _ ↔ _
              rw [Js.mem_setAdd]
              simp [Spec.bucket]
            · show s ∈ ds.typography.captions ↔ _
              simp [Spec.bucket]
          · rw [if_neg h14, if_neg h14]
            cases k
            · show s ∈ ds.typography.headings ↔ _
              simp [Spec.bucket]
            · show s ∈ ds.typography.body ↔ _
              simp [Spec.bucket]
            · show s ∈ Js.setAdd ds.typography.captions _ ↔ _
              rw [Js.mem_setAdd]
              simp [Spec.bucket]
      · rw [if_neg hne]
        refine ⟨Or.inl, fun h => h.elim id ?_⟩
        rintro ⟨st', f', hst', hf', hne', -⟩
        cases hst'
        rw [hf] at hf'
        cases hf'
        exact absurd hne' hne

theorem FigmaParser.visit_fonts (node : Figma.NodeProps) (ds ds' : FigmaParser.DesignSystem)
    (h : FigmaParser.visit node ds = Except.ok ds') (s : String) :
    s ∈ ds'.fonts ↔ s ∈ ds.fonts ∨ Spec.NodeYieldsFont node s := by
  obtain ⟨ds₁, hf, rfl⟩ := FigmaParser.visit_ok node ds ds' h
  rw [(FigmaParser.visitEffects_frame node _).2.2.1,
    (FigmaParser.visitRadius_frame node _).2.2.1,
    (FigmaParser.visitLayout_frame node _).2.2.1, FigmaParser.visitStyle_fonts,
    (FigmaParser.visitStrokes_frame node _).2.1,
    (FigmaParser.visitFills_frame node ds ds₁ hf).1]

theorem FigmaParser.visit_bucket (node : Figma.NodeProps) (ds ds' : FigmaParser.DesignSystem)
    (h : FigmaParser.visit node ds = Except.ok ds') (k : Spec.SizeClass) (s : String) :
    s ∈ Spec.bucket ds'.typography k ↔
      s ∈ Spec.bucket ds.typography k ∨ Spec.NodeYieldsBucket node k s := by
  rw [FigmaParser.visit_typography node ds ds' h, FigmaParser.visitStyle_bucket]

/-- Across a returned traversal, `fonts` and the three buckets gain exactly what the
nodes with a non-empty font family yield. -/
theorem FigmaParser.traverse_fonts (t : Figma.Node) (ds ds' : FigmaParser.DesignSystem)
    (h : FigmaParser.traverse t ds = Except.ok ds') :
    (∀ s, s ∈ ds'.fonts ↔
      s ∈ ds.fonts ∨ ∃ n ∈ Figma.Node.preorder t, Spec.NodeYieldsFont n.props s) ∧
    (∀ k s, s ∈ Spec.bucket ds'.typography k ↔
      s ∈ Spec.bucket ds.typography k ∨
        ∃ n ∈ Figma.Node.preorder t, Spec.NodeYieldsBucket n.props k s) := by
  rw [FigmaParser.traverse_eq_foldlM] at h
  exact ⟨Js.foldlM_ok_mem
      (fun (ds : FigmaParser.DesignSystem) (n : Figma.Node) => FigmaParser.visit n.props ds)
      (fun d => d.fonts) (fun (n : Figma.Node) x => Spec.NodeYieldsFont n.props x)
      (fun d a d' hs => FigmaParser.visit_fonts a.props d d' hs) _ ds ds' h,
    fun k => Js.foldlM_ok_mem
      (fun (ds : FigmaParser.DesignSystem) (n : Figma.Node) => FigmaParser.visit n.props ds)
      (fun d => Spec.bucket d.typography k)
      (fun (n : Figma.Node) x => Spec.NodeYieldsBucket n.props k x)
      (fun d a d' hs => FigmaParser.visit_bucket a.props d d' hs k) _ ds ds' h⟩

theorem FigmaParser.parseFigmaNode_buckets (t : Figma.Node) (ts : FigmaParser.TokenSet)
    (hret : FigmaParser.parseFigmaNode t = Except.ok ts) :
    (∀ s, s ∈ ts.fonts ↔ ∃ n ∈ Figma.Node.preorder t, Spec.NodeYieldsFont n.props s) ∧
    (∀ k s, s ∈ Spec.bucket ts.typography k ↔
      ∃ n ∈ Figma.Node.preorder t, Spec.NodeYieldsBucket n.props k s) := by
  obtain ⟨ds, ht, -, -, hfonts, hty, -⟩ := FigmaParser.parseFigmaNode_ok t ts hret
  obtain ⟨h1, h2⟩ := FigmaParser.traverse_fonts t {} ds ht
  rw [hfonts, hty]
  exact ⟨fun s => (h1 s).trans ⟨fun h => h.resolve_left (List.not_mem_nil s), Or.inr⟩,
    fun k s => (h2 k s).trans
      ⟨fun h => h.resolve_left (by cases k <;> exact List.not_mem_nil s), Or.inr⟩⟩

/-- C24, as stated, fails: a node whose style block has a size and no font family
yields no descriptor: the token set of `familylessNode` has empty `fonts` and empty
buckets, because the descriptor is built inside the guard on `fontFamily`. -/
theorem parseFigmaNode_skips_familyless_style :
    Example.familylessNode.props.style = some { fontSize := some 16 } ∧
    FigmaParser.parseFigmaNode Example.familylessNode = Except.ok Example.emptyTokens ∧
    Example.emptyTokens.fonts = [] ∧ Example.emptyTokens.typography = {} :=
  ⟨rfl, by decide, rfl, rfl⟩

/-- C24, amended: on a tree for which `parseFigmaNode` returns, a string is in `fonts`
exactly when it is the descriptor of some node whose style block has a non-empty
`fontFamily`, and it is in a size bucket exactly when it is the descriptor of such a
node whose font size falls in that bucket; a style block without `fontFamily`
contributes nothing. -/
theorem parseFigmaNode_fonts (t : Figma.Node) (ts : FigmaParser.TokenSet)
    (hret : FigmaParser.parseFigmaNode t = Except.ok ts) :
    (∀ s, s ∈ ts.fonts ↔
      ∃ n ∈ Figma.Node.preorder t, ∃ st f, n.props.style = some st ∧
        st.fontFamily = some f ∧ f ≠ "" ∧ s = FigmaParser.fontInfo f st) ∧
    (∀ k s, s ∈ Spec.bucket ts.typography k ↔
      ∃ n ∈ Figma.Node.preorder t, ∃ st f, n.props.style = some st ∧
        st.fontFamily = some f ∧ f ≠ "" ∧ s = FigmaParser.fontInfo f st ∧
        Spec.sizeClass st.fontSize = k) :=
  FigmaParser.parseFigmaNode_buckets t ts hret

theorem parseFigmaNode_fonts_witness :
    FigmaParser.parseFigmaNode (Example.textNode 20) = Except.ok Example.textTokens ∧
    ((∀ s, s ∈ Example.textTokens.fonts ↔
      ∃ n ∈ Figma.Node.preorder (Example.textNode 20), ∃ st f, n.props.style = some st ∧
        st.fontFamily = some f ∧ f ≠ "" ∧ s = FigmaParser.fontInfo f st) ∧
    (∀ k s, s ∈ Spec.bucket Example.textTokens.typography k ↔
      ∃ n ∈ Figma.Node.preorder (Example.textNode 20), ∃ st f, n.props.style = some st ∧
        st.fontFamily = some f ∧ f ≠ "" ∧ s = FigmaParser.fontInfo f st ∧
        Spec.sizeClass st.fontSize = k)) :=
  ⟨by decide!, parseFigmaNode_fonts (Example.textNode 20) Example.textTokens (by decide!)⟩

/-- C27, as stated, fails: in `clashTree` a text of size 40 and a text of size 10
render the same descriptor, because the alignment string of the one and the family
string of the other contain the field separators; that string is in `headings` and in
`captions`. -/
theorem parseFigmaNode_buckets_can_overlap :
    (FigmaParser.parseFigmaNode Example.clashTree).map (fun ts => ts.typography) =
      Except.ok { headings := [Example.clashDescriptor], body := [],
                  captions := [Example.clashDescriptor] } ∧
    ¬ Spec.BucketsDisjoint { headings := [Example.clashDescriptor], body := [],
                             captions := [Example.clashDescriptor] } := by
  refine ⟨by decide!, fun h => ?_⟩
  exact (h Example.clashDescriptor).2.1 ⟨List.mem_singleton_self _, List.mem_singleton_self _⟩

/-- C27, amended: on a tree for which `parseFigmaNode` returns, the three typography
buckets are pairwise disjoint exactly when no two nodes whose sizes fall in different
buckets render the same descriptor string. -/
theorem parseFigmaNode_buckets_disjoint_iff (t : Figma.Node) (ts : FigmaParser.TokenSet)
    (hret : FigmaParser.parseFigmaNode t = Except.ok ts) :
    (∀ s, ¬ (s ∈ ts.typography.headings ∧ s ∈ ts.typography.body) ∧
      ¬ (s ∈ ts.typography.headings ∧ s ∈ ts.typography.captions) ∧
      ¬ (s ∈ ts.typography.body ∧ s ∈ ts.typography.captions)) ↔
    Spec.DescriptorFixesBucket t := by
  obtain ⟨-, hb⟩ := FigmaParser.parseFigmaNode_buckets t ts hret
  constructor
  · intro hdis n hn m hm s k k' hk hk'
    have h1 := (hb k s).mpr ⟨n, hn, hk⟩
    have h2 := (hb k' s).mpr ⟨m, hm, hk'⟩
    obtain ⟨d1, d2, d3⟩ := hdis s
    cases k <;> cases k'
    · rfl
    · exact absurd ⟨h1, h2⟩ d1
    · exact absurd ⟨h1, h2⟩ d2
    · exact absurd ⟨h2, h1⟩ d1
    · rfl
    · exact absurd ⟨h1, h2⟩ d3
    · exact absurd ⟨h2, h1⟩ d2
    · exact absurd ⟨h2, h1⟩ d3
    · rfl
  · intro hfix s
    have key : ∀ k k', s ∈ Spec.bucket ts.typography k → s ∈ Spec.bucket ts.typography k' →
        k = k' := by
      intro k k' h1 h2
      obtain ⟨n, hn, hk⟩ := (hb k s).mp h1
      obtain ⟨m, hm, hk'⟩ := (hb k' s).mp h2
      exact hfix n hn m hm s k k' hk hk'
    refine ⟨fun h => ?_, fun h => ?_, fun h => ?_⟩
    · exact absurd (key .headings .body h.1 h.2) (by decide)
    · exact absurd (key .headings .captions h.1 h.2) (by decide)
    · exact absurd (key .body .captions h.1 h.2) (by decide)

theorem parseFigmaNode_buckets_disjoint_iff_witness :
    FigmaParser.parseFigmaNode (Example.textNode 20) = Except.ok Example.textTokens ∧
    ((∀ s, ¬ (s ∈ Example.textTokens.typography.headings ∧
        s ∈ Example.textTokens.typography.body) ∧
      ¬ (s ∈ Example.textTokens.typography.headings ∧
        s ∈ Example.textTokens.typography.captions) ∧
      ¬ (s ∈ Example.textTokens.typography.body ∧
        s ∈ Example.textTokens.typography.captions)) ↔
    Spec.DescriptorFixesBucket (Example.textNode 20)) :=
  ⟨by decide!, parseFigmaNode_buckets_disjoint_iff (Example.textNode 20) Example.textTokens
    (by decide!)⟩

/-! ## Pre-order listings under reordering -/

theorem Figma.Node.preorderList_perm (l l' : List Figma.Node) (h : l.Perm l') :
    (Figma.Node.preorderList l).Perm (Figma.Node.preorderList l') := by
  induction h with
  | nil => exact List.Perm.refl _
  | cons x _ ih =>
    rw [Figma.Node.preorderList, Figma.Node.preorderList]
    exact List.Perm.append_left _ ih
  | swap x y l =>
    rw [Figma.Node.preorderList, Figma.Node.preorderList, Figma.Node.preorderList,
      Figma.Node.preorderList, ← List.append_assoc, ← List.append_assoc]
    exact List.Perm.append_right _ List.perm_append_comm
  | trans _ _ ih₁ ih₂ => exact ih₁.trans ih₂

theorem Spec.reordered_props_perm (t : Figma.Node) :
    ∀ t', Spec.Reordered t t' →
      ((Figma.Node.preorder t').map Figma.Node.props).Perm
        ((Figma.Node.preorder t).map Figma.Node.props) := by
  induction t using Figma.Node.induct with
  | step props kids ih =>
    intro t' h
    cases h with
    | absent => exact List.Perm.refl _
    | present _ l l₁ l₂ hF hP =>
      rw [Figma.Node.preorder, Figma.Node.preorder, Figma.Node.preorderKids,
        Figma.Node.preorderKids, List.map_cons, List.map_cons]
      refine List.Perm.cons _ ?_
      have h₁ : ((Figma.Node.preorderList l₂).map Figma.Node.props).Perm
          ((Figma.Node.preorderList l₁).map Figma.Node.props) :=
        (Figma.Node.preorderList_perm l₁ l₂ hP).symm.map _
      refine h₁.trans ?_
      have ih' := ih l rfl
      clear hP h₁ ih
      induction hF with
      | nil => exact List.Perm.refl _
      | cons hab _ ihF =>
        rw [Figma.Node.preorderList, Figma.Node.preorderList, List.map_append,
          List.map_append]
        exact List.Perm.append (ih' _ (List.mem_cons_self _ _) _ hab)
          (ihF fun c hc => ih' c (List.mem_cons_of_mem _ hc))

/-- Every tree is a reordering of itself. -/
theorem Spec.reordered_refl (t : Figma.Node) : Spec.Reordered t t := by
  induction t using Figma.Node.induct with
  | step props kids ih =>
    rcases kids with _ | l
    · exact Spec.Reordered.absent props
    · have ih' := ih l rfl
      clear ih
      refine Spec.Reordered.present props l l l ?_ (List.Perm.refl l)
      induction l with
      | nil => exact List.Forall₂.nil
      | cons c cs ihl =>
        exact List.Forall₂.cons (ih' c (List.mem_cons_self _ _))
          (ihl fun d hd => ih' d (List.mem_cons_of_mem _ hd))

/-- Rearranging the children of the root is a reordering. -/
theorem Spec.reordered_of_perm (props : Figma.NodeProps) (l l' : List Figma.Node)
    (h : l.Perm l') :
    Spec.Reordered (Figma.Node.mk props (some l)) (Figma.Node.mk props (some l')) := by
  refine Spec.Reordered.present props l l l' ?_ h
  clear h
  induction l with
  | nil => exact List.Forall₂.nil
  | cons c cs ihl => exact List.Forall₂.cons (Spec.reordered_refl c) ihl

theorem Spec.reordered_exists_iff (t t' : Figma.Node) (h : Spec.Reordered t t')
    (P : Figma.NodeProps → Prop) :
    (∃ n ∈ Figma.Node.preorder t', P n.props) ↔ ∃ n ∈ Figma.Node.preorder t, P n.props := by
  have hperm := Spec.reordered_props_perm t t' h
  constructor
  · rintro ⟨n, hn, hP⟩
    obtain ⟨m, hm, hmp⟩ := List.mem_map.mp (hperm.mem_iff.mp (List.mem_map_of_mem _ hn))
    exact ⟨m, hm, hmp ▸ hP⟩
  · rintro ⟨n, hn, hP⟩
    obtain ⟨m, hm, hmp⟩ := List.mem_map.mp (hperm.mem_iff.mpr (List.mem_map_of_mem _ hn))
    exact ⟨m, hm, hmp ▸ hP⟩

/-! ## Spacing values -/

theorem Js.mem_foldl_setAdd {α : Type} [DecidableEq α] (xs : List α) :
    ∀ (s : List α) (v : α), v ∈ xs.foldl Js.setAdd s ↔ v ∈ s ∨ v ∈ xs := by
  induction xs with
  | nil =>
    intro s v
    simp
  | cons x xs ih =>
    intro s v
    rw [List.foldl_cons, ih, Js.mem_setAdd, List.mem_cons, or_assoc]

theorem FigmaParser.visitLayout_spacing_eq (node : Figma.NodeProps)
    (ds : FigmaParser.DesignSystem) :
    (FigmaParser.visitLayout node ds).spacing =
      (Spec.spacingValues node).foldl Js.setAdd ds.spacing := by
  unfold FigmaParser.visitLayout Spec.spacingValues
  rcases node.layoutMode with _ | mode
  · rfl
  · dsimp only
    by_cases hne : mode ≠ ""
    · rw [if_pos hne, if_pos hne, List.foldl_append]
      rcases node.itemSpacing with _ | g
      · dsimp only
        split
        · rfl
        · rfl
      · dsimp only
        by_cases hg : g ≠ 0
        · rw [if_pos hg, if_pos hg]
          split
          · rfl
          · rfl
        · rw [if_neg hg, if_neg hg]
          split
          · rfl
          · rfl
    · rw [if_neg hne, if_neg hne]
      rfl

theorem FigmaParser.visit_spacing (node : Figma.NodeProps) (ds ds' : FigmaParser.DesignSystem)
    (h : FigmaParser.visit node ds = Except.ok ds') (v : ℚ) :
    v ∈ ds'.spacing ↔ v ∈ ds.spacing ∨ v ∈ Spec.spacingValues node := by
  obtain ⟨ds₁, hf, rfl⟩ := FigmaParser.visit_ok node ds ds' h
  rw [(FigmaParser.visitEffects_frame node _).2.2.2.2.2.2,
    (FigmaParser.visitRadius_frame node _).2.2.2.2.2.2, FigmaParser.visitLayout_spacing_eq,
    Js.mem_foldl_setAdd, (FigmaParser.visitStyle_frame node _).2.2.2.2.2,
    (FigmaParser.visitStrokes_frame node _).2.2.2.2.2,
    (FigmaParser.visitFills_frame node ds ds₁ hf).2.2.2.2.2]

theorem FigmaParser.traverse_spacing (t : Figma.Node) (ds ds' : FigmaParser.DesignSystem)
    (h : FigmaParser.traverse t ds = Except.ok ds') (v : ℚ) :
    v ∈ ds'.spacing ↔
      v ∈ ds.spacing ∨ ∃ n ∈ Figma.Node.preorder t, v ∈ Spec.spacingValues n.props := by
  rw [FigmaParser.traverse_eq_foldlM] at h
  exact Js.foldlM_ok_mem
    (fun (ds : FigmaParser.DesignSystem) (n : Figma.Node) => FigmaParser.visit n.props ds)
    (fun d => d.spacing) (fun (n : Figma.Node) x => x ∈ Spec.spacingValues n.props)
    (fun d a d' hs => FigmaParser.visit_spacing a.props d d' hs) _ ds ds' h v

/-! ## Reordering children -/

theorem FigmaParser.parseFigmaNode_returns_of_reordered (t t' : Figma.Node)
    (hre : Spec.Reordered t t') :
    (∃ ts', FigmaParser.parseFigmaNode t' = Except.ok ts') ↔
      ∃ ts, FigmaParser.parseFigmaNode t = Except.ok ts := by
  have key : ∀ u : Figma.Node,
      (∃ ts, FigmaParser.parseFigmaNode u = Except.ok ts) ↔
        ¬ ∃ n ∈ Figma.Node.preorder u,
          ∃ fills, n.props.fills = some fills ∧ ∃ f ∈ fills, Spec.FillRaises f := by
    intro u
    rw [FigmaParser.parseFigmaNode_returns_iff]
    constructor
    · rintro h ⟨n, hn, fills, hf, f, hfm, hr⟩
      exact h n hn fills hf f hfm hr
    · intro h n hn fills hf f hfm hr
      exact h ⟨n, hn, fills, hf, f, hfm, hr⟩
  rw [key t', key t, Spec.reordered_exists_iff t t' hre
    (fun p => ∃ fills, p.fills = some fills ∧ ∃ f ∈ fills, Spec.FillRaises f)]

theorem FigmaParser.parseFigmaNode_reordered_ok (t t' : Figma.Node)
    (ts ts' : FigmaParser.TokenSet) (hre : Spec.Reordered t t')
    (hret : FigmaParser.parseFigmaNode t = Except.ok ts)
    (hret' : FigmaParser.parseFigmaNode t' = Except.ok ts') :
    ts'.spacingScale = ts.spacingScale ∧ ∀ c, c ∈ ts'.colors ↔ c ∈ ts.colors := by
  obtain ⟨ds, ht, hcolors, -, -, -, -, -, -, hsp⟩ := FigmaParser.parseFigmaNode_ok t ts hret
  obtain ⟨ds', ht', hcolors', -, -, -, -, -, -, hsp'⟩ :=
    FigmaParser.parseFigmaNode_ok t' ts' hret'
  constructor
  · have hmem : ∀ v, v ∈ ds'.spacing ↔ v ∈ ds.spacing := by
      intro v
      rw [FigmaParser.traverse_spacing t' {} ds' ht' v, FigmaParser.traverse_spacing t {} ds ht v,
        Spec.reordered_exists_iff t t' hre (fun p => v ∈ Spec.spacingValues p)]
    have hperm : ds'.spacing.Perm ds.spacing :=
      (List.perm_ext_iff_of_nodup
        (FigmaParser.traverse_spacing_nodup t' {} ds' ht' List.nodup_nil)
        (FigmaParser.traverse_spacing_nodup t {} ds ht List.nodup_nil)).mpr hmem
    have hsort : Js.sortNumeric ds'.spacing = Js.sortNumeric ds.spacing :=
      List.eq_of_perm_of_sorted
        (((List.perm_insertionSort (· ≤ ·) ds'.spacing).trans hperm).trans
          (List.perm_insertionSort (· ≤ ·) ds.spacing).symm)
        (List.sorted_insertionSort (· ≤ ·) ds'.spacing)
        (List.sorted_insertionSort (· ≤ ·) ds.spacing)
    rw [hsp, hsp', hsort]
  · intro c
    rw [hcolors, hcolors', (FigmaParser.traverse_colors t' {} ds' ht').1 c,
      (FigmaParser.traverse_colors t {} ds ht).1 c,
      Spec.reordered_exists_iff t t' hre (fun p => Spec.NodeYieldsColor p c)]

/-- C26: when the second tree is the first with the children of any of its nodes
reordered, `parseFigmaNode` returns on both or raises on both, the two results have
the identical `spacingScale` list, and their `colors` have the same elements; the
tree `stackTree` and its swap give the same scale and the colours in opposite order. -/
theorem parseFigmaNode_reorder_invariant (t t' : Figma.Node) (hre : Spec.Reordered t t') :
    (FigmaParser.parseFigmaNode t').map (fun ts => ts.spacingScale) =
      (FigmaParser.parseFigmaNode t).map (fun ts => ts.spacingScale) ∧
    (∀ ts ts', FigmaParser.parseFigmaNode t = Except.ok ts →
      FigmaParser.parseFigmaNode t' = Except.ok ts' → ∀ c, c ∈ ts'.colors ↔ c ∈ ts.colors) ∧
    FigmaParser.parseFigmaNode Example.stackTree = Except.ok Example.stackTokens ∧
    FigmaParser.parseFigmaNode Example.swappedStackTree =
      Except.ok Example.swappedStackTokens := by
  refine ⟨?_, fun ts ts' h h' =>
    (FigmaParser.parseFigmaNode_reordered_ok t t' ts ts' hre h h').2, by decide!, by decide!⟩
  have hiff := FigmaParser.parseFigmaNode_returns_of_reordered t t' hre
  rcases h : FigmaParser.parseFigmaNode t with e | ts
  · rcases h' : FigmaParser.parseFigmaNode t' with e' | ts'
    · cases e
      cases e'
      rfl
    · obtain ⟨ts, hts⟩ := hiff.mp ⟨ts', h'⟩
      rw [h] at hts
      cases hts
  · obtain ⟨ts', h'⟩ := hiff.mpr ⟨ts, h⟩
    rw [h']
    show Except.ok ts'.spacingScale = Except.ok ts.spacingScale
    rw [(FigmaParser.parseFigmaNode_reordered_ok t t' ts ts' hre h h').1]

theorem parseFigmaNode_reorder_invariant_witness :
    Spec.Reordered Example.stackTree Example.swappedStackTree ∧
    ((FigmaParser.parseFigmaNode Example.swappedStackTree).map (fun ts => ts.spacingScale) =
      (FigmaParser.parseFigmaNode Example.stackTree).map (fun ts => ts.spacingScale) ∧
    (∀ ts ts', FigmaParser.parseFigmaNode Example.stackTree = Except.ok ts →
      FigmaParser.parseFigmaNode Example.swappedStackTree = Except.ok ts' →
      ∀ c, c ∈ ts'.colors ↔ c ∈ ts.colors) ∧
    FigmaParser.parseFigmaNode Example.stackTree = Except.ok Example.stackTokens ∧
    FigmaParser.parseFigmaNode Example.swappedStackTree =
      Except.ok Example.swappedStackTokens) :=
  ⟨Spec.Reordered.present _ _ _ _
      (List.Forall₂.cons (Spec.Reordered.absent _)
        (List.Forall₂.cons (Spec.Reordered.absent _) List.Forall₂.nil))
      (List.Perm.swap _ _ _),
    parseFigmaNode_reorder_invariant Example.stackTree Example.swappedStackTree
      (Spec.Reordered.present _ _ _ _
        (List.Forall₂.cons (Spec.Reordered.absent _)
          (List.Forall₂.cons (Spec.Reordered.absent _) List.Forall₂.nil))
        (List.Perm.swap _ _ _))⟩
